import Mathlib

/-!
Pong Wars for Atari ST: a shallow embedding of `pongwars.c`

The C globals (`framebuffer`, `squares`, `dayScore`, `nightScore`,
`scores_changed`, `iteration`, `balls`) become the fields of `State`, and every
C function becomes a Lean function that threads the part of the state it
touches.  C `int` and `long` values are mathematical integers (`Int`); signed
overflow is undefined behaviour in C and is not modelled.  Division of a
run-time value is C's truncating division `Int.tdiv`; quotients of positive
compile-time constants are written with `/`.  The framebuffer is
viewed as the array of 16-bit words that `put_pixel` addresses through
`unsigned short *`; every stored word is reduced modulo `2 ^ 16`.
-/

namespace PongWars

/-! ## Screen and geometry constants -/

abbrev SCREEN_WIDTH : Int := 320
abbrev SCREEN_HEIGHT : Int := 200
abbrev PLANES : Nat := 4
/-- Words per scan line: `(SCREEN_WIDTH / 16) * PLANES`. -/
abbrev WORDS_PER_LINE : Int := (SCREEN_WIDTH / 16) * PLANES
abbrev GRID_SIZE : Int := 10
abbrev SQUARE_SIZE : Int := 20
abbrev GAME_PIXELS : Int := GRID_SIZE * SQUARE_SIZE
abbrev GAME_LEFT : Int := (SCREEN_WIDTH - GAME_PIXELS) / 2
abbrev GAME_TOP : Int := (SCREEN_HEIGHT - GAME_PIXELS) / 2
abbrev BALL_SIZE : Int := 10
abbrev BALL_VELOCITY : Int := 10
abbrev DIGIT_WIDTH : Int := 5
abbrev DIGIT_HEIGHT : Int := 7
abbrev MAX_SCORE_DIGITS : Int := 3
abbrev SCORE_AREA_WIDTH : Int := GAME_LEFT
abbrev MAX_SCORE_WIDTH : Int := MAX_SCORE_DIGITS * (DIGIT_WIDTH + 1) - 1
abbrev LEFT_SCORE_X : Int := (SCORE_AREA_WIDTH - MAX_SCORE_WIDTH) / 2
abbrev RIGHT_SCORE_X : Int :=
  GAME_LEFT + GAME_PIXELS + (SCORE_AREA_WIDTH - MAX_SCORE_WIDTH) / 2 + DIGIT_WIDTH
abbrev SCORE_CENTER_Y : Int := SCREEN_HEIGHT / 2

/-- The C macro `MAX(a, b)`. -/
def MAX (a b : Int) : Int := if a > b then a else b

/-- The C macro `MIN(a, b)`. -/
def MIN (a b : Int) : Int := if a < b then a else b

/-! ## Colour indices and owners -/

abbrev COLOR_BG : Int := 0
abbrev DAY_COLOR : Int := 1
abbrev NIGHT_COLOR : Int := 2
abbrev DAY_BALL_COLOR : Int := 3
abbrev NIGHT_BALL_COLOR : Int := 4
abbrev COLOR_TEXT : Int := 15
abbrev OWNER_DAY : Int := 1
abbrev OWNER_NIGHT : Int := 2

/-! ## Data model -/

/-- The offscreen buffer as 16-bit words: word index to word value. -/
abbrev Framebuffer := Nat → Nat

/-- The C struct `Ball`. -/
structure Ball where
  x : Int
  y : Int
  vx : Int
  vy : Int
  owner : Int
  color : Int
deriving DecidableEq, Repr

/-- All mutable globals of the program.  `squares gy gx` is `squares[gy][gx]`. -/
structure State where
  screen : Framebuffer
  squares : Int → Int → Int
  dayScore : Int
  nightScore : Int
  scores_changed : Int
  iteration : Int
  balls : Fin 2 → Ball

/-- The digit glyph table `digit_font[10][DIGIT_HEIGHT]`. -/
def digit_font : List (List Nat) :=
  [[0x1E, 0x11, 0x13, 0x15, 0x19, 0x11, 0x1E],
   [0x04, 0x0C, 0x14, 0x04, 0x04, 0x04, 0x1F],
   [0x1E, 0x11, 0x01, 0x06, 0x08, 0x10, 0x1F],
   [0x1E, 0x11, 0x01, 0x0E, 0x01, 0x11, 0x1E],
   [0x02, 0x06, 0x0A, 0x12, 0x1F, 0x02, 0x02],
   [0x1F, 0x10, 0x1E, 0x01, 0x01, 0x11, 0x1E],
   [0x06, 0x08, 0x10, 0x1E, 0x11, 0x11, 0x1E],
   [0x1F, 0x01, 0x02, 0x04, 0x08, 0x08, 0x08],
   [0x1E, 0x11, 0x11, 0x1E, 0x11, 0x11, 0x1E],
   [0x1E, 0x11, 0x11, 0x1F, 0x01, 0x02, 0x0C]]

/-! ## Low-level drawing -/

/-- One iteration of the plane loop of `put_pixel`: `p[plane] |= mask` when bit
`plane` of `colorBits` is set, `p[plane] &= (unsigned short)~mask` otherwise. -/
def put_pixel_plane (mask : Nat) (offset_words : Int) (colorBits : Nat)
    (scr : Framebuffer) (plane : Nat) : Framebuffer :=
  let idx := (offset_words + plane).toNat
  fun i =>
    if i = idx then
      if colorBits &&& (1 <<< plane) ≠ 0 then (scr idx ||| mask) % 65536
      else (scr idx &&& (65535 - mask)) % 65536
    else scr i

/-- The function `put_pixel(x, y, color)`. -/
def put_pixel (screen : Framebuffer) (x y color : Int) : Framebuffer :=
  if x < 0 ∨ x ≥ SCREEN_WIDTH ∨ y < 0 ∨ y ≥ SCREEN_HEIGHT then screen
  else
    let group : Int := x >>> 4
    let bit : Int := 15 - Int.land x 15
    let mask : Nat := (1 <<< bit.toNat) % 65536
    let offset_words : Int := y * WORDS_PER_LINE + group * PLANES
    let colorBits : Nat := (Int.land color 0x0F).toNat
    (List.range PLANES).foldl (put_pixel_plane mask offset_words colorBits) screen

/-- The function `fill_rect(x, y, w, h, color)`: the row loop runs for
`yy = y, ..., y + h - 1` and the column loop for `xx = x, ..., x + w - 1`. -/
def fill_rect (screen : Framebuffer) (x y w h color : Int) : Framebuffer :=
  (List.range h.toNat).foldl
    (fun scr (j : Nat) =>
      (List.range w.toNat).foldl (fun scr (i : Nat) => put_pixel scr (x + i) (y + j) color) scr)
    screen

/-- The function `clear_screen()`: `memset(screen, 0, SCREEN_BYTES)`. -/
def clear_screen (screen : Framebuffer) : Framebuffer :=
  fun i => if i < 16000 then 0 else screen i

/-- Bit `p` of the colour of pixel `(x, y)`: bit `15 - x mod 16` of the word at
offset `y * 80 + (x / 16) * 4 + p`. -/
def plane_bit (screen : Framebuffer) (x y p : Nat) : Bool :=
  Nat.testBit (screen (y * 80 + (x / 16) * 4 + p)) (15 - x % 16)

/-- The colour index of pixel `(x, y)` reconstructed from its four plane bits. -/
def read_pixel (screen : Framebuffer) (x y : Nat) : Nat :=
  (plane_bit screen x y 0).toNat + 2 * (plane_bit screen x y 1).toNat
    + 4 * (plane_bit screen x y 2).toNat + 8 * (plane_bit screen x y 3).toNat

/-! ## Board -/

/-- Writes `squares[gy][gx] = owner`. -/
def set_square (sq : Int → Int → Int) (gx gy owner : Int) : Int → Int → Int :=
  fun y x => if y = gy ∧ x = gx then owner else sq y x

/-- The body of the inner loop of `init_board` for cell `(x, y)`. -/
def init_board_cell (s : State) (x y : Int) : State :=
  let owner : Int := if x < GRID_SIZE / 2 then OWNER_DAY else OWNER_NIGHT
  let s := { s with squares := set_square s.squares x y owner }
  if owner = OWNER_DAY then { s with dayScore := s.dayScore + 1 }
  else { s with nightScore := s.nightScore + 1 }

/-- The function `init_board()`. -/
def init_board (s : State) : State :=
  let s := { s with dayScore := 0, nightScore := 0 }
  let s := (List.range GRID_SIZE.toNat).foldl
    (fun s (y : Nat) =>
      (List.range GRID_SIZE.toNat).foldl (fun s (x : Nat) => init_board_cell s x y) s) s
  { s with scores_changed := 1 }

/-- The function `draw_cell(gx, gy)`. -/
def draw_cell (s : State) (gx gy : Int) : State :=
  if gx < 0 ∨ gx ≥ GRID_SIZE ∨ gy < 0 ∨ gy ≥ GRID_SIZE then s
  else
    let owner := s.squares gy gx
    let color : Int :=
      if owner = OWNER_DAY then DAY_COLOR
      else if owner = OWNER_NIGHT then NIGHT_COLOR
      else COLOR_BG
    let x := GAME_LEFT + gx * SQUARE_SIZE
    let y := GAME_TOP + gy * SQUARE_SIZE
    { s with screen := fill_rect s.screen x y SQUARE_SIZE SQUARE_SIZE color }

/-- The function `drawSquares()`. -/
def drawSquares (s : State) : State :=
  (List.range GRID_SIZE.toNat).foldl
    (fun s (y : Nat) =>
      (List.range GRID_SIZE.toNat).foldl (fun s (x : Nat) => draw_cell s x y) s) s

/-- The function `paint_cell(gx, gy, owner)`. -/
def paint_cell (s : State) (gx gy owner : Int) : State :=
  if gx < 0 ∨ gx ≥ GRID_SIZE ∨ gy < 0 ∨ gy ≥ GRID_SIZE then s
  else if s.squares gy gx = owner then s
  else
    let s :=
      if s.squares gy gx = OWNER_DAY then { s with dayScore := s.dayScore - 1 }
      else if s.squares gy gx = OWNER_NIGHT then { s with nightScore := s.nightScore - 1 }
      else s
    let s := { s with squares := set_square s.squares gx gy owner }
    let s :=
      if owner = OWNER_DAY then { s with dayScore := s.dayScore + 1 }
      else if owner = OWNER_NIGHT then { s with nightScore := s.nightScore + 1 }
      else s
    let s := draw_cell s gx gy
    { s with scores_changed := 1 }

/-! ## Balls

A `Ball *` argument of the C code always points at `balls[i]`.  Functions that
only touch `*ball` are functions on `Ball`; `checkSquareCollision`, which also
updates the board through `paint_cell`, takes the index `i`. -/

/-- Writes `balls[i] = b`. -/
def set_ball (s : State) (i : Fin 2) (b : Ball) : State :=
  { s with balls := Function.update s.balls i b }

/-- The function `init_balls()`. -/
def init_balls (s : State) : State :=
  let s := set_ball s 0
    { x := GAME_PIXELS / 4, y := GAME_PIXELS / 2, vx := BALL_VELOCITY / 2,
      vy := BALL_VELOCITY, owner := OWNER_DAY, color := DAY_BALL_COLOR }
  set_ball s 1
    { x := (GAME_PIXELS * 3) / 4, y := GAME_PIXELS / 2, vx := -BALL_VELOCITY,
      vy := Int.tdiv (-BALL_VELOCITY) 2, owner := OWNER_NIGHT, color := NIGHT_BALL_COLOR }

/-- The integers `lo, lo + 1, ..., hi` visited by `for (g = lo; g <= hi; ++g)`. -/
def loop_incl (lo hi : Int) : List Int :=
  (List.range (hi - lo + 1).toNat).map (fun (k : Nat) => lo + (k : Int))

/-- The body of the inner loop of `eraseBall` for the candidate cell `(gx, gy)`. -/
def eraseBall_cell (s : State) (ball : Ball) (gx gy : Int) : State :=
  let cell_owner : Int :=
    if gx ≥ 0 ∧ gx < GRID_SIZE ∧ gy ≥ 0 ∧ gy < GRID_SIZE then s.squares gy gx else COLOR_BG
  let cell_color : Int :=
    if cell_owner = OWNER_DAY then DAY_COLOR
    else if cell_owner = OWNER_NIGHT then NIGHT_COLOR
    else COLOR_BG
  let cell_left := gx * SQUARE_SIZE
  let cell_top := gy * SQUARE_SIZE
  let cell_right := cell_left + SQUARE_SIZE - 1
  let cell_bottom := cell_top + SQUARE_SIZE - 1
  let ball_left := ball.x
  let ball_top := ball.y
  let ball_right := ball_left + BALL_SIZE - 1
  let ball_bottom := ball_top + BALL_SIZE - 1
  let overlap_left := MAX cell_left ball_left
  let overlap_top := MAX cell_top ball_top
  let overlap_right := MIN cell_right ball_right
  let overlap_bottom := MIN cell_bottom ball_bottom
  if overlap_left ≤ overlap_right ∧ overlap_top ≤ overlap_bottom then
    let overlap_x := GAME_LEFT + overlap_left
    let overlap_y := GAME_TOP + overlap_top
    let overlap_w := overlap_right - overlap_left + 1
    let overlap_h := overlap_bottom - overlap_top + 1
    { s with screen := fill_rect s.screen overlap_x overlap_y overlap_w overlap_h cell_color }
  else s

/-- The function `eraseBall(ball)`; C integer division truncates toward zero. -/
def eraseBall (s : State) (ball : Ball) : State :=
  let min_gx := Int.tdiv ball.x SQUARE_SIZE
  let max_gx := Int.tdiv (ball.x + BALL_SIZE - 1) SQUARE_SIZE
  let min_gy := Int.tdiv ball.y SQUARE_SIZE
  let max_gy := Int.tdiv (ball.y + BALL_SIZE - 1) SQUARE_SIZE
  (loop_incl min_gy max_gy).foldl
    (fun s gy => (loop_incl min_gx max_gx).foldl (fun s gx => eraseBall_cell s ball gx gy) s) s

/-- The function `drawBall(ball)`. -/
def drawBall (s : State) (ball : Ball) : State :=
  let x := GAME_LEFT + ball.x
  let y := GAME_TOP + ball.y
  { s with screen := fill_rect s.screen x y BALL_SIZE BALL_SIZE ball.color }

/-- The function `checkBoundaryCollision(ball)`. -/
def checkBoundaryCollision (ball : Ball) : Ball :=
  let ball :=
    if ball.x + ball.vx < 0 ∨ ball.x + BALL_SIZE + ball.vx > GAME_PIXELS then
      { ball with vx := -ball.vx }
    else ball
  if ball.y + ball.vy < 0 ∨ ball.y + BALL_SIZE + ball.vy > GAME_PIXELS then
    { ball with vy := -ball.vy }
  else ball

/-- The function `checkSquareCollision(&balls[i], old_gx, old_gy)`. -/
def checkSquareCollision (s : State) (i : Fin 2) (old_gx old_gy : Int) : State :=
  let center_x := (s.balls i).x + BALL_SIZE / 2
  let center_y := (s.balls i).y + BALL_SIZE / 2
  let gx := Int.tdiv center_x SQUARE_SIZE
  let gy := Int.tdiv center_y SQUARE_SIZE
  if gx < 0 ∨ gx ≥ GRID_SIZE ∨ gy < 0 ∨ gy ≥ GRID_SIZE then s
  else if s.squares gy gx ≠ (s.balls i).owner then
    let s := paint_cell s gx gy (s.balls i).owner
    let dxg := gx - old_gx
    let dyg := gy - old_gy
    if dxg ≠ 0 ∧ dyg = 0 then
      set_ball s i { s.balls i with vx := -(s.balls i).vx }
    else if dxg = 0 ∧ dyg ≠ 0 then
      set_ball s i { s.balls i with vy := -(s.balls i).vy }
    else
      let s := set_ball s i { s.balls i with vx := -(s.balls i).vx }
      set_ball s i { s.balls i with vy := -(s.balls i).vy }
  else
    paint_cell s gx gy (s.balls i).owner

/-- The function `addRandomness(ball)`, a stub. -/
def addRandomness (ball : Ball) : Ball := ball

/-- The function `handle_ball_collision()`. -/
def handle_ball_collision (s : State) : State :=
  let dx := (s.balls 0).x - (s.balls 1).x
  let dy := (s.balls 0).y - (s.balls 1).y
  let dx := if dx < 0 then -dx else dx
  let dy := if dy < 0 then -dy else dy
  if dx < BALL_SIZE ∧ dy < BALL_SIZE then
    let tmpvx := (s.balls 0).vx
    let tmpvy := (s.balls 0).vy
    let s := set_ball s 0 { s.balls 0 with vx := (s.balls 1).vx }
    let s := set_ball s 0 { s.balls 0 with vy := (s.balls 1).vy }
    let s := set_ball s 1 { s.balls 1 with vx := tmpvx }
    set_ball s 1 { s.balls 1 with vy := tmpvy }
  else s

/-! ## Text and counters -/

/-- The digit-extraction loop of `long_to_string`: `fuel` is the number of free
slots left in `tmp` (the loop guard `i < sizeof(tmp) - 1`), `tmp` holds the
characters written so far in the order they were written. -/
def long_to_string_loop : Nat → Int → List Char → List Char
  | 0, _, tmp => tmp
  | fuel + 1, value, tmp =>
    if value > 0 then
      let d := Int.tmod value 10
      long_to_string_loop fuel (Int.tdiv value 10) (tmp ++ [Char.ofNat (48 + d.toNat)])
    else tmp

/-- The function `long_to_string(value, buffer)`: the characters written to
`buffer` before the terminating NUL. -/
def long_to_string (value : Int) : List Char :=
  if value ≤ 0 then [Char.ofNat 48]
  else (long_to_string_loop 15 value []).reverse

/-- One step of the column loop of `draw_digit`. -/
def draw_digit_pixel (x y : Int) (color : Int) (row : Nat) (dy : Nat)
    (scr : Framebuffer) (dx : Nat) : Framebuffer :=
  let bit : Nat := (1 <<< (DIGIT_WIDTH.toNat - 1 - dx)) % 256
  if row &&& bit ≠ 0 then put_pixel scr (x + dx) (y + dy) color else scr

/-- The function `draw_digit(x, y, ch, color)`. -/
def draw_digit (screen : Framebuffer) (x y : Int) (ch : Char) (color : Int) : Framebuffer :=
  if ch.toNat < 48 ∨ ch.toNat > 57 then screen
  else
    let d := ch.toNat - 48
    (List.range DIGIT_HEIGHT.toNat).foldl
      (fun scr (dy : Nat) =>
        let row := (digit_font.getD d []).getD dy 0
        (List.range DIGIT_WIDTH.toNat).foldl (draw_digit_pixel x y color row dy) scr)
      screen

/-- The function `draw_number(x, center_y, value)`; the length loop over `buf`
is the length of the character list. -/
def draw_number (screen : Framebuffer) (x center_y value : Int) : Framebuffer :=
  let buf := long_to_string value
  let len := buf.length
  if len = 0 then screen
  else
    let width : Int := len * (DIGIT_WIDTH + 1) - 1
    let top_y := center_y - DIGIT_HEIGHT / 2
    let screen := fill_rect screen x top_y width DIGIT_HEIGHT COLOR_BG
    (List.range len).foldl
      (fun scr (i : Nat) =>
        draw_digit scr (x + (i : Int) * (DIGIT_WIDTH + 1)) top_y (buf.getD i (Char.ofNat 0))
          COLOR_TEXT)
      screen

/-- The function `draw_counters()`. -/
def draw_counters (s : State) : State :=
  let s := { s with screen := draw_number s.screen LEFT_SCORE_X SCORE_CENTER_Y s.dayScore }
  { s with screen := draw_number s.screen RIGHT_SCORE_X SCORE_CENTER_Y s.nightScore }

/-! ## One frame -/

/-- The movement phase of the per-ball loop of `draw`: `checkBoundaryCollision`,
the position update and the safety clamp. -/
def draw_move (ball : Ball) : Ball :=
  let ball := checkBoundaryCollision ball
  let ball := { ball with x := ball.x + ball.vx }
  let ball := { ball with y := ball.y + ball.vy }
  let ball := if ball.x < 0 then { ball with x := 0, vx := -ball.vx } else ball
  let ball := if ball.y < 0 then { ball with y := 0, vy := -ball.vy } else ball
  let ball :=
    if ball.x > GAME_PIXELS - BALL_SIZE then
      { ball with x := GAME_PIXELS - BALL_SIZE, vx := -ball.vx }
    else ball
  if ball.y > GAME_PIXELS - BALL_SIZE then
    { ball with y := GAME_PIXELS - BALL_SIZE, vy := -ball.vy }
  else ball

/-- The body of the second loop of `draw` for ball `i`: remember the old centre
cell, move, then resolve the territory collision. -/
def draw_ball_step (s : State) (i : Fin 2) : State :=
  let center_x_old := (s.balls i).x + BALL_SIZE / 2
  let center_y_old := (s.balls i).y + BALL_SIZE / 2
  let old_gx := Int.tdiv center_x_old SQUARE_SIZE
  let old_gy := Int.tdiv center_y_old SQUARE_SIZE
  let s := set_ball s i (draw_move (s.balls i))
  let s := checkSquareCollision s i old_gx old_gy
  set_ball s i (addRandomness (s.balls i))

/-- The statement `fill_rect(0, 0, 8, 16, COLOR_BG)` that opens `draw`. -/
def draw_cursor_area (s : State) : State :=
  { s with screen := fill_rect s.screen 0 0 8 16 COLOR_BG }

/-- The body of the erase loop of `draw`: `eraseBall(&balls[i])`. -/
def draw_erase (s : State) (i : Fin 2) : State := eraseBall s (s.balls i)

/-- The body of the last loop of `draw`: `drawBall(&balls[i])`. -/
def draw_ball_on_top (s : State) (i : Fin 2) : State := drawBall s (s.balls i)

/-- The counter update of `draw`: redraw and clear the flag when it is set. -/
def draw_update_counters (s : State) : State :=
  if s.scores_changed ≠ 0 then
    let s := draw_counters s
    { s with scores_changed := 0 }
  else s

/-- The statement `iteration++` that closes `draw`. -/
def draw_count_iteration (s : State) : State :=
  { s with iteration := s.iteration + 1 }

/-- The function `draw()`: one frame of the simulation; each loop over the two
balls is unrolled. -/
def draw (s : State) : State :=
  let s := draw_cursor_area s
  let s := draw_erase s 0
  let s := draw_erase s 1
  let s := draw_ball_step s 0
  let s := draw_ball_step s 1
  let s := handle_ball_collision s
  let s := draw_ball_on_top s 0
  let s := draw_ball_on_top s 1
  let s := draw_update_counters s
  draw_count_iteration s

/-! ## Specification-side definitions -/

/-- The transformer `g` gives colour `v` to the on-screen pixels selected by `P`
and keeps the colour of every other on-screen pixel. -/
def Paints (g : Framebuffer → Framebuffer) (P : Nat → Nat → Prop) (v : Nat) : Prop :=
  ∀ fb X Y, X < 320 → Y < 200 →
    (P X Y → read_pixel (g fb) X Y = v) ∧ (¬ P X Y → read_pixel (g fb) X Y = read_pixel fb X Y)

/-- Number of cells of the 10 x 10 grid that hold `owner`. -/
def cell_count (sq : Int → Int → Int) (owner : Int) : Nat :=
  ∑ y in Finset.range 10, ∑ x in Finset.range 10, if sq (y : Int) (x : Int) = owner then 1 else 0

/-- Territory colour of an owner tag, as computed by `draw_cell` and `eraseBall`. -/
def owner_color (owner : Int) : Int :=
  if owner = OWNER_DAY then DAY_COLOR else if owner = OWNER_NIGHT then NIGHT_COLOR else COLOR_BG

/-- A sequence of `paint_cell(gx, gy, owner)` calls, each given as `(gx, gy, owner)`. -/
def run_paint_cells (s : State) (calls : List (Int × Int × Int)) : State :=
  calls.foldl (fun s c => paint_cell s c.1 c.2.1 c.2.2) s

/-- Every cell of the grid holds `OWNER_DAY` or `OWNER_NIGHT`. -/
def cells_owned (sq : Int → Int → Int) : Prop :=
  ∀ x y : Int, 0 ≤ x → x < GRID_SIZE → 0 ≤ y → y < GRID_SIZE →
    sq y x = OWNER_DAY ∨ sq y x = OWNER_NIGHT

/-- The scores equal the cell counts and every cell is owned. -/
def board_ok (s : State) : Prop :=
  cells_owned s.squares ∧ s.dayScore = cell_count s.squares OWNER_DAY ∧
    s.nightScore = cell_count s.squares OWNER_NIGHT

/-- The cell under the ball's centre along x, as computed by `checkSquareCollision`. -/
def center_gx (ball : Ball) : Int := Int.tdiv (ball.x + BALL_SIZE / 2) SQUARE_SIZE

/-- The cell under the ball's centre along y, as computed by `checkSquareCollision`. -/
def center_gy (ball : Ball) : Int := Int.tdiv (ball.y + BALL_SIZE / 2) SQUARE_SIZE

/-- The state of `draw` after the cursor-area fill and the erase loop. -/
def draw_erased (s : State) : State :=
  draw_erase (draw_erase (draw_cursor_area s) 0) 1

/-- The state of `draw` after the per-ball loop and `handle_ball_collision`. -/
def draw_physics (s : State) : State :=
  handle_ball_collision (draw_ball_step (draw_ball_step (draw_erased s) 0) 1)

/-- A frame-start state in which the two balls are about to overlap: the initial
board, the day ball at `(85, 90)` and the night ball at `(106, 105)` with their
initial velocities `(5, 10)` and `(-10, -5)`. -/
def swap_state : State :=
  { screen := fun _ => 0
    squares := fun _ x => if x < 5 then OWNER_DAY else OWNER_NIGHT
    dayScore := 50, nightScore := 50, scores_changed := 0, iteration := 0
    balls := fun i =>
      if i = 0 then ⟨85, 90, 5, 10, OWNER_DAY, DAY_BALL_COLOR⟩
      else ⟨106, 105, -10, -5, OWNER_NIGHT, NIGHT_BALL_COLOR⟩ }

/-- The bounding boxes of two balls overlap: the test of `handle_ball_collision`. -/
def boxes_overlap (a b : Ball) : Prop :=
  |a.x - b.x| < BALL_SIZE ∧ |a.y - b.y| < BALL_SIZE

instance (a b : Ball) : Decidable (boxes_overlap a b) := by
  unfold boxes_overlap; infer_instance

/-- The territory step of `checkSquareCollision` changes nothing for `ball`: its
centre cell is outside the grid or already holds the ball's owner. -/
def no_capture (sq : Int → Int → Int) (ball : Ball) : Prop :=
  center_gx ball < 0 ∨ center_gx ball ≥ GRID_SIZE ∨ center_gy ball < 0 ∨
    center_gy ball ≥ GRID_SIZE ∨ sq (center_gy ball) (center_gx ball) = ball.owner

instance (sq : Int → Int → Int) (ball : Ball) : Decidable (no_capture sq ball) := by
  unfold no_capture; infer_instance

/-- The state of `draw` after the per-ball loop, before `handle_ball_collision`. -/
def draw_stepped (s : State) : State :=
  draw_ball_step (draw_ball_step (draw_erased s) 0) 1

/-- The state `swap_state` after both balls have moved: the day ball at
`(90, 100)`, the night ball at `(96, 100)`, their boxes overlapping. -/
def overlap_state : State :=
  { swap_state with
    balls := fun i =>
      if i = 0 then ⟨90, 100, 5, 10, OWNER_DAY, DAY_BALL_COLOR⟩
      else ⟨96, 100, -10, -5, OWNER_NIGHT, NIGHT_BALL_COLOR⟩ }

/-- The day ball has just crossed into the night half: its centre `(101, 105)`
lies in the night-owned cell `(5, 5)`. -/
def capture_state : State :=
  { swap_state with balls := fun _ => ⟨96, 100, 5, 10, OWNER_DAY, DAY_BALL_COLOR⟩ }

/-- The globals before `main` runs: zero-initialised statics, `scores_changed = 1`. -/
def boot_state : State :=
  { screen := fun _ => 0, squares := fun _ _ => 0, dayScore := 0, nightScore := 0,
    scores_changed := 1, iteration := 0, balls := fun _ => ⟨0, 0, 0, 0, 0, 0⟩ }

/-- The single-capture scenario: every cell day-owned except cell `(0, 0)`, which
is night-owned; scores 99 and 1, dirty flag clear. -/
def single_capture_state : State :=
  { boot_state with
    squares := fun y x => if y = 0 ∧ x = 0 then OWNER_NIGHT else OWNER_DAY
    dayScore := 99, nightScore := 1, scores_changed := 0 }

/-- The ball after `checkBoundaryCollision` and the position update of `draw`,
before the safety clamp. -/
def draw_move_unclamped (ball : Ball) : Ball :=
  let ball := checkBoundaryCollision ball
  let ball := { ball with x := ball.x + ball.vx }
  { ball with y := ball.y + ball.vy }

/-- The number denoted by a string of decimal digit characters, most significant
digit first. -/
def decimal_value (l : List Char) : Nat :=
  l.foldl (fun acc ch => 10 * acc + (ch.toNat - 48)) 0

/-- The character of the decimal digit `d`, as built by `long_to_string`:
`'0' + d`. -/
def digit_char (d : Nat) : Char := Char.ofNat (48 + d)

/-- Bit `4 - c` of `digit_font[d][j]`: whether column `c` (0 = leftmost) of row
`j` of the glyph of digit `d` is set. -/
def glyph_bit (d j c : Nat) : Bool :=
  ((digit_font.getD d []).getD j 0).testBit (4 - c)

/-- The digit shown by the `k`-th character of a string. -/
def digit_at (buf : List Char) (k : Nat) : Nat :=
  (buf.getD k (Char.ofNat 0)).toNat - 48

/-- The colour `draw_number` gives to the pixel in column `i` and row `j` of the
text box of `value`: `COLOR_TEXT` on a set glyph bit, `COLOR_BG` elsewhere,
including the one-pixel gaps between glyphs. -/
def number_pixel (value : Int) (i j : Nat) : Nat :=
  if i % 6 < 5 ∧ glyph_bit (digit_at (long_to_string value) (i / 6)) j (i % 6) = true then 15
  else 0

/-! ## Checked embedding

The same functions with every array access guarded: an index outside the array
yields `none`.  The framebuffer has `SCREEN_BYTES / 2` words, `squares` is
`GRID_SIZE x GRID_SIZE`, `digit_font` is `10 x DIGIT_HEIGHT`. -/

abbrev SCREEN_BYTES : Int := WORDS_PER_LINE * SCREEN_HEIGHT * 2

/-- Reads word `idx` of the framebuffer. -/
def word_read_chk (scr : Framebuffer) (idx : Int) : Option Nat :=
  if 0 ≤ idx ∧ idx < SCREEN_BYTES / 2 then some (scr idx.toNat) else none

/-- Writes word `idx` of the framebuffer. -/
def word_write_chk (scr : Framebuffer) (idx : Int) (v : Nat) : Option Framebuffer :=
  if 0 ≤ idx ∧ idx < SCREEN_BYTES / 2 then some (fun i => if i = idx.toNat then v else scr i)
  else none

/-- Reads `squares[gy][gx]`. -/
def square_read_chk (sq : Int → Int → Int) (gx gy : Int) : Option Int :=
  if 0 ≤ gy ∧ gy < GRID_SIZE ∧ 0 ≤ gx ∧ gx < GRID_SIZE then some (sq gy gx) else none

/-- Writes `squares[gy][gx] = owner`. -/
def square_write_chk (sq : Int → Int → Int) (gx gy owner : Int) : Option (Int → Int → Int) :=
  if 0 ≤ gy ∧ gy < GRID_SIZE ∧ 0 ≤ gx ∧ gx < GRID_SIZE then some (set_square sq gx gy owner)
  else none

/-- Reads `digit_font[d][dy]`. -/
def font_read_chk (d dy : Int) : Option Nat :=
  if 0 ≤ d ∧ 0 ≤ dy then (digit_font[d.toNat]?).bind (fun glyph => glyph[dy.toNat]?) else none

/-- Checked `put_pixel` plane step: `p[plane]` is read, then written. -/
def put_pixel_plane_chk (mask : Nat) (offset_words : Int) (colorBits : Nat)
    (scr : Framebuffer) (plane : Nat) : Option Framebuffer :=
  (word_read_chk scr (offset_words + plane)).bind fun w =>
    word_write_chk scr (offset_words + plane)
      (if colorBits &&& (1 <<< plane) ≠ 0 then (w ||| mask) % 65536
       else (w &&& (65535 - mask)) % 65536)

/-- Checked `put_pixel`. -/
def put_pixel_chk (screen : Framebuffer) (x y color : Int) : Option Framebuffer :=
  if x < 0 ∨ x ≥ SCREEN_WIDTH ∨ y < 0 ∨ y ≥ SCREEN_HEIGHT then some screen
  else
    let group : Int := x >>> 4
    let bit : Int := 15 - Int.land x 15
    let mask : Nat := (1 <<< bit.toNat) % 65536
    let offset_words : Int := y * WORDS_PER_LINE + group * PLANES
    let colorBits : Nat := (Int.land color 0x0F).toNat
    (List.range PLANES).foldlM (put_pixel_plane_chk mask offset_words colorBits) screen

/-- Checked `fill_rect`. -/
def fill_rect_chk (screen : Framebuffer) (x y w h color : Int) : Option Framebuffer :=
  (List.range h.toNat).foldlM
    (fun scr (j : Nat) =>
      (List.range w.toNat).foldlM (fun scr (i : Nat) => put_pixel_chk scr (x + i) (y + j) color)
        scr)
    screen

/-- Checked `draw_cell`. -/
def draw_cell_chk (s : State) (gx gy : Int) : Option State :=
  if gx < 0 ∨ gx ≥ GRID_SIZE ∨ gy < 0 ∨ gy ≥ GRID_SIZE then some s
  else
    (square_read_chk s.squares gx gy).bind fun owner =>
      let color : Int :=
        if owner = OWNER_DAY then DAY_COLOR
        else if owner = OWNER_NIGHT then NIGHT_COLOR
        else COLOR_BG
      let x := GAME_LEFT + gx * SQUARE_SIZE
      let y := GAME_TOP + gy * SQUARE_SIZE
      (fill_rect_chk s.screen x y SQUARE_SIZE SQUARE_SIZE color).map fun scr =>
        { s with screen := scr }

/-- Checked `paint_cell`; the three reads of `squares[gy][gx]` use one index. -/
def paint_cell_chk (s : State) (gx gy owner : Int) : Option State :=
  if gx < 0 ∨ gx ≥ GRID_SIZE ∨ gy < 0 ∨ gy ≥ GRID_SIZE then some s
  else
    (square_read_chk s.squares gx gy).bind fun cur =>
      if cur = owner then some s
      else
        let s :=
          if cur = OWNER_DAY then { s with dayScore := s.dayScore - 1 }
          else if cur = OWNER_NIGHT then { s with nightScore := s.nightScore - 1 }
          else s
        (square_write_chk s.squares gx gy owner).bind fun sq =>
          let s := { s with squares := sq }
          let s :=
            if owner = OWNER_DAY then { s with dayScore := s.dayScore + 1 }
            else if owner = OWNER_NIGHT then { s with nightScore := s.nightScore + 1 }
            else s
          (draw_cell_chk s gx gy).map fun s => { s with scores_changed := 1 }

/-- Checked body of the inner loop of `eraseBall`. -/
def eraseBall_cell_chk (s : State) (ball : Ball) (gx gy : Int) : Option State :=
  (if gx ≥ 0 ∧ gx < GRID_SIZE ∧ gy ≥ 0 ∧ gy < GRID_SIZE then square_read_chk s.squares gx gy
    else some COLOR_BG).bind fun cell_owner =>
    let cell_color : Int :=
      if cell_owner = OWNER_DAY then DAY_COLOR
      else if cell_owner = OWNER_NIGHT then NIGHT_COLOR
      else COLOR_BG
    let cell_left := gx * SQUARE_SIZE
    let cell_top := gy * SQUARE_SIZE
    let cell_right := cell_left + SQUARE_SIZE - 1
    let cell_bottom := cell_top + SQUARE_SIZE - 1
    let ball_left := ball.x
    let ball_top := ball.y
    let ball_right := ball_left + BALL_SIZE - 1
    let ball_bottom := ball_top + BALL_SIZE - 1
    let overlap_left := MAX cell_left ball_left
    let overlap_top := MAX cell_top ball_top
    let overlap_right := MIN cell_right ball_right
    let overlap_bottom := MIN cell_bottom ball_bottom
    if overlap_left ≤ overlap_right ∧ overlap_top ≤ overlap_bottom then
      let overlap_x := GAME_LEFT + overlap_left
      let overlap_y := GAME_TOP + overlap_top
      let overlap_w := overlap_right - overlap_left + 1
      let overlap_h := overlap_bottom - overlap_top + 1
      (fill_rect_chk s.screen overlap_x overlap_y overlap_w overlap_h cell_color).map fun scr =>
        { s with screen := scr }
    else some s

/-- Checked `eraseBall`. -/
def eraseBall_chk (s : State) (ball : Ball) : Option State :=
  let min_gx := Int.tdiv ball.x SQUARE_SIZE
  let max_gx := Int.tdiv (ball.x + BALL_SIZE - 1) SQUARE_SIZE
  let min_gy := Int.tdiv ball.y SQUARE_SIZE
  let max_gy := Int.tdiv (ball.y + BALL_SIZE - 1) SQUARE_SIZE
  (loop_incl min_gy max_gy).foldlM
    (fun s gy => (loop_incl min_gx max_gx).foldlM (fun s gx => eraseBall_cell_chk s ball gx gy) s)
    s

/-- The velocity update of `checkSquareCollision` after a capture. -/
def bounce (s : State) (i : Fin 2) (dxg dyg : Int) : State :=
  if dxg ≠ 0 ∧ dyg = 0 then
    set_ball s i { s.balls i with vx := -(s.balls i).vx }
  else if dxg = 0 ∧ dyg ≠ 0 then
    set_ball s i { s.balls i with vy := -(s.balls i).vy }
  else
    let s := set_ball s i { s.balls i with vx := -(s.balls i).vx }
    set_ball s i { s.balls i with vy := -(s.balls i).vy }

/-- Checked `checkSquareCollision`. -/
def checkSquareCollision_chk (s : State) (i : Fin 2) (old_gx old_gy : Int) : Option State :=
  let center_x := (s.balls i).x + BALL_SIZE / 2
  let center_y := (s.balls i).y + BALL_SIZE / 2
  let gx := Int.tdiv center_x SQUARE_SIZE
  let gy := Int.tdiv center_y SQUARE_SIZE
  if gx < 0 ∨ gx ≥ GRID_SIZE ∨ gy < 0 ∨ gy ≥ GRID_SIZE then some s
  else
    (square_read_chk s.squares gx gy).bind fun cur =>
      if cur ≠ (s.balls i).owner then
        (paint_cell_chk s gx gy (s.balls i).owner).map fun s =>
          bounce s i (gx - old_gx) (gy - old_gy)
      else
        paint_cell_chk s gx gy (s.balls i).owner

/-- Checked column step of `draw_digit`. -/
def draw_digit_pixel_chk (x y : Int) (color : Int) (row : Nat) (dy : Nat)
    (scr : Framebuffer) (dx : Nat) : Option Framebuffer :=
  let bit : Nat := (1 <<< (DIGIT_WIDTH.toNat - 1 - dx)) % 256
  if row &&& bit ≠ 0 then put_pixel_chk scr (x + dx) (y + dy) color else some scr

/-- Checked `draw_digit`: `d = ch - '0'` indexes `digit_font`. -/
def draw_digit_chk (screen : Framebuffer) (x y : Int) (ch : Char) (color : Int) :
    Option Framebuffer :=
  if ch.toNat < 48 ∨ ch.toNat > 57 then some screen
  else
    let d : Int := (ch.toNat : Int) - 48
    (List.range DIGIT_HEIGHT.toNat).foldlM
      (fun scr (dy : Nat) =>
        (font_read_chk d dy).bind fun row =>
          (List.range DIGIT_WIDTH.toNat).foldlM (draw_digit_pixel_chk x y color row dy) scr)
      screen

/-- The screen pixel `(X, Y)` lies in the `BALL_SIZE x BALL_SIZE` box of `ball`,
which `drawBall` fills at `(GAME_LEFT + ball.x, GAME_TOP + ball.y)`. -/
def in_ball_box (ball : Ball) (X Y : Nat) : Prop :=
  GAME_LEFT + ball.x ≤ X ∧ (X : Int) < GAME_LEFT + ball.x + BALL_SIZE ∧
    GAME_TOP + ball.y ≤ Y ∧ (Y : Int) < GAME_TOP + ball.y + BALL_SIZE

instance (ball : Ball) (X Y : Nat) : Decidable (in_ball_box ball X Y) := by
  unfold in_ball_box; infer_instance

/-- Territory colour of the cell that contains the game-area pixel `(px, py)`,
given relative to the top-left corner of the game area. -/
def territory_color (sq : Int → Int → Int) (px py : Nat) : Int :=
  owner_color (sq ((py / 20 : Nat) : Int) ((px / 20 : Nat) : Int))

/-- Two states agree on everything but the balls and the frame counter. -/
def same_board (a b : State) : Prop :=
  a.screen = b.screen ∧ a.squares = b.squares ∧ a.dayScore = b.dayScore ∧
    a.nightScore = b.nightScore ∧ a.scores_changed = b.scores_changed

/-- The colour `eraseBall` uses for the cell `(gx, gy)`: the territory colour of
an in-grid cell, `COLOR_BG` for a candidate cell outside the grid. -/
def erase_color (sq : Int → Int → Int) (gx gy : Int) : Int :=
  owner_color (if gx ≥ 0 ∧ gx < GRID_SIZE ∧ gy ≥ 0 ∧ gy < GRID_SIZE then sq gy gx else COLOR_BG)

/-- The pixel `(X, Y)` is repainted by `eraseBall(ball)`: it lies in the ball's
box and its cell is one of the candidate cells of the two loops. -/
def erased_pixel (ball : Ball) (X Y : Nat) : Prop :=
  in_ball_box ball X Y ∧
    (Int.tdiv ball.x SQUARE_SIZE ≤ ((X : Int) - GAME_LEFT) / SQUARE_SIZE ∧
      ((X : Int) - GAME_LEFT) / SQUARE_SIZE ≤ Int.tdiv (ball.x + BALL_SIZE - 1) SQUARE_SIZE) ∧
    (Int.tdiv ball.y SQUARE_SIZE ≤ ((Y : Int) - GAME_TOP) / SQUARE_SIZE ∧
      ((Y : Int) - GAME_TOP) / SQUARE_SIZE ≤ Int.tdiv (ball.y + BALL_SIZE - 1) SQUARE_SIZE)

instance (ball : Ball) (X Y : Nat) : Decidable (erased_pixel ball X Y) := by
  unfold erased_pixel; infer_instance

/-- No cell changes owner during the frame of `draw` that starts in `s`: the
grid is the entry grid after the loop body of ball 0 and after that of ball 1,
the only two places where `draw` can write `squares`. -/
def no_owner_change (s : State) : Prop :=
  (∀ gx gy : Int, 0 ≤ gx → gx < GRID_SIZE → 0 ≤ gy → gy < GRID_SIZE →
    (draw_ball_step (draw_erased s) 0).squares gy gx = s.squares gy gx) ∧
  (∀ gx gy : Int, 0 ≤ gx → gx < GRID_SIZE → 0 ≤ gy → gy < GRID_SIZE →
    (draw_stepped s).squares gy gx = s.squares gy gx)

/-- The startup sequence of `main` on the offscreen buffer: `clear_screen`,
`init_board`, `drawSquares`, `init_balls`, `drawBall` for both balls and
`draw_counters`. -/
def startup (s : State) : State :=
  let s := { s with screen := clear_screen s.screen }
  let s := init_board s
  let s := drawSquares s
  let s := init_balls s
  let s := drawBall s (s.balls 0)
  let s := drawBall s (s.balls 1)
  draw_counters s

/-- Every game-area pixel shows the territory colour of its cell. -/
def territory_drawn (s : State) : Prop :=
  ∀ X Y : Nat, 60 ≤ X → X < 260 → Y < 200 →
    read_pixel s.screen X Y = (territory_color s.squares (X - 60) Y).toNat

/-- The colour a consistent framebuffer shows at the game-area pixel
`(60 + px, py)`: ball 1 over ball 0 over the territory. -/
def scene_color (s : State) (px py : Nat) : Int :=
  if in_ball_box (s.balls 1) (60 + px) py then (s.balls 1).color
  else if in_ball_box (s.balls 0) (60 + px) py then (s.balls 0).color
  else territory_color s.squares px py

/-- Framebuffer/state consistency: every cell is owned, the scores are the cell
counts, ball 0 is day-owned and ball 1 night-owned, both are in the play area,
and every game-area pixel shows `scene_color`. -/
def consistent (s : State) : Prop :=
  cells_owned s.squares ∧ s.dayScore = cell_count s.squares OWNER_DAY ∧
    s.nightScore = cell_count s.squares OWNER_NIGHT ∧
    (s.balls 0).owner = OWNER_DAY ∧ (s.balls 1).owner = OWNER_NIGHT ∧
    (∀ i, 0 ≤ (s.balls i).x ∧ (s.balls i).x ≤ 190 ∧ 0 ≤ (s.balls i).y ∧ (s.balls i).y ≤ 190) ∧
    ∀ px py : Nat, px < 200 → py < 200 →
      ((read_pixel s.screen (60 + px) py : Nat) : Int) = scene_color s px py

/-- Consistency with both ball colours among the sixteen colour indices. -/
def consistent_colours (s : State) : Prop :=
  consistent s ∧ ∀ i, 0 ≤ (s.balls i).color ∧ (s.balls i).color ≤ 15

/-- The globals at the top of the frame loop of `main` after `n` frames: the
startup sequence run on the globals `s0`, then `n` calls of `draw()`. -/
def main_frames : Nat → State → State
  | 0, s0 => startup s0
  | n + 1, s0 => draw (main_frames n s0)

/-- A state the program can be in when it calls `draw()`: the startup sequence
followed by any number of frames. -/
def program_state (s : State) : Prop :=
  ∃ (s0 : State) (n : Nat), s = main_frames n s0

/-! ## Bit-level lemmas -/

theorem ldiff_fifteen (n : Nat) : Nat.ldiff 15 n = 15 - n % 16 := by
  have hr : n % 16 < 16 := Nat.mod_lt _ (by decide)
  apply Nat.eq_of_testBit_eq
  intro i
  rw [Nat.testBit_ldiff]
  have hm := Nat.testBit_mod_two_pow n 4 i
  norm_num at hm
  by_cases h : i < 4
  · simp only [h, decide_True, Bool.true_and] at hm
    rw [← hm]
    generalize n % 16 = r at hr
    interval_cases r <;> interval_cases i <;> decide
  · have h1 : Nat.testBit 15 i = false :=
      Nat.testBit_lt_two_pow
        (lt_of_lt_of_le (by decide : 15 < 2 ^ 4) (Nat.pow_le_pow_right (by decide) (by omega)))
    have h2 : Nat.testBit (15 - n % 16) i = false :=
      Nat.testBit_lt_two_pow
        (lt_of_lt_of_le (by omega : 15 - n % 16 < 2 ^ 4)
          (Nat.pow_le_pow_right (by decide) (by omega)))
    rw [h1, h2]; rfl

/-- Two's-complement `c & 0x0F` is the Euclidean remainder `c mod 16`. -/
theorem land_fifteen (c : Int) : Int.land c 15 = c % 16 := by
  cases c with
  | ofNat n =>
    show ((n &&& 15 : Nat) : Int) = _
    have := Nat.and_pow_two_sub_one_eq_mod n 4
    norm_num at this
    rw [this]; norm_cast
  | negSucc n =>
    show ((Nat.ldiff 15 n : Nat) : Int) = _
    rw [ldiff_fifteen, Int.negSucc_eq]
    omega

theorem and_shift_ne_zero (n p : Nat) : (n &&& (1 <<< p) ≠ 0) ↔ n.testBit p = true := by
  rw [Nat.one_shiftLeft, Nat.and_two_pow]
  have hp : 0 < 2 ^ p := Nat.two_pow_pos p
  cases h : n.testBit p
  · simp
  · simp

theorem testBit_set (w k b : Nat) (hb : b < 16) :
    ((w ||| 2 ^ k) % 65536).testBit b = (w.testBit b || decide (k = b)) := by
  have h := Nat.testBit_mod_two_pow (w ||| 2 ^ k) 16 b
  norm_num at h
  rw [h, Nat.testBit_two_pow]
  simp [hb]

theorem testBit_clear_mask (k b : Nat) (hk : k < 16) :
    (65535 - 2 ^ k).testBit b = (decide (b < 16) && !decide (k = b)) := by
  by_cases hb : b < 16
  · interval_cases k <;> interval_cases b <;> decide
  · have : (65535 - 2 ^ k) < 2 ^ b :=
      lt_of_lt_of_le (lt_of_le_of_lt (Nat.sub_le _ _) (by decide : 65535 < 2 ^ 16))
        (Nat.pow_le_pow_right (by decide) (by omega))
    rw [Nat.testBit_lt_two_pow this]
    simp [hb]

theorem testBit_clear (w k b : Nat) (hk : k < 16) (hb : b < 16) :
    ((w &&& (65535 - 2 ^ k)) % 65536).testBit b = (w.testBit b && !decide (k = b)) := by
  have h := Nat.testBit_mod_two_pow (w &&& (65535 - 2 ^ k)) 16 b
  norm_num at h
  rw [h, testBit_clear_mask k b hk]
  simp [hb]

theorem nibble_bits (n : Nat) (hn : n < 16) :
    (n.testBit 0).toNat + 2 * (n.testBit 1).toNat + 4 * (n.testBit 2).toNat
      + 8 * (n.testBit 3).toNat = n := by
  interval_cases n <;> rfl

/-! ## `put_pixel` at the level of words and pixels -/

theorem put_pixel_out (fb : Framebuffer) (x y c : Int)
    (h : x < 0 ∨ x ≥ 320 ∨ y < 0 ∨ y ≥ 200) : put_pixel fb x y c = fb := by
  unfold put_pixel
  rw [if_pos h]

theorem mask_eq (k : Nat) (hk : k < 16) : (1 <<< k) % 65536 = 2 ^ k := by
  rw [Nat.one_shiftLeft]
  interval_cases k <;> rfl

/-- The words written by an in-range `put_pixel`. -/
theorem put_pixel_apply (fb : Framebuffer) (X Y : Nat) (c : Int) (hX : X < 320) (hY : Y < 200)
    (i : Nat) :
    put_pixel fb X Y c i =
      if Y * 80 + X / 16 * 4 ≤ i ∧ i < Y * 80 + X / 16 * 4 + 4 then
        if ((c % 16).toNat).testBit (i - (Y * 80 + X / 16 * 4)) then
          (fb i ||| 2 ^ (15 - X % 16)) % 65536
        else (fb i &&& (65535 - 2 ^ (15 - X % 16))) % 65536
      else fb i := by
  have hg : ¬ ((X : Int) < 0 ∨ (X : Int) ≥ 320 ∨ (Y : Int) < 0 ∨ (Y : Int) ≥ 200) := by omega
  have hbit : (15 - (X : Int) % 16).toNat = 15 - X % 16 := by omega
  have hgroup : ((X : Int) >>> 4) = ((X / 16 : Nat) : Int) := by
    show ((X >>> 4 : Nat) : Int) = _
    rw [Nat.shiftRight_eq_div_pow]
  have hoff : ∀ p : Nat, ((Y : Int) * WORDS_PER_LINE + ((X / 16 : Nat) : Int) * PLANES + p).toNat
      = Y * 80 + X / 16 * 4 + p := by
    intro p
    simp only [WORDS_PER_LINE, SCREEN_WIDTH, PLANES]
    omega
  unfold put_pixel
  rw [if_neg hg]
  simp only [land_fifteen, hbit, hgroup, mask_eq (15 - X % 16) (by omega)]
  have hr : List.range PLANES = [0, 1, 2, 3] := by decide
  rw [hr]
  simp only [List.foldl, put_pixel_plane, hoff, and_shift_ne_zero]
  by_cases h0 : i = Y * 80 + X / 16 * 4 + 0
  · subst h0; simp
  by_cases h1 : i = Y * 80 + X / 16 * 4 + 1
  · subst h1; simp
  by_cases h2 : i = Y * 80 + X / 16 * 4 + 2
  · subst h2; simp
  by_cases h3 : i = Y * 80 + X / 16 * 4 + 3
  · subst h3; simp
  have hno : ¬ (Y * 80 + X / 16 * 4 ≤ i ∧ i < Y * 80 + X / 16 * 4 + 4) := by omega
  rw [if_neg hno]
  simp only [Nat.add_zero] at h0
  simp [h0, h1, h2, h3]

theorem plane_bit_put_pixel (fb : Framebuffer) (X Y : Nat) (c : Int) (hX : X < 320)
    (hY : Y < 200) (X' Y' p : Nat) (hX' : X' < 320) (hp : p < 4) :
    plane_bit (put_pixel fb X Y c) X' Y' p =
      if X' = X ∧ Y' = Y then ((c % 16).toNat).testBit p else plane_bit fb X' Y' p := by
  unfold plane_bit
  rw [put_pixel_apply fb X Y c hX hY]
  by_cases hw : Y' = Y ∧ X' / 16 = X / 16
  · obtain ⟨hy, hx⟩ := hw
    subst hy
    have hin : Y' * 80 + X / 16 * 4 ≤ Y' * 80 + X' / 16 * 4 + p ∧
        Y' * 80 + X' / 16 * 4 + p < Y' * 80 + X / 16 * 4 + 4 := by omega
    have hsub : Y' * 80 + X' / 16 * 4 + p - (Y' * 80 + X / 16 * 4) = p := by omega
    rw [if_pos hin, hsub]
    have hb : 15 - X' % 16 < 16 := by omega
    have hk : 15 - X % 16 < 16 := by omega
    by_cases hc : ((c % 16).toNat).testBit p = true
    · rw [if_pos hc, testBit_set _ _ _ hb]
      by_cases hxx : X' = X
      · subst hxx; simp [hc]
      · have : ¬ (15 - X % 16 = 15 - X' % 16) := by omega
        simp [hxx, this]
    · rw [if_neg hc, testBit_clear _ _ _ hk hb]
      by_cases hxx : X' = X
      · subst hxx; simp at hc; simp [hc]
      · have : ¬ (15 - X % 16 = 15 - X' % 16) := by omega
        simp [hxx, this]
  · have hout : ¬ (Y * 80 + X / 16 * 4 ≤ Y' * 80 + X' / 16 * 4 + p ∧
        Y' * 80 + X' / 16 * 4 + p < Y * 80 + X / 16 * 4 + 4) := by omega
    have hne : ¬ (X' = X ∧ Y' = Y) := by
      rintro ⟨h1, h2⟩; exact hw ⟨h2, by rw [h1]⟩
    rw [if_neg hout, if_neg hne]

/-- Reading a pixel back after `put_pixel`: the written pixel holds
`color mod 16`, every other on-screen pixel keeps its colour. -/
theorem read_pixel_put_pixel (fb : Framebuffer) (x y c : Int) (X' Y' : Nat) (hX' : X' < 320)
    (hY' : Y' < 200) :
    read_pixel (put_pixel fb x y c) X' Y' =
      if x = X' ∧ y = Y' then (c % 16).toNat else read_pixel fb X' Y' := by
  by_cases hg : x < 0 ∨ x ≥ 320 ∨ y < 0 ∨ y ≥ 200
  · rw [put_pixel_out fb x y c hg]
    have : ¬ (x = X' ∧ y = Y') := by omega
    rw [if_neg this]
  · have hx0 : x = ((x.toNat : Nat) : Int) := by omega
    have hy0 : y = ((y.toNat : Nat) : Int) := by omega
    have hXn : x.toNat < 320 := by omega
    have hYn : y.toNat < 200 := by omega
    rw [hx0, hy0]
    unfold read_pixel
    simp only [plane_bit_put_pixel fb x.toNat y.toNat c hXn hYn X' Y' _ hX' (by decide : 0 < 4),
      plane_bit_put_pixel fb x.toNat y.toNat c hXn hYn X' Y' _ hX' (by decide : 1 < 4),
      plane_bit_put_pixel fb x.toNat y.toNat c hXn hYn X' Y' _ hX' (by decide : 2 < 4),
      plane_bit_put_pixel fb x.toNat y.toNat c hXn hYn X' Y' _ hX' (by decide : 3 < 4)]
    by_cases he : X' = x.toNat ∧ Y' = y.toNat
    · have he' : ((x.toNat : Nat) : Int) = X' ∧ ((y.toNat : Nat) : Int) = Y' := by omega
      simp only [if_pos he', if_pos he]
      exact nibble_bits (c % 16).toNat (by omega)
    · have he' : ¬ (((x.toNat : Nat) : Int) = X' ∧ ((y.toNat : Nat) : Int) = Y') := by omega
      simp only [if_neg he', if_neg he]

/-! ## Rectangle fills at the level of pixels -/

theorem paints_congr {g : Framebuffer → Framebuffer} {P Q : Nat → Nat → Prop} {v : Nat}
    (h : Paints g P v) (hPQ : ∀ X Y, X < 320 → Y < 200 → (P X Y ↔ Q X Y)) : Paints g Q v := by
  intro fb X Y hX hY
  have := h fb X Y hX hY
  rw [hPQ X Y hX hY] at this
  exact this

theorem paints_put_pixel (x y c : Int) :
    Paints (fun fb => put_pixel fb x y c) (fun X Y => x = X ∧ y = Y) (c % 16).toNat := by
  intro fb X Y hX hY
  have h := read_pixel_put_pixel fb x y c X Y hX hY
  constructor
  · intro hP; rw [h, if_pos hP]
  · intro hP; rw [h, if_neg hP]

theorem paints_foldl {α : Type} (l : List α) (g : α → Framebuffer → Framebuffer)
    (P : α → Nat → Nat → Prop) (v : Nat) (h : ∀ a ∈ l, Paints (g a) (P a) v) :
    Paints (fun fb => l.foldl (fun scr a => g a scr) fb) (fun X Y => ∃ a ∈ l, P a X Y) v := by
  induction l with
  | nil =>
    intro fb X Y _ _
    simp
  | cons a l ih =>
    intro fb X Y hX hY
    have iha := ih (fun b hb => h b (List.mem_cons_of_mem a hb)) (g a fb) X Y hX hY
    have ha := h a (List.mem_cons_self a l) fb X Y hX hY
    simp only [List.foldl_cons, List.mem_cons, exists_eq_or_imp] at *
    by_cases h1 : ∃ b ∈ l, P b X Y
    · exact ⟨fun _ => iha.1 h1, fun hn => absurd (Or.inr h1) hn⟩
    · by_cases h2 : P a X Y
      · exact ⟨fun _ => by rw [iha.2 h1]; exact ha.1 h2, fun hn => absurd (Or.inl h2) hn⟩
      · exact ⟨fun hp => by rcases hp with hp | hp <;> contradiction,
          fun _ => by rw [iha.2 h1]; exact ha.2 h2⟩

theorem paints_fill_rect (x y w h c : Int) :
    Paints (fun fb => fill_rect fb x y w h c)
      (fun X Y => x ≤ X ∧ (X : Int) < x + w ∧ y ≤ Y ∧ (Y : Int) < y + h) (c % 16).toNat := by
  have inner : ∀ j : Nat, Paints
      (fun fb => (List.range w.toNat).foldl (fun scr (i : Nat) => put_pixel scr (x + i) (y + j) c) fb)
      (fun X Y => ∃ i ∈ List.range w.toNat, x + (i : Int) = X ∧ y + (j : Int) = Y)
      (c % 16).toNat := fun j =>
    paints_foldl (List.range w.toNat) (fun (i : Nat) fb => put_pixel fb (x + i) (y + j) c)
      (fun (i : Nat) X Y => x + (i : Int) = X ∧ y + (j : Int) = Y) _
      (fun i _ => paints_put_pixel (x + i) (y + j) c)
  have outer := paints_foldl (List.range h.toNat)
    (fun (j : Nat) fb =>
      (List.range w.toNat).foldl (fun scr (i : Nat) => put_pixel scr (x + i) (y + j) c) fb)
    (fun (j : Nat) X Y => ∃ i ∈ List.range w.toNat, x + (i : Int) = X ∧ y + (j : Int) = Y) _
    (fun j _ => inner j)
  have outer' : Paints (fun fb => fill_rect fb x y w h c)
      (fun X Y => ∃ j ∈ List.range h.toNat, ∃ i ∈ List.range w.toNat,
        x + (i : Int) = X ∧ y + (j : Int) = Y) (c % 16).toNat := outer
  refine paints_congr outer' ?_
  intro X Y _ _
  simp only [List.mem_range]
  constructor
  · rintro ⟨j, hj, i, hi, h1, h2⟩
    omega
  · rintro ⟨h1, h2, h3, h4⟩
    exact ⟨(Y - y).toNat, by omega, (X - x).toNat, by omega, by omega, by omega⟩

/-- Pixel-level effect of `fill_rect`. -/
theorem read_pixel_fill_rect (fb : Framebuffer) (x y w h c : Int) (X Y : Nat) (hX : X < 320)
    (hY : Y < 200) :
    read_pixel (fill_rect fb x y w h c) X Y =
      if x ≤ X ∧ (X : Int) < x + w ∧ y ≤ Y ∧ (Y : Int) < y + h then (c % 16).toNat
      else read_pixel fb X Y := by
  have := paints_fill_rect x y w h c fb X Y hX hY
  split_ifs with hc
  · exact this.1 hc
  · exact this.2 hc

/-! ## Pixel codec -/

/-- C4 (pixel codec round-trip): for every framebuffer and every in-range
`(x, y)`, the colour reconstructed from the four plane bits of the pixel after
`put_pixel(x, y, c)` is `c mod 16` for an arbitrary integer `c`, hence `c`
itself for a colour index `0 ≤ c ≤ 15`. -/
theorem put_pixel_roundtrip (fb : Framebuffer) (x y c : Int)
    (hx : 0 ≤ x ∧ x < SCREEN_WIDTH) (hy : 0 ≤ y ∧ y < SCREEN_HEIGHT) :
    ((read_pixel (put_pixel fb x y c) x.toNat y.toNat : Nat) : Int) = c % 16 ∧
      (0 ≤ c ∧ c ≤ 15 → ((read_pixel (put_pixel fb x y c) x.toNat y.toNat : Nat) : Int) = c) := by
  simp only [SCREEN_WIDTH, SCREEN_HEIGHT] at hx hy
  have h := read_pixel_put_pixel fb x y c x.toNat y.toNat (by omega) (by omega)
  have he : x = ((x.toNat : Nat) : Int) ∧ y = ((y.toNat : Nat) : Int) := by omega
  rw [if_pos he] at h
  rw [h]
  constructor
  · omega
  · intro hc; omega

/-- Witness for C4: colour 6 written at pixel `(37, 5)` of an all-ones buffer reads back as 6. -/
theorem put_pixel_roundtrip_witness :
    ((read_pixel (put_pixel (fun _ => 65535) 37 5 6) (37 : Int).toNat (5 : Int).toNat : Nat) : Int)
        = 6 % 16 ∧
      ((0 : Int) ≤ 6 ∧ (6 : Int) ≤ 15 →
        ((read_pixel (put_pixel (fun _ => 65535) 37 5 6) (37 : Int).toNat (5 : Int).toNat : Nat)
          : Int) = 6) :=
  put_pixel_roundtrip (fun _ => 65535) 37 5 6 (by decide) (by decide)

/-- C5 (`put_pixel` touches only its own pixel): for in-range `(x, y)` every
word other than the four plane words at offsets `y*80 + (x/16)*4 + plane` is
unchanged, in those four words every bit of the 16-bit word other than bit
`15 - x mod 16` is unchanged (for every bit index when the buffer holds 16-bit
values), and every other on-screen pixel reads back as before; for out-of-range
`(x, y)` the framebuffer is unchanged. -/
theorem put_pixel_frame (fb : Framebuffer) (x y c : Int) :
    (0 ≤ x ∧ x < SCREEN_WIDTH ∧ 0 ≤ y ∧ y < SCREEN_HEIGHT →
      (∀ i : Nat, ¬ (y.toNat * 80 + x.toNat / 16 * 4 ≤ i ∧ i < y.toNat * 80 + x.toNat / 16 * 4 + 4) →
        put_pixel fb x y c i = fb i) ∧
      (∀ i b : Nat, b < 16 → b ≠ 15 - x.toNat % 16 →
        (put_pixel fb x y c i).testBit b = (fb i).testBit b) ∧
      ((∀ i, fb i < 65536) → ∀ i b : Nat, b ≠ 15 - x.toNat % 16 →
        (put_pixel fb x y c i).testBit b = (fb i).testBit b) ∧
      (∀ X Y : Nat, X < 320 → Y < 200 → ¬ (x = X ∧ y = Y) →
        read_pixel (put_pixel fb x y c) X Y = read_pixel fb X Y)) ∧
    (x < 0 ∨ x ≥ SCREEN_WIDTH ∨ y < 0 ∨ y ≥ SCREEN_HEIGHT → put_pixel fb x y c = fb) := by
  simp only [SCREEN_WIDTH, SCREEN_HEIGHT]
  refine ⟨?_, put_pixel_out fb x y c⟩
  intro hin
  have hx0 : x = ((x.toNat : Nat) : Int) := by omega
  have hy0 : y = ((y.toNat : Nat) : Int) := by omega
  have happ := put_pixel_apply fb x.toNat y.toNat c (by omega) (by omega)
  rw [← hx0, ← hy0] at happ
  have hbits : ∀ i b : Nat, b < 16 → b ≠ 15 - x.toNat % 16 →
      (put_pixel fb x y c i).testBit b = (fb i).testBit b := by
    intro i b hb hne
    rw [happ]
    have hk : 15 - x.toNat % 16 < 16 := by omega
    have hd : decide (15 - x.toNat % 16 = b) = false := by
      simp only [decide_eq_false_iff_not]; omega
    split_ifs
    · rw [testBit_set _ _ _ hb, hd]; simp
    · rw [testBit_clear _ _ _ hk hb, hd]; simp
    · rfl
  refine ⟨?_, hbits, ?_, ?_⟩
  · intro i hi
    rw [happ, if_neg hi]
  · intro hwf i b hne
    by_cases hb : b < 16
    · exact hbits i b hb hne
    · have hpow : 65536 ≤ 2 ^ b :=
        le_trans (by decide : 65536 ≤ 2 ^ 16) (Nat.pow_le_pow_right (by decide) (by omega))
      have hnew : put_pixel fb x y c i < 65536 := by
        rw [happ]
        split_ifs
        · exact Nat.mod_lt _ (by decide)
        · exact Nat.mod_lt _ (by decide)
        · exact hwf i
      rw [Nat.testBit_lt_two_pow (lt_of_lt_of_le hnew hpow),
        Nat.testBit_lt_two_pow (lt_of_lt_of_le (hwf i) hpow)]
  · intro X Y hX hY hne
    rw [read_pixel_put_pixel fb x y c X Y hX hY, if_neg hne]

/-- Witness for C5: writing pixel `(37, 5)` of an all-ones buffer keeps every bit other than bit `15 - 37 mod 16`, and a write at `x = -1` changes nothing. -/
theorem put_pixel_frame_witness :
    ((0 : Int) ≤ 37 ∧ (37 : Int) < SCREEN_WIDTH ∧ (0 : Int) ≤ 5 ∧ (5 : Int) < SCREEN_HEIGHT) ∧
      (∀ i, (fun _ => 65535 : Framebuffer) i < 65536) ∧
      (∀ i b : Nat, b ≠ 15 - (37 : Int).toNat % 16 →
        (put_pixel (fun _ => 65535) 37 5 6 i).testBit b
          = ((fun _ => 65535 : Framebuffer) i).testBit b) ∧
      ((-1 : Int) < 0 ∨ (-1 : Int) ≥ SCREEN_WIDTH ∨ (5 : Int) < 0 ∨ (5 : Int) ≥ SCREEN_HEIGHT) ∧
      put_pixel (fun _ => 65535) (-1) 5 6 = (fun _ => 65535) :=
  ⟨by decide, fun _ => (by decide : (65535 : Nat) < 65536),
    ((put_pixel_frame (fun _ => 65535) 37 5 6).1 (by decide)).2.2.1
      (fun _ => (by decide : (65535 : Nat) < 65536)),
    by decide, (put_pixel_frame (fun _ => 65535) (-1) 5 6).2 (by decide)⟩

/-! ## The board -/

theorem init_board_row (s : State) (y : Int) (n : Nat) :
    (List.range n).foldl (fun s (x : Nat) => init_board_cell s x y) s =
      { s with
        squares := fun y' x' =>
          if y' = y ∧ 0 ≤ x' ∧ x' < n then (if x' < 5 then 1 else 2) else s.squares y' x'
        dayScore := s.dayScore + (min n 5 : Nat)
        nightScore := s.nightScore + (n - min n 5 : Nat) } := by
  induction n with
  | zero =>
    cases s
    simp only [List.range_zero, List.foldl_nil, State.mk.injEq, true_and, and_true]
    refine ⟨?_, by simp, by simp⟩
    funext y' x'
    have : ¬ (y' = y ∧ 0 ≤ x' ∧ x' < ((0 : Nat) : Int)) := by omega
    rw [if_neg this]
  | succ n ih =>
    rw [List.range_succ, List.foldl_append, ih]
    simp only [List.foldl_cons, List.foldl_nil, init_board_cell, set_square, GRID_SIZE,
      OWNER_DAY, OWNER_NIGHT]
    by_cases h5 : (n : Int) < 10 / 2
    · simp only [if_pos h5, if_true, State.mk.injEq, true_and, and_true]
      refine ⟨?_, by omega, by omega⟩
      funext y' x'
      by_cases hy : y' = y <;> by_cases hx : x' = (n : Int) <;> simp [set_square, hy, hx] <;>
        omega
    · have h12 : ¬ ((2 : Int) = 1) := by decide
      simp only [if_neg h5, if_neg h12, State.mk.injEq, true_and, and_true]
      refine ⟨?_, by omega, by omega⟩
      funext y' x'
      by_cases hy : y' = y <;> by_cases hx : x' = (n : Int) <;> simp [set_square, hy, hx] <;>
        omega

theorem init_board_rows (s : State) (m : Nat) :
    (List.range m).foldl
        (fun s (y : Nat) => (List.range 10).foldl (fun s (x : Nat) => init_board_cell s x y) s) s =
      { s with
        squares := fun y' x' =>
          if 0 ≤ y' ∧ y' < m ∧ 0 ≤ x' ∧ x' < 10 then (if x' < 5 then 1 else 2)
          else s.squares y' x'
        dayScore := s.dayScore + 5 * m
        nightScore := s.nightScore + 5 * m } := by
  induction m with
  | zero =>
    cases s
    simp only [List.range_zero, List.foldl_nil, State.mk.injEq, true_and, and_true]
    refine ⟨?_, by simp, by simp⟩
    funext y' x'
    have : ¬ (0 ≤ y' ∧ y' < ((0 : Nat) : Int) ∧ 0 ≤ x' ∧ x' < 10) := by omega
    rw [if_neg this]
  | succ m ih =>
    rw [List.range_succ m, List.foldl_append, ih]
    simp only [List.foldl_cons, List.foldl_nil, init_board_row, State.mk.injEq, true_and,
      and_true]
    refine ⟨?_, by push_cast; omega, by push_cast; omega⟩
    funext y' x'
    by_cases hy : y' = (m : Int)
    · subst hy
      by_cases hx : 0 ≤ x' ∧ x' < 10
      · have h1 : (m : Int) = m ∧ 0 ≤ x' ∧ x' < ((10 : Nat) : Int) := ⟨rfl, by omega⟩
        have h2 : 0 ≤ (m : Int) ∧ (m : Int) < ((m + 1 : Nat) : Int) ∧ 0 ≤ x' ∧ x' < 10 := by
          omega
        rw [if_pos h1, if_pos h2]
      · have h1 : ¬ ((m : Int) = m ∧ 0 ≤ x' ∧ x' < ((10 : Nat) : Int)) := by omega
        have h2 : ¬ (0 ≤ (m : Int) ∧ (m : Int) < ((m + 1 : Nat) : Int) ∧ 0 ≤ x' ∧ x' < 10) := by
          omega
        have h3 : ¬ (0 ≤ (m : Int) ∧ (m : Int) < (m : Int) ∧ 0 ≤ x' ∧ x' < 10) := by omega
        rw [if_neg h1, if_neg h2, if_neg h3]
    · have h1 : ¬ (y' = (m : Int) ∧ 0 ≤ x' ∧ x' < ((10 : Nat) : Int)) := by omega
      rw [if_neg h1]
      by_cases h2 : 0 ≤ y' ∧ y' < (m : Int) ∧ 0 ≤ x' ∧ x' < 10
      · have h3 : 0 ≤ y' ∧ y' < ((m + 1 : Nat) : Int) ∧ 0 ≤ x' ∧ x' < 10 := by omega
        rw [if_pos h2, if_pos h3]
      · have h3 : ¬ (0 ≤ y' ∧ y' < ((m + 1 : Nat) : Int) ∧ 0 ≤ x' ∧ x' < 10) := by omega
        rw [if_neg h2, if_neg h3]

/-- Closed form of `init_board`. -/
theorem init_board_eq (s : State) :
    init_board s =
      { s with
        squares := fun y' x' =>
          if 0 ≤ y' ∧ y' < 10 ∧ 0 ≤ x' ∧ x' < 10 then (if x' < 5 then 1 else 2)
          else s.squares y' x'
        dayScore := 50
        nightScore := 50
        scores_changed := 1 } := by
  unfold init_board
  have h10 : GRID_SIZE.toNat = 10 := by decide
  simp only [h10, init_board_rows]
  simp

theorem set_square_same (sq : Int → Int → Int) (gx gy owner : Int) :
    set_square sq gx gy owner gy gx = owner := by
  simp [set_square]

theorem draw_cell_in (s : State) (gx gy : Int) (hg : 0 ≤ gx ∧ gx < 10 ∧ 0 ≤ gy ∧ gy < 10) :
    draw_cell s gx gy =
      { s with screen :=
          fill_rect s.screen (60 + gx * 20) (gy * 20) 20 20 (owner_color (s.squares gy gx)) } := by
  have hgrid : ¬ (gx < 0 ∨ gx ≥ GRID_SIZE ∨ gy < 0 ∨ gy ≥ GRID_SIZE) := by
    simp only [GRID_SIZE]; omega
  have hl : GAME_LEFT = 60 := by decide
  have ht : GAME_TOP = 0 := by decide
  unfold draw_cell
  rw [if_neg hgrid]
  simp only [hl, ht, owner_color, SQUARE_SIZE, zero_add]

/-- Closed form of `paint_cell` when the cell is in the grid and changes owner. -/
theorem paint_cell_change (s : State) (gx gy owner : Int)
    (hg : 0 ≤ gx ∧ gx < 10 ∧ 0 ≤ gy ∧ gy < 10) (hne : s.squares gy gx ≠ owner) :
    paint_cell s gx gy owner =
      { screen := fill_rect s.screen (60 + gx * 20) (gy * 20) 20 20 (owner_color owner)
        squares := set_square s.squares gx gy owner
        dayScore := s.dayScore - (if s.squares gy gx = 1 then 1 else 0)
          + (if owner = 1 then 1 else 0)
        nightScore := s.nightScore - (if s.squares gy gx = 2 then 1 else 0)
          + (if owner = 2 then 1 else 0)
        scores_changed := 1
        iteration := s.iteration
        balls := s.balls } := by
  have hgrid : ¬ (gx < 0 ∨ gx ≥ GRID_SIZE ∨ gy < 0 ∨ gy ≥ GRID_SIZE) := by
    simp only [GRID_SIZE]; omega
  unfold paint_cell
  rw [if_neg hgrid, if_neg hne]
  simp only [draw_cell_in _ gx gy hg, OWNER_DAY, OWNER_NIGHT]
  by_cases ho1 : s.squares gy gx = 1 <;> by_cases ho2 : s.squares gy gx = 2 <;>
    by_cases hn1 : owner = 1 <;> by_cases hn2 : owner = 2 <;>
    simp [set_square_same, ho1, ho2, hn1, hn2]

theorem cell_count_cast (sq : Int → Int → Int) (o : Int) :
    ((cell_count sq o : Nat) : Int) =
      ∑ y in Finset.range 10, ∑ x in Finset.range 10,
        if sq (y : Int) (x : Int) = o then (1 : Int) else 0 := by
  unfold cell_count
  push_cast
  rfl

/-- Effect of one cell write on the number of cells held by `o`. -/
theorem cell_count_set_square (sq : Int → Int → Int) (gx gy owner o : Int)
    (hg : 0 ≤ gx ∧ gx < 10 ∧ 0 ≤ gy ∧ gy < 10) :
    ((cell_count (set_square sq gx gy owner) o : Nat) : Int) =
      cell_count sq o + (if owner = o then 1 else 0) - (if sq gy gx = o then 1 else 0) := by
  obtain ⟨GX, rfl⟩ : ∃ GX : Nat, gx = GX := ⟨gx.toNat, by omega⟩
  obtain ⟨GY, rfl⟩ : ∃ GY : Nat, gy = GY := ⟨gy.toNat, by omega⟩
  have hGX : GX ∈ Finset.range 10 := by rw [Finset.mem_range]; omega
  have hGY : GY ∈ Finset.range 10 := by rw [Finset.mem_range]; omega
  rw [cell_count_cast, cell_count_cast]
  have hpt : ∀ y x : Nat,
      (if set_square sq GX GY owner (y : Int) (x : Int) = o then (1 : Int) else 0) =
        (if sq (y : Int) (x : Int) = o then (1 : Int) else 0)
          + (if x = GX then (if y = GY then
              ((if owner = o then (1 : Int) else 0) - (if sq GY GX = o then 1 else 0)) else 0)
            else 0) := by
    intro y x
    unfold set_square
    by_cases hy : y = GY
    · by_cases hx : x = GX
      · subst hy; subst hx; simp
      · have : ¬ ((x : Int) = (GX : Int)) := by omega
        simp [hy, hx, this]
    · have : ¬ ((y : Int) = (GY : Int)) := by omega
      simp [hy, this]
  simp only [hpt, Finset.sum_add_distrib, Finset.sum_ite_eq', hGX, hGY, if_true]
  ring

theorem cell_count_congr (sq sq' : Int → Int → Int) (o : Int)
    (h : ∀ x y : Int, 0 ≤ x → x < 10 → 0 ≤ y → y < 10 → sq y x = sq' y x) :
    cell_count sq o = cell_count sq' o := by
  unfold cell_count
  refine Finset.sum_congr rfl (fun y hy => Finset.sum_congr rfl (fun x hx => ?_))
  rw [Finset.mem_range] at hx hy
  rw [h x y (by omega) (by omega) (by omega) (by omega)]

theorem cell_count_total (sq : Int → Int → Int)
    (h : ∀ x y : Int, 0 ≤ x → x < 10 → 0 ≤ y → y < 10 → sq y x = 1 ∨ sq y x = 2) :
    cell_count sq 1 + cell_count sq 2 = 100 := by
  unfold cell_count
  rw [← Finset.sum_add_distrib]
  have : ∀ y ∈ Finset.range 10,
      ((∑ x in Finset.range 10, if sq (y : Int) (x : Int) = 1 then 1 else 0)
        + ∑ x in Finset.range 10, if sq (y : Int) (x : Int) = 2 then 1 else 0) = 10 := by
    intro y hy
    rw [← Finset.sum_add_distrib]
    have hx : ∀ x ∈ Finset.range 10,
        ((if sq (y : Int) (x : Int) = 1 then 1 else 0)
          + (if sq (y : Int) (x : Int) = 2 then 1 else 0)) = 1 := by
      intro x hx
      rw [Finset.mem_range] at hx hy
      rcases h x y (by omega) (by omega) (by omega) (by omega) with h1 | h2
      · simp [h1]
      · simp [h2]
    rw [Finset.sum_congr rfl hx]
    simp
  rw [Finset.sum_congr rfl this]
  simp

theorem cell_count_init (sq : Int → Int → Int)
    (h : ∀ x y : Int, 0 ≤ x → x < 10 → 0 ≤ y → y < 10 → sq y x = if x < 5 then 1 else 2) :
    cell_count sq 1 = 50 ∧ cell_count sq 2 = 50 := by
  have e1 := cell_count_congr sq (fun _ x => if x < 5 then 1 else 2) 1 h
  have e2 := cell_count_congr sq (fun _ x => if x < 5 then 1 else 2) 2 h
  rw [e1, e2]
  constructor <;> decide

theorem paint_cell_noop (s : State) (gx gy owner : Int)
    (h : gx < 0 ∨ gx ≥ 10 ∨ gy < 0 ∨ gy ≥ 10 ∨ s.squares gy gx = owner) :
    paint_cell s gx gy owner = s := by
  unfold paint_cell
  by_cases hg : gx < 0 ∨ gx ≥ GRID_SIZE ∨ gy < 0 ∨ gy ≥ GRID_SIZE
  · rw [if_pos hg]
  · rw [if_neg hg]
    simp only [GRID_SIZE] at hg
    have : s.squares gy gx = owner := by
      rcases h with h | h | h | h | h
      · omega
      · omega
      · omega
      · omega
      · exact h
    rw [if_pos this]

theorem board_ok_init_board (s : State) : board_ok (init_board s) := by
  rw [init_board_eq]
  have hsq : ∀ x y : Int, 0 ≤ x → x < 10 → 0 ≤ y → y < 10 →
      (fun y' x' : Int => if 0 ≤ y' ∧ y' < 10 ∧ 0 ≤ x' ∧ x' < 10 then (if x' < 5 then (1 : Int) else 2)
        else s.squares y' x') y x = if x < 5 then 1 else 2 := by
    intro x y h1 h2 h3 h4
    simp only [if_pos (show 0 ≤ y ∧ y < 10 ∧ 0 ≤ x ∧ x < 10 from ⟨h3, h4, h1, h2⟩)]
  obtain ⟨c1, c2⟩ := cell_count_init _ hsq
  refine ⟨?_, ?_, ?_⟩
  · intro x y h1 h2 h3 h4
    simp only [GRID_SIZE] at h2 h4
    have := hsq x y h1 h2 h3 h4
    simp only [OWNER_DAY, OWNER_NIGHT]
    simp only at this
    rw [this]
    split_ifs
    · exact Or.inl rfl
    · exact Or.inr rfl
  · simp only [OWNER_DAY]; rw [c1]; rfl
  · simp only [OWNER_NIGHT]; rw [c2]; rfl

theorem board_ok_paint_cell (s : State) (gx gy owner : Int) (hs : board_ok s)
    (ho : owner = OWNER_DAY ∨ owner = OWNER_NIGHT) : board_ok (paint_cell s gx gy owner) := by
  by_cases hn : gx < 0 ∨ gx ≥ 10 ∨ gy < 0 ∨ gy ≥ 10 ∨ s.squares gy gx = owner
  · rw [paint_cell_noop s gx gy owner hn]; exact hs
  · have hg : 0 ≤ gx ∧ gx < 10 ∧ 0 ≤ gy ∧ gy < 10 := by omega
    have hne : s.squares gy gx ≠ owner := fun h => hn (by simp [h])
    rw [paint_cell_change s gx gy owner hg hne]
    obtain ⟨hc, hd, hnt⟩ := hs
    simp only [OWNER_DAY, OWNER_NIGHT] at ho hd hnt
    refine ⟨?_, ?_, ?_⟩
    · intro x y h1 h2 h3 h4
      show set_square s.squares gx gy owner y x = _ ∨ set_square s.squares gx gy owner y x = _
      unfold set_square
      by_cases he : y = gy ∧ x = gx
      · rw [if_pos he]; exact ho
      · rw [if_neg he]; exact hc x y h1 h2 h3 h4
    · show s.dayScore - _ + _ = ((cell_count (set_square s.squares gx gy owner) 1 : Nat) : Int)
      rw [cell_count_set_square s.squares gx gy owner 1 hg, hd]
      ring
    · show s.nightScore - _ + _ = ((cell_count (set_square s.squares gx gy owner) 2 : Nat) : Int)
      rw [cell_count_set_square s.squares gx gy owner 2 hg, hnt]
      ring

theorem board_ok_run_paint_cells (calls : List (Int × Int × Int)) (s : State) (hs : board_ok s)
    (h : ∀ c ∈ calls, c.2.2 = OWNER_DAY ∨ c.2.2 = OWNER_NIGHT) :
    board_ok (run_paint_cells s calls) := by
  induction calls generalizing s with
  | nil => exact hs
  | cons c cs ih =>
    unfold run_paint_cells
    rw [List.foldl_cons]
    exact ih _ (board_ok_paint_cell s c.1 c.2.1 c.2.2 hs (h c (List.mem_cons_self c cs)))
      (fun d hd => h d (List.mem_cons_of_mem c hd))

/-! ## Territory grid: claims -/

/-- C1 (score conservation): in every state reached from `init_board` by a
finite sequence of `paint_cell` calls with arbitrary integer coordinates and
owners in `{OWNER_DAY, OWNER_NIGHT}`, `dayScore` is the number of day cells,
`nightScore` the number of night cells, and their sum is
`GRID_SIZE * GRID_SIZE = 100`. -/
theorem score_conservation (s0 : State) (calls : List (Int × Int × Int))
    (h : ∀ c ∈ calls, c.2.2 = OWNER_DAY ∨ c.2.2 = OWNER_NIGHT) :
    (run_paint_cells (init_board s0) calls).dayScore
        = cell_count (run_paint_cells (init_board s0) calls).squares OWNER_DAY ∧
      (run_paint_cells (init_board s0) calls).nightScore
        = cell_count (run_paint_cells (init_board s0) calls).squares OWNER_NIGHT ∧
      (run_paint_cells (init_board s0) calls).dayScore
        + (run_paint_cells (init_board s0) calls).nightScore = GRID_SIZE * GRID_SIZE ∧
      GRID_SIZE * GRID_SIZE = 100 := by
  obtain ⟨hc, hd, hn⟩ := board_ok_run_paint_cells calls _ (board_ok_init_board s0) h
  refine ⟨hd, hn, ?_, by decide⟩
  rw [hd, hn]
  have := cell_count_total _ hc
  simp only [OWNER_DAY, OWNER_NIGHT, GRID_SIZE]
  omega

/-- Witness for C1: four calls after `init_board`, one of them out of the grid and one repeated. -/
theorem score_conservation_witness :
    (run_paint_cells (init_board boot_state) [(5, 3, 1), (-1, 12, 2), (5, 3, 1), (0, 0, 2)]).dayScore
        = cell_count (run_paint_cells (init_board boot_state)
            [(5, 3, 1), (-1, 12, 2), (5, 3, 1), (0, 0, 2)]).squares OWNER_DAY ∧
      (run_paint_cells (init_board boot_state)
          [(5, 3, 1), (-1, 12, 2), (5, 3, 1), (0, 0, 2)]).nightScore
        = cell_count (run_paint_cells (init_board boot_state)
            [(5, 3, 1), (-1, 12, 2), (5, 3, 1), (0, 0, 2)]).squares OWNER_NIGHT ∧
      (run_paint_cells (init_board boot_state)
          [(5, 3, 1), (-1, 12, 2), (5, 3, 1), (0, 0, 2)]).dayScore
        + (run_paint_cells (init_board boot_state)
            [(5, 3, 1), (-1, 12, 2), (5, 3, 1), (0, 0, 2)]).nightScore = GRID_SIZE * GRID_SIZE ∧
      GRID_SIZE * GRID_SIZE = 100 :=
  score_conservation boot_state [(5, 3, 1), (-1, 12, 2), (5, 3, 1), (0, 0, 2)] (by decide)

/-- C2 (idempotent repaint): `paint_cell(gx, gy, owner)` returns the state
unchanged (grid, scores, dirty flag, framebuffer and everything else) when
`(gx, gy)` is outside the grid or the cell already holds `owner`; and for all
integer arguments a second identical call yields the state of the first, so
the scores are adjusted at most once. -/
theorem paint_cell_idempotent (s : State) (gx gy owner : Int) :
    (gx < 0 ∨ gx ≥ GRID_SIZE ∨ gy < 0 ∨ gy ≥ GRID_SIZE ∨ s.squares gy gx = owner →
      paint_cell s gx gy owner = s) ∧
    paint_cell (paint_cell s gx gy owner) gx gy owner = paint_cell s gx gy owner := by
  simp only [GRID_SIZE]
  refine ⟨paint_cell_noop s gx gy owner, ?_⟩
  by_cases hn : gx < 0 ∨ gx ≥ 10 ∨ gy < 0 ∨ gy ≥ 10 ∨ s.squares gy gx = owner
  · rw [paint_cell_noop s gx gy owner hn, paint_cell_noop s gx gy owner hn]
  · have hg : 0 ≤ gx ∧ gx < 10 ∧ 0 ≤ gy ∧ gy < 10 := by omega
    have hne : s.squares gy gx ≠ owner := fun h => hn (by simp [h])
    apply paint_cell_noop
    rw [paint_cell_change s gx gy owner hg hne]
    exact Or.inr (Or.inr (Or.inr (Or.inr (set_square_same s.squares gx gy owner))))

/-- Witness for C2: an out-of-grid call and a repeated capture in the single-capture scenario. -/
theorem paint_cell_idempotent_witness :
    ((10 : Int) < 0 ∨ (10 : Int) ≥ GRID_SIZE ∨ (3 : Int) < 0 ∨ (3 : Int) ≥ GRID_SIZE ∨
        single_capture_state.squares 3 10 = OWNER_NIGHT) ∧
      paint_cell single_capture_state 10 3 OWNER_NIGHT = single_capture_state ∧
      paint_cell (paint_cell single_capture_state 0 0 OWNER_DAY) 0 0 OWNER_DAY
        = paint_cell single_capture_state 0 0 OWNER_DAY :=
  ⟨by decide, (paint_cell_idempotent single_capture_state 10 3 OWNER_NIGHT).1 (by decide),
    (paint_cell_idempotent single_capture_state 0 0 OWNER_DAY).2⟩

/-- C3 (capture postcondition): when every cell is owned, `(gx, gy)` is in the
grid and `owner ∈ {OWNER_DAY, OWNER_NIGHT}` differs from the cell's owner, then
after `paint_cell(gx, gy, owner)` the cell holds `owner`, the new owner's score
is one higher and the previous owner's one lower, every other cell is
unchanged, `scores_changed = 1`, every pixel of the rectangle
`[60 + 20 gx, 60 + 20 gx + 20) x [20 gy, 20 gy + 20)` reads the owner's
territory colour (1 for day, 2 for night) and every other on-screen pixel is
unchanged. -/
theorem paint_cell_capture (s : State) (gx gy owner : Int) (hcells : cells_owned s.squares)
    (hg : 0 ≤ gx ∧ gx < GRID_SIZE ∧ 0 ≤ gy ∧ gy < GRID_SIZE)
    (ho : owner = OWNER_DAY ∨ owner = OWNER_NIGHT) (hne : s.squares gy gx ≠ owner) :
    (paint_cell s gx gy owner).squares gy gx = owner ∧
      (owner = OWNER_DAY →
        (paint_cell s gx gy owner).dayScore = s.dayScore + 1 ∧
          (paint_cell s gx gy owner).nightScore = s.nightScore - 1) ∧
      (owner = OWNER_NIGHT →
        (paint_cell s gx gy owner).nightScore = s.nightScore + 1 ∧
          (paint_cell s gx gy owner).dayScore = s.dayScore - 1) ∧
      (∀ x y : Int, ¬ (x = gx ∧ y = gy) → (paint_cell s gx gy owner).squares y x = s.squares y x) ∧
      (paint_cell s gx gy owner).scores_changed = 1 ∧
      (∀ X Y : Nat, X < 320 → Y < 200 →
        (60 + 20 * gx ≤ X ∧ (X : Int) < 60 + 20 * gx + 20 ∧ 20 * gy ≤ Y ∧ (Y : Int) < 20 * gy + 20 →
          (read_pixel (paint_cell s gx gy owner).screen X Y : Int)
            = if owner = OWNER_DAY then DAY_COLOR else NIGHT_COLOR) ∧
        (¬ (60 + 20 * gx ≤ X ∧ (X : Int) < 60 + 20 * gx + 20 ∧ 20 * gy ≤ Y ∧
            (Y : Int) < 20 * gy + 20) →
          read_pixel (paint_cell s gx gy owner).screen X Y = read_pixel s.screen X Y)) := by
  simp only [GRID_SIZE] at hg
  simp only [OWNER_DAY, OWNER_NIGHT, DAY_COLOR, NIGHT_COLOR] at *
  have hold := hcells gx gy hg.1 hg.2.1 hg.2.2.1 hg.2.2.2
  simp only [OWNER_DAY, OWNER_NIGHT] at hold
  rw [paint_cell_change s gx gy owner hg hne]
  refine ⟨set_square_same s.squares gx gy owner, ?_, ?_, ?_, rfl, ?_⟩
  · intro h1
    subst h1
    have h2 : s.squares gy gx = 2 := by omega
    simp [h2]
  · intro h2
    subst h2
    have h1 : s.squares gy gx = 1 := by omega
    simp [h1]
  · intro x y hxy
    show set_square s.squares gx gy owner y x = s.squares y x
    unfold set_square
    rw [if_neg (fun h => hxy ⟨h.2, h.1⟩)]
  · intro X Y hX hY
    show (_ → ((read_pixel (fill_rect s.screen (60 + gx * 20) (gy * 20) 20 20 (owner_color owner))
        X Y : Nat) : Int) = _) ∧ (_ → read_pixel (fill_rect s.screen (60 + gx * 20) (gy * 20) 20 20
        (owner_color owner)) X Y = _)
    rw [read_pixel_fill_rect s.screen _ _ _ _ _ X Y hX hY]
    constructor
    · intro hin
      have hin' : 60 + gx * 20 ≤ (X : Int) ∧ (X : Int) < 60 + gx * 20 + 20 ∧ gy * 20 ≤ (Y : Int) ∧
          (Y : Int) < gy * 20 + 20 := by omega
      rw [if_pos hin']
      rcases ho with ho | ho <;> subst ho <;> decide
    · intro hout
      have hout' : ¬ (60 + gx * 20 ≤ (X : Int) ∧ (X : Int) < 60 + gx * 20 + 20 ∧
          gy * 20 ≤ (Y : Int) ∧ (Y : Int) < gy * 20 + 20) := by omega
      rw [if_neg hout']

/-- Witness for C3: in the single-capture scenario `paint_cell(0, 0, OWNER_DAY)` gives `dayScore = 100`, `nightScore = 0` and sets the dirty flag. -/
theorem paint_cell_capture_witness :
    cells_owned single_capture_state.squares ∧
      single_capture_state.squares 0 0 ≠ OWNER_DAY ∧
      (paint_cell single_capture_state 0 0 OWNER_DAY).dayScore = GRID_SIZE * GRID_SIZE ∧
      (paint_cell single_capture_state 0 0 OWNER_DAY).nightScore = 0 ∧
      (paint_cell single_capture_state 0 0 OWNER_DAY).scores_changed = 1 := by
  have hc : cells_owned single_capture_state.squares := by
    intro x y _ _ _ _
    show (if y = 0 ∧ x = 0 then OWNER_NIGHT else OWNER_DAY) = OWNER_DAY ∨
      (if y = 0 ∧ x = 0 then OWNER_NIGHT else OWNER_DAY) = OWNER_NIGHT
    split_ifs
    · exact Or.inr rfl
    · exact Or.inl rfl
  have hne : single_capture_state.squares 0 0 ≠ OWNER_DAY := by decide
  have h := paint_cell_capture single_capture_state 0 0 OWNER_DAY hc (by decide) (Or.inl rfl) hne
  obtain ⟨hd, hn⟩ := h.2.1 rfl
  refine ⟨hc, hne, ?_, ?_, h.2.2.2.2.1⟩
  · rw [hd]; decide
  · rw [hn]; decide

/-- C9 (initial board): after `init_board()` every cell `squares[y][x]` with
`x, y` in `0..9` holds `OWNER_DAY` when `x < 5` and `OWNER_NIGHT` when `x ≥ 5`,
`dayScore = nightScore = 50`, and `scores_changed = 1`, whatever the prior
state. -/
theorem init_board_spec (s : State) :
    (∀ x y : Int, 0 ≤ x → x < GRID_SIZE → 0 ≤ y → y < GRID_SIZE →
      (init_board s).squares y x = if x < 5 then OWNER_DAY else OWNER_NIGHT) ∧
    (init_board s).dayScore = 50 ∧ (init_board s).nightScore = 50 ∧
    (init_board s).scores_changed = 1 := by
  rw [init_board_eq]
  refine ⟨?_, rfl, rfl, rfl⟩
  intro x y h1 h2 h3 h4
  simp only [GRID_SIZE] at h2 h4
  simp only [if_pos (show 0 ≤ y ∧ y < 10 ∧ 0 ≤ x ∧ x < 10 from ⟨h3, h4, h1, h2⟩)]

/-- Witness for C9: `init_board` on the single-capture scenario. -/
theorem init_board_spec_witness :
    (init_board single_capture_state).squares 7 4 = OWNER_DAY ∧
      (init_board single_capture_state).squares 0 5 = OWNER_NIGHT ∧
      (init_board single_capture_state).dayScore = 50 ∧
      (init_board single_capture_state).nightScore = 50 ∧
      (init_board single_capture_state).scores_changed = 1 :=
  ⟨(init_board_spec single_capture_state).1 4 7 (by decide) (by decide) (by decide) (by decide),
    (init_board_spec single_capture_state).1 5 0 (by decide) (by decide) (by decide) (by decide),
    (init_board_spec single_capture_state).2⟩

/-! ## Which globals each drawing routine touches -/

theorem foldl_only_screen {α : Type} (f : State → α → State)
    (h : ∀ s a, f s a = { s with screen := (f s a).screen }) (l : List α) (s : State) :
    l.foldl f s = { s with screen := (l.foldl f s).screen } := by
  induction l generalizing s with
  | nil => rfl
  | cons a l ih =>
    rw [List.foldl_cons, ih (f s a)]
    have h1 := congrArg State.squares (h s a)
    have h2 := congrArg State.dayScore (h s a)
    have h3 := congrArg State.nightScore (h s a)
    have h4 := congrArg State.scores_changed (h s a)
    have h5 := congrArg State.iteration (h s a)
    have h6 := congrArg State.balls (h s a)
    simp only at h1 h2 h3 h4 h5 h6
    simp only [State.mk.injEq, h1, h2, h3, h4, h5, h6, and_self]

theorem eraseBall_cell_only_screen (ball : Ball) (gy : Int) (s : State) (gx : Int) :
    eraseBall_cell s ball gx gy = { s with screen := (eraseBall_cell s ball gx gy).screen } := by
  unfold eraseBall_cell
  simp only
  split_ifs <;> rfl

theorem eraseBall_only_screen (s : State) (ball : Ball) :
    eraseBall s ball = { s with screen := (eraseBall s ball).screen } := by
  unfold eraseBall
  exact foldl_only_screen _
    (fun s gy => foldl_only_screen _ (eraseBall_cell_only_screen ball gy) _ s) _ s

theorem paint_cell_balls (s : State) (gx gy owner : Int) :
    (paint_cell s gx gy owner).balls = s.balls ∧
      (paint_cell s gx gy owner).iteration = s.iteration := by
  by_cases hn : gx < 0 ∨ gx ≥ 10 ∨ gy < 0 ∨ gy ≥ 10 ∨ s.squares gy gx = owner
  · rw [paint_cell_noop s gx gy owner hn]; exact ⟨rfl, rfl⟩
  · have hg : 0 ≤ gx ∧ gx < 10 ∧ 0 ≤ gy ∧ gy < 10 := by omega
    have hne : s.squares gy gx ≠ owner := fun h => hn (by simp [h])
    rw [paint_cell_change s gx gy owner hg hne]
    exact ⟨rfl, rfl⟩

/-! ## Ball physics -/

theorem checkSquareCollision_skip (s : State) (i : Fin 2) (old_gx old_gy : Int)
    (h : center_gx (s.balls i) < 0 ∨ center_gx (s.balls i) ≥ 10 ∨ center_gy (s.balls i) < 0 ∨
      center_gy (s.balls i) ≥ 10 ∨
      s.squares (center_gy (s.balls i)) (center_gx (s.balls i)) = (s.balls i).owner) :
    checkSquareCollision s i old_gx old_gy = s := by
  unfold checkSquareCollision
  simp only [center_gx, center_gy, GRID_SIZE] at *
  by_cases h1 : Int.tdiv ((s.balls i).x + BALL_SIZE / 2) SQUARE_SIZE < 0 ∨
      Int.tdiv ((s.balls i).x + BALL_SIZE / 2) SQUARE_SIZE ≥ 10 ∨
      Int.tdiv ((s.balls i).y + BALL_SIZE / 2) SQUARE_SIZE < 0 ∨
      Int.tdiv ((s.balls i).y + BALL_SIZE / 2) SQUARE_SIZE ≥ 10
  · rw [if_pos h1]
  · rw [if_neg h1]
    have heq : s.squares (Int.tdiv ((s.balls i).y + BALL_SIZE / 2) SQUARE_SIZE)
        (Int.tdiv ((s.balls i).x + BALL_SIZE / 2) SQUARE_SIZE) = (s.balls i).owner := by
      rcases h with h | h | h | h | h
      · exact absurd (Or.inl h) h1
      · exact absurd (Or.inr (Or.inl h)) h1
      · exact absurd (Or.inr (Or.inr (Or.inl h))) h1
      · exact absurd (Or.inr (Or.inr (Or.inr h))) h1
      · exact h
    rw [if_neg (fun hc => hc heq)]
    exact paint_cell_noop s _ _ _ h

/-- Closed form of `checkSquareCollision` on a capture. -/
theorem checkSquareCollision_capture (s : State) (i : Fin 2) (old_gx old_gy : Int)
    (hg : 0 ≤ center_gx (s.balls i) ∧ center_gx (s.balls i) < 10 ∧ 0 ≤ center_gy (s.balls i) ∧
      center_gy (s.balls i) < 10)
    (hne : s.squares (center_gy (s.balls i)) (center_gx (s.balls i)) ≠ (s.balls i).owner) :
    checkSquareCollision s i old_gx old_gy =
      set_ball (paint_cell s (center_gx (s.balls i)) (center_gy (s.balls i)) (s.balls i).owner) i
        { s.balls i with
          vx := if center_gx (s.balls i) = old_gx ∧ center_gy (s.balls i) ≠ old_gy
            then (s.balls i).vx else -(s.balls i).vx
          vy := if center_gx (s.balls i) ≠ old_gx ∧ center_gy (s.balls i) = old_gy
            then (s.balls i).vy else -(s.balls i).vy } := by
  have hgrid : ¬ (center_gx (s.balls i) < 0 ∨ center_gx (s.balls i) ≥ GRID_SIZE ∨
      center_gy (s.balls i) < 0 ∨ center_gy (s.balls i) ≥ GRID_SIZE) := by
    simp only [GRID_SIZE]; omega
  unfold checkSquareCollision
  simp only [center_gx, center_gy] at *
  rw [if_neg hgrid, if_pos hne]
  simp only [(paint_cell_balls s _ _ _).1, set_ball, Function.update_same, Function.update_idem,
    sub_eq_zero, ne_eq]
  by_cases hx : Int.tdiv ((s.balls i).x + BALL_SIZE / 2) SQUARE_SIZE = old_gx <;>
    by_cases hy : Int.tdiv ((s.balls i).y + BALL_SIZE / 2) SQUARE_SIZE = old_gy <;>
    simp [hx, hy]

theorem draw_move_range (b : Ball) :
    0 ≤ (draw_move b).x ∧ (draw_move b).x ≤ 190 ∧ 0 ≤ (draw_move b).y ∧ (draw_move b).y ≤ 190 := by
  obtain ⟨x, y, vx, vy, o, c⟩ := b
  simp only [draw_move, checkBoundaryCollision, GAME_PIXELS, GRID_SIZE, SQUARE_SIZE, BALL_SIZE]
  by_cases h1 : x + vx < 0 ∨ x + 10 + vx > 10 * 20 <;>
    by_cases h2 : y + vy < 0 ∨ y + 10 + vy > 10 * 20 <;>
    simp only [h1, h2, if_true, if_false] <;>
    split_ifs <;> (try simp only at *) <;> omega

theorem draw_move_sign (b : Ball) :
    (draw_move b).owner = b.owner ∧ (draw_move b).color = b.color ∧
      ((draw_move b).vx = b.vx ∨ (draw_move b).vx = -b.vx) ∧
      ((draw_move b).vy = b.vy ∨ (draw_move b).vy = -b.vy) := by
  obtain ⟨x, y, vx, vy, o, c⟩ := b
  simp only [draw_move, checkBoundaryCollision, GAME_PIXELS, GRID_SIZE, SQUARE_SIZE, BALL_SIZE]
  by_cases h1 : x + vx < 0 ∨ x + 10 + vx > 10 * 20 <;>
    by_cases h2 : y + vy < 0 ∨ y + 10 + vy > 10 * 20 <;>
    simp only [h1, h2, if_true, if_false] <;>
    split_ifs <;> simp

theorem checkSquareCollision_ball (s : State) (i : Fin 2) (old_gx old_gy : Int) :
    (∀ j, j ≠ i → (checkSquareCollision s i old_gx old_gy).balls j = s.balls j) ∧
      ((checkSquareCollision s i old_gx old_gy).balls i).x = (s.balls i).x ∧
      ((checkSquareCollision s i old_gx old_gy).balls i).y = (s.balls i).y ∧
      ((checkSquareCollision s i old_gx old_gy).balls i).owner = (s.balls i).owner ∧
      ((checkSquareCollision s i old_gx old_gy).balls i).color = (s.balls i).color ∧
      (((checkSquareCollision s i old_gx old_gy).balls i).vx = (s.balls i).vx ∨
        ((checkSquareCollision s i old_gx old_gy).balls i).vx = -(s.balls i).vx) ∧
      (((checkSquareCollision s i old_gx old_gy).balls i).vy = (s.balls i).vy ∨
        ((checkSquareCollision s i old_gx old_gy).balls i).vy = -(s.balls i).vy) := by
  by_cases h : center_gx (s.balls i) < 0 ∨ center_gx (s.balls i) ≥ 10 ∨
      center_gy (s.balls i) < 0 ∨ center_gy (s.balls i) ≥ 10 ∨
      s.squares (center_gy (s.balls i)) (center_gx (s.balls i)) = (s.balls i).owner
  · rw [checkSquareCollision_skip s i old_gx old_gy h]
    exact ⟨fun _ _ => rfl, rfl, rfl, rfl, rfl, Or.inl rfl, Or.inl rfl⟩
  · have hg : 0 ≤ center_gx (s.balls i) ∧ center_gx (s.balls i) < 10 ∧
        0 ≤ center_gy (s.balls i) ∧ center_gy (s.balls i) < 10 := by omega
    have hne : s.squares (center_gy (s.balls i)) (center_gx (s.balls i)) ≠ (s.balls i).owner :=
      fun he => h (by simp [he])
    rw [checkSquareCollision_capture s i old_gx old_gy hg hne]
    have hb : ∀ (t : State) (b : Ball), (set_ball t i b).balls i = b := by
      intro t b; simp only [set_ball, Function.update_same]
    have hbj : ∀ (t : State) (b : Ball) (j : Fin 2), j ≠ i → (set_ball t i b).balls j = t.balls j := by
      intro t b j hj; simp only [set_ball, Function.update_noteq hj]
    rw [hb]
    refine ⟨fun j hj => by rw [hbj _ _ j hj, (paint_cell_balls s _ _ _).1], rfl, rfl, rfl, rfl,
      ?_, ?_⟩
    · simp only
      split_ifs <;> simp
    · simp only
      split_ifs <;> simp

/-- What the per-ball loop body of `draw` does to the balls. -/
theorem draw_ball_step_ball (s : State) (i : Fin 2) :
    (∀ j, j ≠ i → (draw_ball_step s i).balls j = s.balls j) ∧
      ((draw_ball_step s i).balls i).x = (draw_move (s.balls i)).x ∧
      ((draw_ball_step s i).balls i).y = (draw_move (s.balls i)).y ∧
      ((draw_ball_step s i).balls i).owner = (s.balls i).owner ∧
      ((draw_ball_step s i).balls i).color = (s.balls i).color ∧
      (((draw_ball_step s i).balls i).vx = (s.balls i).vx ∨
        ((draw_ball_step s i).balls i).vx = -(s.balls i).vx) ∧
      (((draw_ball_step s i).balls i).vy = (s.balls i).vy ∨
        ((draw_ball_step s i).balls i).vy = -(s.balls i).vy) := by
  unfold draw_ball_step
  simp only [addRandomness]
  generalize Int.tdiv ((s.balls i).x + BALL_SIZE / 2) SQUARE_SIZE = ogx
  generalize Int.tdiv ((s.balls i).y + BALL_SIZE / 2) SQUARE_SIZE = ogy
  obtain ⟨c0, c1, c2, c3, c4, c5, c6⟩ :=
    checkSquareCollision_ball (set_ball s i (draw_move (s.balls i))) i ogx ogy
  obtain ⟨m1, m2, m3, m4⟩ := draw_move_sign (s.balls i)
  have hb : (set_ball s i (draw_move (s.balls i))).balls i = draw_move (s.balls i) := by
    simp only [set_ball, Function.update_same]
  rw [hb] at c1 c2 c3 c4 c5 c6
  have hself : ∀ t : State, (set_ball t i (t.balls i)).balls = t.balls := by
    intro t; simp only [set_ball, Function.update_eq_self]
  rw [hself]
  refine ⟨fun j hj => ?_, c1, c2, c3.trans m1, c4.trans m2, ?_, ?_⟩
  · rw [c0 j hj]; exact Function.update_noteq hj _ _
  · rcases c5 with c5 | c5 <;> rcases m3 with m3 | m3 <;> rw [c5, m3] <;> simp
  · rcases c6 with c6 | c6 <;> rcases m4 with m4 | m4 <;> rw [c6, m4] <;> simp

/-- Closed form of `handle_ball_collision`. -/
theorem handle_ball_collision_eq (s : State) :
    handle_ball_collision s =
      if |(s.balls 0).x - (s.balls 1).x| < 10 ∧ |(s.balls 0).y - (s.balls 1).y| < 10 then
        { s with
          balls :=
            Function.update
              (Function.update s.balls 0
                { s.balls 0 with vx := (s.balls 1).vx, vy := (s.balls 1).vy })
              1 { s.balls 1 with vx := (s.balls 0).vx, vy := (s.balls 0).vy } }
      else s := by
  unfold handle_ball_collision
  simp only [BALL_SIZE, set_ball]
  have h01 : (1 : Fin 2) ≠ 0 := by decide
  have hc : ((if (s.balls 0).x - (s.balls 1).x < 0 then -((s.balls 0).x - (s.balls 1).x)
        else (s.balls 0).x - (s.balls 1).x) < 10 ∧
      (if (s.balls 0).y - (s.balls 1).y < 0 then -((s.balls 0).y - (s.balls 1).y)
        else (s.balls 0).y - (s.balls 1).y) < 10) ↔
      (|(s.balls 0).x - (s.balls 1).x| < 10 ∧ |(s.balls 0).y - (s.balls 1).y| < 10) := by
    rw [abs_lt, abs_lt]
    split_ifs <;> constructor <;> intro h <;> omega
  by_cases hcol : |(s.balls 0).x - (s.balls 1).x| < 10 ∧ |(s.balls 0).y - (s.balls 1).y| < 10
  · rw [if_pos (hc.mpr hcol), if_pos hcol]
    simp [Function.update_same, Function.update_idem, Function.update_noteq h01]
  · rw [if_neg (fun h => hcol (hc.mp h)), if_neg hcol]

theorem eraseBall_fields (s : State) (ball : Ball) :
    (eraseBall s ball).squares = s.squares ∧ (eraseBall s ball).dayScore = s.dayScore ∧
      (eraseBall s ball).nightScore = s.nightScore ∧
      (eraseBall s ball).scores_changed = s.scores_changed ∧
      (eraseBall s ball).iteration = s.iteration ∧ (eraseBall s ball).balls = s.balls := by
  have h := eraseBall_only_screen s ball
  have h1 := congrArg State.squares h
  have h2 := congrArg State.dayScore h
  have h3 := congrArg State.nightScore h
  have h4 := congrArg State.scores_changed h
  have h5 := congrArg State.iteration h
  have h6 := congrArg State.balls h
  exact ⟨h1, h2, h3, h4, h5, h6⟩

theorem draw_erased_fields (s : State) :
    (draw_erased s).squares = s.squares ∧ (draw_erased s).dayScore = s.dayScore ∧
      (draw_erased s).nightScore = s.nightScore ∧
      (draw_erased s).scores_changed = s.scores_changed ∧
      (draw_erased s).iteration = s.iteration ∧ (draw_erased s).balls = s.balls := by
  unfold draw_erased draw_erase
  obtain ⟨a1, a2, a3, a4, a5, a6⟩ :=
    eraseBall_fields (draw_cursor_area s) ((draw_cursor_area s).balls 0)
  obtain ⟨b1, b2, b3, b4, b5, b6⟩ :=
    eraseBall_fields (eraseBall (draw_cursor_area s) ((draw_cursor_area s).balls 0))
      ((eraseBall (draw_cursor_area s) ((draw_cursor_area s).balls 0)).balls 1)
  exact ⟨b1.trans a1, b2.trans a2, b3.trans a3, b4.trans a4, b5.trans a5, b6.trans a6⟩

theorem draw_update_counters_balls (t : State) : (draw_update_counters t).balls = t.balls := by
  unfold draw_update_counters
  split_ifs <;> rfl

theorem draw_ball_on_top_balls (t : State) (i : Fin 2) :
    (draw_ball_on_top t i).balls = t.balls := rfl

theorem draw_balls (s : State) : (draw s).balls = (draw_physics s).balls := by
  unfold draw draw_physics draw_erased draw_count_iteration
  simp only [draw_update_counters_balls, draw_ball_on_top_balls]

theorem draw_stepped_eq (s : State) :
    draw_stepped s = draw_ball_step (draw_ball_step (draw_erased s) 0) 1 := rfl

theorem draw_physics_def (s : State) :
    draw_physics s = handle_ball_collision (draw_stepped s) := rfl

/-- The balls after the per-ball loop of `draw`: each has the position given by
`draw_move`, its owner and colour, and its velocity up to signs. -/
theorem draw_stepped_ball (s : State) (i : Fin 2) :
    ((draw_stepped s).balls i).x = (draw_move (s.balls i)).x ∧
      ((draw_stepped s).balls i).y = (draw_move (s.balls i)).y ∧
      ((draw_stepped s).balls i).owner = (s.balls i).owner ∧
      ((draw_stepped s).balls i).color = (s.balls i).color ∧
      (((draw_stepped s).balls i).vx = (s.balls i).vx ∨
        ((draw_stepped s).balls i).vx = -(s.balls i).vx) ∧
      (((draw_stepped s).balls i).vy = (s.balls i).vy ∨
        ((draw_stepped s).balls i).vy = -(s.balls i).vy) := by
  rw [draw_stepped_eq]
  have hE : (draw_erased s).balls = s.balls := (draw_erased_fields s).2.2.2.2.2
  obtain ⟨a0, a1, a2, a3, a4, a5, a6⟩ := draw_ball_step_ball (draw_erased s) 0
  obtain ⟨b0, b1, b2, b3, b4, b5, b6⟩ := draw_ball_step_ball (draw_ball_step (draw_erased s) 0) 1
  rw [hE] at a0 a1 a2 a3 a4 a5 a6
  have h10 : (1 : Fin 2) ≠ 0 := by decide
  have h01 : (0 : Fin 2) ≠ 1 := by decide
  rw [a0 1 h10] at b1 b2 b3 b4 b5 b6
  have hi : i = 0 ∨ i = 1 := by omega
  rcases hi with rfl | rfl
  · rw [b0 0 h01]
    exact ⟨a1, a2, a3, a4, a5, a6⟩
  · exact ⟨b1, b2, b3, b4, b5, b6⟩

theorem draw_physics_eq (s : State) :
    (draw_physics s).balls =
      if boxes_overlap ((draw_stepped s).balls 0) ((draw_stepped s).balls 1) then
        Function.update
          (Function.update (draw_stepped s).balls 0
            { (draw_stepped s).balls 0 with
              vx := ((draw_stepped s).balls 1).vx, vy := ((draw_stepped s).balls 1).vy })
          1 { (draw_stepped s).balls 1 with
              vx := ((draw_stepped s).balls 0).vx, vy := ((draw_stepped s).balls 0).vy }
      else (draw_stepped s).balls := by
  rw [draw_physics_def, handle_ball_collision_eq]
  simp only [boxes_overlap, BALL_SIZE]
  split_ifs <;> rfl

theorem draw_physics_pos (s : State) (i : Fin 2) :
    ((draw_physics s).balls i).x = ((draw_stepped s).balls i).x ∧
      ((draw_physics s).balls i).y = ((draw_stepped s).balls i).y ∧
      ((draw_physics s).balls i).owner = ((draw_stepped s).balls i).owner ∧
      ((draw_physics s).balls i).color = ((draw_stepped s).balls i).color := by
  rw [draw_physics_eq]
  generalize (draw_stepped s).balls = f
  have h10 : (1 : Fin 2) ≠ 0 := by decide
  have hi : i = 0 ∨ i = 1 := by omega
  split_ifs
  · rcases hi with rfl | rfl
    · rw [Function.update_noteq h10.symm, Function.update_same]
      exact ⟨rfl, rfl, rfl, rfl⟩
    · rw [Function.update_same]
      exact ⟨rfl, rfl, rfl, rfl⟩
  · exact ⟨rfl, rfl, rfl, rfl⟩

theorem draw_ball_step_skip (s : State) (i : Fin 2)
    (h : no_capture s.squares (draw_move (s.balls i))) :
    draw_ball_step s i = set_ball s i (draw_move (s.balls i)) := by
  unfold draw_ball_step
  simp only [addRandomness]
  have hb : (set_ball s i (draw_move (s.balls i))).balls i = draw_move (s.balls i) := by
    simp only [set_ball, Function.update_same]
  have hskip := checkSquareCollision_skip (set_ball s i (draw_move (s.balls i))) i
    (Int.tdiv ((s.balls i).x + BALL_SIZE / 2) SQUARE_SIZE)
    (Int.tdiv ((s.balls i).y + BALL_SIZE / 2) SQUARE_SIZE)
    (by rw [hb]; exact h)
  rw [hskip, hb]
  simp only [set_ball, Function.update_idem]

/-- When neither ball captures a cell, the per-ball loop of `draw` just moves
both balls. -/
theorem draw_stepped_skip (s : State) (h0 : no_capture s.squares (draw_move (s.balls 0)))
    (h1 : no_capture s.squares (draw_move (s.balls 1))) :
    (draw_stepped s).balls 0 = draw_move (s.balls 0) ∧
      (draw_stepped s).balls 1 = draw_move (s.balls 1) := by
  rw [draw_stepped_eq]
  obtain ⟨e1, _, _, _, _, e6⟩ := draw_erased_fields s
  have h10 : (1 : Fin 2) ≠ 0 := by decide
  have s0 : draw_ball_step (draw_erased s) 0
      = set_ball (draw_erased s) 0 (draw_move (s.balls 0)) := by
    have := draw_ball_step_skip (draw_erased s) 0 (by rw [e1, e6]; exact h0)
    rw [e6] at this
    exact this
  rw [s0]
  have hb1 : (set_ball (draw_erased s) 0 (draw_move (s.balls 0))).balls 1 = s.balls 1 := by
    simp only [set_ball, Function.update_noteq h10, e6]
  have s1 := draw_ball_step_skip (set_ball (draw_erased s) 0 (draw_move (s.balls 0))) 1
    (by rw [hb1]; show no_capture (draw_erased s).squares _; rw [e1]; exact h1)
  rw [s1, hb1]
  simp only [set_ball, Function.update_same, Function.update_noteq h10.symm]
  exact ⟨trivial, trivial⟩

/-- Position, owner and colour of each ball after `draw`. -/
theorem draw_ball_pos (s : State) (i : Fin 2) :
    ((draw s).balls i).x = (draw_move (s.balls i)).x ∧
      ((draw s).balls i).y = (draw_move (s.balls i)).y ∧
      ((draw s).balls i).owner = (s.balls i).owner ∧
      ((draw s).balls i).color = (s.balls i).color := by
  rw [draw_balls]
  obtain ⟨px, py, po, pc⟩ := draw_physics_pos s i
  obtain ⟨sx, sy, so, sc, _⟩ := draw_stepped_ball s i
  exact ⟨px.trans sx, py.trans sy, po.trans so, pc.trans sc⟩

/-! ## Ball physics: claims -/

/-- C6 (ball stays in the play area): for every ball, with `int` read as a
mathematical integer, the movement phase of `draw` (`checkBoundaryCollision`,
position update, safety clamp) leaves `x` and `y` in
`[0, GAME_PIXELS - BALL_SIZE] = [0, 190]`; hence after every `draw()` step each
ball's `x` and `y` lie in that range, whatever the state before the step. -/
theorem ball_stays_in_play_area (s : State) (b : Ball) (i : Fin 2) :
    (0 ≤ (draw_move b).x ∧ (draw_move b).x ≤ GAME_PIXELS - BALL_SIZE ∧
      0 ≤ (draw_move b).y ∧ (draw_move b).y ≤ GAME_PIXELS - BALL_SIZE) ∧
    (0 ≤ ((draw s).balls i).x ∧ ((draw s).balls i).x ≤ GAME_PIXELS - BALL_SIZE ∧
      0 ≤ ((draw s).balls i).y ∧ ((draw s).balls i).y ≤ GAME_PIXELS - BALL_SIZE) ∧
    GAME_PIXELS - BALL_SIZE = 190 := by
  have hc : GAME_PIXELS - BALL_SIZE = 190 := by decide
  rw [hc]
  refine ⟨draw_move_range b, ?_, rfl⟩
  rw [draw_balls]
  obtain ⟨px, py, _, _⟩ := draw_physics_pos s i
  obtain ⟨sx, sy, _⟩ := draw_stepped_ball s i
  rw [px, py, sx, sy]
  exact draw_move_range (s.balls i)

/-- C7 (bounce-axis inference): when the ball's centre cell `(gx, gy)` is in the
grid and not owned by the ball's owner, `checkSquareCollision(ball, old_gx,
old_gy)` captures the cell (its effect on the grid, the scores, the dirty flag
and the framebuffer is that of `paint_cell(gx, gy, owner)`, after which the
cell holds the owner) and negates `vx` only when `gx ≠ old_gx ∧ gy = old_gy`,
`vy` only when `gx = old_gx ∧ gy ≠ old_gy`, and both otherwise; position,
owner and colour of the ball are unchanged. -/
theorem bounce_axis (s : State) (i : Fin 2) (old_gx old_gy : Int)
    (hg : 0 ≤ center_gx (s.balls i) ∧ center_gx (s.balls i) < GRID_SIZE ∧
      0 ≤ center_gy (s.balls i) ∧ center_gy (s.balls i) < GRID_SIZE)
    (hne : s.squares (center_gy (s.balls i)) (center_gx (s.balls i)) ≠ (s.balls i).owner) :
    (checkSquareCollision s i old_gx old_gy).squares (center_gy (s.balls i))
        (center_gx (s.balls i)) = (s.balls i).owner ∧
      ((checkSquareCollision s i old_gx old_gy).squares
          = (paint_cell s (center_gx (s.balls i)) (center_gy (s.balls i))
              (s.balls i).owner).squares ∧
        (checkSquareCollision s i old_gx old_gy).dayScore
          = (paint_cell s (center_gx (s.balls i)) (center_gy (s.balls i))
              (s.balls i).owner).dayScore ∧
        (checkSquareCollision s i old_gx old_gy).nightScore
          = (paint_cell s (center_gx (s.balls i)) (center_gy (s.balls i))
              (s.balls i).owner).nightScore ∧
        (checkSquareCollision s i old_gx old_gy).scores_changed
          = (paint_cell s (center_gx (s.balls i)) (center_gy (s.balls i))
              (s.balls i).owner).scores_changed ∧
        (checkSquareCollision s i old_gx old_gy).screen
          = (paint_cell s (center_gx (s.balls i)) (center_gy (s.balls i))
              (s.balls i).owner).screen) ∧
      (center_gx (s.balls i) ≠ old_gx ∧ center_gy (s.balls i) = old_gy →
        ((checkSquareCollision s i old_gx old_gy).balls i).vx = -(s.balls i).vx ∧
          ((checkSquareCollision s i old_gx old_gy).balls i).vy = (s.balls i).vy) ∧
      (center_gx (s.balls i) = old_gx ∧ center_gy (s.balls i) ≠ old_gy →
        ((checkSquareCollision s i old_gx old_gy).balls i).vx = (s.balls i).vx ∧
          ((checkSquareCollision s i old_gx old_gy).balls i).vy = -(s.balls i).vy) ∧
      (¬ (center_gx (s.balls i) ≠ old_gx ∧ center_gy (s.balls i) = old_gy) ∧
          ¬ (center_gx (s.balls i) = old_gx ∧ center_gy (s.balls i) ≠ old_gy) →
        ((checkSquareCollision s i old_gx old_gy).balls i).vx = -(s.balls i).vx ∧
          ((checkSquareCollision s i old_gx old_gy).balls i).vy = -(s.balls i).vy) ∧
      ((checkSquareCollision s i old_gx old_gy).balls i).x = (s.balls i).x ∧
      ((checkSquareCollision s i old_gx old_gy).balls i).y = (s.balls i).y ∧
      ((checkSquareCollision s i old_gx old_gy).balls i).owner = (s.balls i).owner ∧
      ((checkSquareCollision s i old_gx old_gy).balls i).color = (s.balls i).color := by
  simp only [GRID_SIZE] at hg
  have hcap := checkSquareCollision_capture s i old_gx old_gy hg hne
  have hpaint := paint_cell_change s (center_gx (s.balls i)) (center_gy (s.balls i))
    (s.balls i).owner hg hne
  have hb : ∀ (t : State) (b : Ball), (set_ball t i b).balls i = b := by
    intro t b; simp only [set_ball, Function.update_same]
  rw [hcap, hb]
  refine ⟨?_, ⟨rfl, rfl, rfl, rfl, rfl⟩, ?_, ?_, ?_, rfl, rfl, rfl, rfl⟩
  · show (paint_cell s _ _ _).squares _ _ = _
    rw [hpaint]
    exact set_square_same _ _ _ _
  · intro h
    have h' : ¬ (center_gx (s.balls i) = old_gx ∧ center_gy (s.balls i) ≠ old_gy) :=
      fun c => h.1 c.1
    simp only [if_neg h', if_pos h, and_self]
  · intro h
    have h' : ¬ (center_gx (s.balls i) ≠ old_gx ∧ center_gy (s.balls i) = old_gy) :=
      fun c => c.1 h.1
    simp only [if_neg h', if_pos h, and_self]
  · intro h
    simp only [if_neg h.1, if_neg h.2, and_self]

/-- Witness for C7: the day ball enters the night cell `(5, 5)` from cell `(4, 5)`; only `vx` is negated. -/
theorem bounce_axis_witness :
    (0 ≤ center_gx (capture_state.balls 0) ∧ center_gx (capture_state.balls 0) < GRID_SIZE ∧
        0 ≤ center_gy (capture_state.balls 0) ∧ center_gy (capture_state.balls 0) < GRID_SIZE) ∧
      capture_state.squares (center_gy (capture_state.balls 0))
        (center_gx (capture_state.balls 0)) ≠ (capture_state.balls 0).owner ∧
      (center_gx (capture_state.balls 0) ≠ 4 ∧ center_gy (capture_state.balls 0) = 5) ∧
      ((checkSquareCollision capture_state 0 4 5).balls 0).vx = -(capture_state.balls 0).vx ∧
      ((checkSquareCollision capture_state 0 4 5).balls 0).vy = (capture_state.balls 0).vy :=
  ⟨by decide, by decide, by decide,
    (bounce_axis capture_state 0 4 5 (by decide) (by decide)).2.2.1 (by decide)⟩

/-- C8 (ball-vs-ball exchange): `handle_ball_collision` gives ball 0 the old
velocity of ball 1 and ball 1 the old velocity of ball 0 when
`|x0 - x1| < 10` and `|y0 - y1| < 10`, changes no velocity otherwise, and in
both cases leaves the positions, owners and colours of both balls, the grid,
the scores, the dirty flag and the framebuffer unchanged. -/
theorem ball_collision_exchange (s : State) :
    (|(s.balls 0).x - (s.balls 1).x| < BALL_SIZE ∧ |(s.balls 0).y - (s.balls 1).y| < BALL_SIZE →
      ((handle_ball_collision s).balls 0).vx = (s.balls 1).vx ∧
        ((handle_ball_collision s).balls 0).vy = (s.balls 1).vy ∧
        ((handle_ball_collision s).balls 1).vx = (s.balls 0).vx ∧
        ((handle_ball_collision s).balls 1).vy = (s.balls 0).vy) ∧
    (¬ (|(s.balls 0).x - (s.balls 1).x| < BALL_SIZE ∧
          |(s.balls 0).y - (s.balls 1).y| < BALL_SIZE) →
      ∀ i, ((handle_ball_collision s).balls i).vx = (s.balls i).vx ∧
        ((handle_ball_collision s).balls i).vy = (s.balls i).vy) ∧
    (∀ i, ((handle_ball_collision s).balls i).x = (s.balls i).x ∧
      ((handle_ball_collision s).balls i).y = (s.balls i).y ∧
      ((handle_ball_collision s).balls i).owner = (s.balls i).owner ∧
      ((handle_ball_collision s).balls i).color = (s.balls i).color) ∧
    (handle_ball_collision s).squares = s.squares ∧
    (handle_ball_collision s).dayScore = s.dayScore ∧
    (handle_ball_collision s).nightScore = s.nightScore ∧
    (handle_ball_collision s).scores_changed = s.scores_changed ∧
    (handle_ball_collision s).screen = s.screen ∧
    (handle_ball_collision s).iteration = s.iteration := by
  simp only [BALL_SIZE]
  rw [handle_ball_collision_eq]
  have h10 : (1 : Fin 2) ≠ 0 := by decide
  by_cases hc : |(s.balls 0).x - (s.balls 1).x| < 10 ∧ |(s.balls 0).y - (s.balls 1).y| < 10
  · rw [if_pos hc]
    refine ⟨fun _ => ?_, fun h => absurd hc h, fun i => ?_, rfl, rfl, rfl, rfl, rfl, rfl⟩
    · simp only [Function.update_same, Function.update_noteq h10.symm, and_self]
    · have hi : i = 0 ∨ i = 1 := by omega
      rcases hi with rfl | rfl
      · simp only [Function.update_same, Function.update_noteq h10.symm, and_self]
      · simp only [Function.update_same, and_self]
  · rw [if_neg hc]
    exact ⟨fun h => absurd h hc, fun _ _ => ⟨rfl, rfl⟩, fun _ => ⟨rfl, rfl, rfl, rfl⟩,
      rfl, rfl, rfl, rfl, rfl, rfl⟩

/-- Witness for C8: overlapping balls exchange velocities, balls far apart keep theirs. -/
theorem ball_collision_exchange_witness :
    (|(overlap_state.balls 0).x - (overlap_state.balls 1).x| < BALL_SIZE ∧
        |(overlap_state.balls 0).y - (overlap_state.balls 1).y| < BALL_SIZE) ∧
      ((handle_ball_collision overlap_state).balls 0).vx = (overlap_state.balls 1).vx ∧
      ((handle_ball_collision overlap_state).balls 0).vy = (overlap_state.balls 1).vy ∧
      ((handle_ball_collision overlap_state).balls 1).vx = (overlap_state.balls 0).vx ∧
      ((handle_ball_collision overlap_state).balls 1).vy = (overlap_state.balls 0).vy ∧
      ¬ (|(swap_state.balls 0).x - (swap_state.balls 1).x| < BALL_SIZE ∧
        |(swap_state.balls 0).y - (swap_state.balls 1).y| < BALL_SIZE) ∧
      ((handle_ball_collision swap_state).balls 0).vx = (swap_state.balls 0).vx := by
  obtain ⟨h1, h2, h3, h4⟩ := (ball_collision_exchange overlap_state).1 (by decide)
  exact ⟨by decide, h1, h2, h3, h4, by decide,
    ((ball_collision_exchange swap_state).2.1 (by decide) 0).1⟩

/-- C10, refuted as stated: in `swap_state` the two balls overlap after moving,
`handle_ball_collision` exchanges their velocities, and the day ball leaves the
frame with `vx = -10` although it entered it with `vx = 5`. -/
theorem velocity_changes_magnitude :
    (swap_state.balls 0).vx = 5 ∧ ((draw swap_state).balls 0).vx = -10 ∧
      |((draw swap_state).balls 0).vx| ≠ |(swap_state.balls 0).vx| := by
  have hv : ((draw swap_state).balls 0).vx = -10 := by
    rw [draw_balls, draw_physics_eq]
    obtain ⟨h0, h1⟩ := draw_stepped_skip swap_state (by decide) (by decide)
    rw [h0, h1, if_pos (by decide)]
    have h01 : (0 : Fin 2) ≠ 1 := by decide
    rw [Function.update_noteq h01, Function.update_same]
    decide
  refine ⟨by decide, hv, ?_⟩
  rw [hv]
  decide

/-- C10, amended: a `draw()` step changes each ball's velocity at most by the
sign of each component when the balls' boxes do not overlap at the end of the
step; when they overlap (`|x0 - x1| < 10` and `|y0 - y1| < 10`) the velocity
vectors have been exchanged, so `|vx|` and `|vy|` of each ball after the step
are those of the other ball before the step. -/
theorem velocity_sign_flip_or_exchange (s : State) :
    (¬ (|((draw s).balls 0).x - ((draw s).balls 1).x| < BALL_SIZE ∧
          |((draw s).balls 0).y - ((draw s).balls 1).y| < BALL_SIZE) →
      ∀ i, |((draw s).balls i).vx| = |(s.balls i).vx| ∧
        |((draw s).balls i).vy| = |(s.balls i).vy|) ∧
    (|((draw s).balls 0).x - ((draw s).balls 1).x| < BALL_SIZE ∧
        |((draw s).balls 0).y - ((draw s).balls 1).y| < BALL_SIZE →
      |((draw s).balls 0).vx| = |(s.balls 1).vx| ∧ |((draw s).balls 0).vy| = |(s.balls 1).vy| ∧
        |((draw s).balls 1).vx| = |(s.balls 0).vx| ∧
        |((draw s).balls 1).vy| = |(s.balls 0).vy|) := by
  obtain ⟨p0x, p0y, _, _⟩ := draw_physics_pos s 0
  obtain ⟨p1x, p1y, _, _⟩ := draw_physics_pos s 1
  obtain ⟨_, _, _, _, a5, a6⟩ := draw_stepped_ball s 0
  obtain ⟨_, _, _, _, b5, b6⟩ := draw_stepped_ball s 1
  have habs : ∀ a b : Int, (a = b ∨ a = -b) → |a| = |b| := by
    intro a b h
    rcases h with h | h
    · rw [h]
    · rw [h, abs_neg]
  have h01 : (0 : Fin 2) ≠ 1 := by decide
  rw [draw_balls, p0x, p0y, p1x, p1y, draw_physics_eq]
  simp only [boxes_overlap]
  generalize (draw_stepped s).balls = f at *
  constructor
  · intro hno i
    rw [if_neg hno]
    have hi : i = 0 ∨ i = 1 := by omega
    rcases hi with rfl | rfl
    · exact ⟨habs _ _ a5, habs _ _ a6⟩
    · exact ⟨habs _ _ b5, habs _ _ b6⟩
  · intro hov
    rw [if_pos hov, Function.update_noteq h01, Function.update_same, Function.update_same]
    exact ⟨habs _ _ b5, habs _ _ b6, habs _ _ a5, habs _ _ a6⟩

/-- Witness for the amended C10: the overlapping balls of `swap_state` exchange speeds, the balls placed by `init_balls` keep theirs. -/
theorem velocity_sign_flip_or_exchange_witness :
    (|((draw swap_state).balls 0).x - ((draw swap_state).balls 1).x| < BALL_SIZE ∧
        |((draw swap_state).balls 0).y - ((draw swap_state).balls 1).y| < BALL_SIZE) ∧
      |((draw swap_state).balls 0).vx| = |(swap_state.balls 1).vx| ∧
      ¬ (|((draw (init_balls boot_state)).balls 0).x
            - ((draw (init_balls boot_state)).balls 1).x| < BALL_SIZE ∧
        |((draw (init_balls boot_state)).balls 0).y
            - ((draw (init_balls boot_state)).balls 1).y| < BALL_SIZE) ∧
      |((draw (init_balls boot_state)).balls 0).vx| = |((init_balls boot_state).balls 0).vx| := by
  have hov : |((draw swap_state).balls 0).x - ((draw swap_state).balls 1).x| < BALL_SIZE ∧
      |((draw swap_state).balls 0).y - ((draw swap_state).balls 1).y| < BALL_SIZE := by
    rw [(draw_ball_pos swap_state 0).1, (draw_ball_pos swap_state 0).2.1,
      (draw_ball_pos swap_state 1).1, (draw_ball_pos swap_state 1).2.1]
    decide
  have hno : ¬ (|((draw (init_balls boot_state)).balls 0).x
        - ((draw (init_balls boot_state)).balls 1).x| < BALL_SIZE ∧
      |((draw (init_balls boot_state)).balls 0).y
        - ((draw (init_balls boot_state)).balls 1).y| < BALL_SIZE) := by
    rw [(draw_ball_pos (init_balls boot_state) 0).1, (draw_ball_pos (init_balls boot_state) 0).2.1,
      (draw_ball_pos (init_balls boot_state) 1).1, (draw_ball_pos (init_balls boot_state) 1).2.1]
    decide
  exact ⟨hov, ((velocity_sign_flip_or_exchange swap_state).2 hov).1, hno,
    ((velocity_sign_flip_or_exchange (init_balls boot_state)).1 hno 0).1⟩

/-! ## Rasterizer: claims -/

theorem foldl_fixed {α : Type} (l : List α) (g : α → Framebuffer → Framebuffer)
    (h : ∀ a ∈ l, ∀ fb, g a fb = fb) (fb : Framebuffer) :
    l.foldl (fun scr a => g a scr) fb = fb := by
  induction l generalizing fb with
  | nil => rfl
  | cons a l ih =>
    rw [List.foldl_cons, h a (List.mem_cons_self a l)]
    exact ih (fun b hb => h b (List.mem_cons_of_mem a hb)) fb

/-- `fill_rect` returns the buffer itself when no pixel of the rectangle is on
the screen. -/
theorem fill_rect_off (fb : Framebuffer) (x y w h c : Int)
    (hoff : w ≤ 0 ∨ h ≤ 0 ∨ x + w ≤ 0 ∨ 320 ≤ x ∨ y + h ≤ 0 ∨ 200 ≤ y) :
    fill_rect fb x y w h c = fb := by
  unfold fill_rect
  apply foldl_fixed (List.range h.toNat)
    (fun (j : Nat) scr =>
      (List.range w.toNat).foldl (fun scr (i : Nat) => put_pixel scr (x + i) (y + j) c) scr)
  intro j hj fb'
  apply foldl_fixed (List.range w.toNat) (fun (i : Nat) scr => put_pixel scr (x + i) (y + j) c)
  intro i hi fb''
  rw [List.mem_range] at hi hj
  apply put_pixel_out
  omega

/-- C11 (`fill_rect` postcondition): after `fill_rect(x, y, w, h, c)` every
on-screen pixel `(px, py)` with `x ≤ px < x + w` and `y ≤ py < y + h` reads
`c mod 16` and every other on-screen pixel is unchanged; the framebuffer is
returned unchanged when `w ≤ 0`, when `h ≤ 0`, and when the rectangle lies
wholly off the 320 x 200 surface. -/
theorem fill_rect_spec (fb : Framebuffer) (x y w h c : Int) :
    (∀ X Y : Nat, X < 320 → Y < 200 →
      (x ≤ X ∧ (X : Int) < x + w ∧ y ≤ Y ∧ (Y : Int) < y + h →
        ((read_pixel (fill_rect fb x y w h c) X Y : Nat) : Int) = c % 16) ∧
      (¬ (x ≤ X ∧ (X : Int) < x + w ∧ y ≤ Y ∧ (Y : Int) < y + h) →
        read_pixel (fill_rect fb x y w h c) X Y = read_pixel fb X Y)) ∧
    (w ≤ 0 ∨ h ≤ 0 → fill_rect fb x y w h c = fb) ∧
    (x + w ≤ 0 ∨ SCREEN_WIDTH ≤ x ∨ y + h ≤ 0 ∨ SCREEN_HEIGHT ≤ y →
      fill_rect fb x y w h c = fb) := by
  simp only [SCREEN_WIDTH, SCREEN_HEIGHT]
  refine ⟨fun X Y hX hY => ?_, fun hw => fill_rect_off fb x y w h c (by omega),
    fun ho => fill_rect_off fb x y w h c (by omega)⟩
  rw [read_pixel_fill_rect fb x y w h c X Y hX hY]
  constructor
  · intro hin
    rw [if_pos hin]
    omega
  · intro hout
    rw [if_neg hout]

/-- Witness for C11: a 3 x 2 rectangle of colour 21 at `(318, 0)` sets pixel
`(319, 1)` to `21 mod 16`, and an empty or off-screen rectangle changes nothing. -/
theorem fill_rect_spec_witness :
    ((read_pixel (fill_rect (fun _ => 0) 318 0 3 2 21) 319 1 : Nat) : Int) = 21 % 16 ∧
      fill_rect (fun _ => 65535) 5 5 0 7 3 = (fun _ => 65535) ∧
      fill_rect (fun _ => 65535) 320 5 4 7 3 = (fun _ => 65535) :=
  ⟨((fill_rect_spec (fun _ => 0) 318 0 3 2 21).1 319 1 (by decide) (by decide)).1 (by decide),
    (fill_rect_spec (fun _ => 65535) 5 5 0 7 3).2.1 (by decide),
    (fill_rect_spec (fun _ => 65535) 320 5 4 7 3).2.2 (by decide)⟩

/-! ## Boundary reflection and owned destinations: claims -/

theorem draw_move_lookahead_x (b : Ball) (hx : 0 ≤ b.x ∧ b.x ≤ 190 ∧ |b.vx| ≤ 10) :
    (0 ≤ b.x + b.vx ∧ b.x + b.vx ≤ 190 →
        (draw_move b).x = b.x + b.vx ∧ (draw_move b).vx = b.vx) ∧
      (¬ (0 ≤ b.x + b.vx ∧ b.x + b.vx ≤ 190) →
        (draw_move b).x = b.x - b.vx ∧ (draw_move b).vx = -b.vx) ∧
      (0 ≤ (draw_move_unclamped b).x ∧ (draw_move_unclamped b).x ≤ 190) ∧
      (draw_move b).x = (draw_move_unclamped b).x ∧
      (draw_move b).vx = (draw_move_unclamped b).vx := by
  obtain ⟨x, y, vx, vy, o, c⟩ := b
  simp only [draw_move, draw_move_unclamped, checkBoundaryCollision, GAME_PIXELS, GRID_SIZE,
    SQUARE_SIZE, BALL_SIZE, abs_le] at *
  by_cases h1 : x + vx < 0 ∨ x + 10 + vx > 10 * 20 <;>
    by_cases h2 : y + vy < 0 ∨ y + 10 + vy > 10 * 20 <;>
    simp only [h1, h2, if_true, if_false] <;>
    split_ifs <;> (try simp only at *) <;>
    refine ⟨?_, ?_, ?_, ?_, ?_⟩ <;> intros <;>
    (try simp only [and_true, true_and, and_self]) <;> omega

theorem draw_move_lookahead_y (b : Ball) (hy : 0 ≤ b.y ∧ b.y ≤ 190 ∧ |b.vy| ≤ 10) :
    (0 ≤ b.y + b.vy ∧ b.y + b.vy ≤ 190 →
        (draw_move b).y = b.y + b.vy ∧ (draw_move b).vy = b.vy) ∧
      (¬ (0 ≤ b.y + b.vy ∧ b.y + b.vy ≤ 190) →
        (draw_move b).y = b.y - b.vy ∧ (draw_move b).vy = -b.vy) ∧
      (0 ≤ (draw_move_unclamped b).y ∧ (draw_move_unclamped b).y ≤ 190) ∧
      (draw_move b).y = (draw_move_unclamped b).y ∧
      (draw_move b).vy = (draw_move_unclamped b).vy := by
  obtain ⟨x, y, vx, vy, o, c⟩ := b
  simp only [draw_move, draw_move_unclamped, checkBoundaryCollision, GAME_PIXELS, GRID_SIZE,
    SQUARE_SIZE, BALL_SIZE, abs_le] at *
  by_cases h1 : x + vx < 0 ∨ x + 10 + vx > 10 * 20 <;>
    by_cases h2 : y + vy < 0 ∨ y + 10 + vy > 10 * 20 <;>
    simp only [h1, h2, if_true, if_false] <;>
    split_ifs <;> (try simp only at *) <;>
    refine ⟨?_, ?_, ?_, ?_, ?_⟩ <;> intros <;>
    (try simp only [and_true, true_and, and_self]) <;> omega

/-- C15 (look-ahead reflection makes the clamp unreachable): for a ball with
`x` in `[0, 190]` and `|vx| ≤ 10` the movement phase of `draw` gives
`x' = x + vx` with `vx` unchanged when `0 ≤ x + vx ≤ 190`, and `vx' = -vx`,
`x' = x - vx` otherwise; the position before the safety clamp is already in
`[0, 190]`, so the clamp changes neither position nor velocity.  The same holds
for `y` and `vy`. -/
theorem lookahead_reflection (b : Ball) :
    (0 ≤ b.x ∧ b.x ≤ GAME_PIXELS - BALL_SIZE ∧ |b.vx| ≤ 10 →
      (0 ≤ b.x + b.vx ∧ b.x + b.vx ≤ GAME_PIXELS - BALL_SIZE →
        (draw_move b).x = b.x + b.vx ∧ (draw_move b).vx = b.vx) ∧
      (¬ (0 ≤ b.x + b.vx ∧ b.x + b.vx ≤ GAME_PIXELS - BALL_SIZE) →
        (draw_move b).x = b.x - b.vx ∧ (draw_move b).vx = -b.vx) ∧
      (0 ≤ (draw_move_unclamped b).x ∧ (draw_move_unclamped b).x ≤ GAME_PIXELS - BALL_SIZE) ∧
      (draw_move b).x = (draw_move_unclamped b).x ∧
      (draw_move b).vx = (draw_move_unclamped b).vx) ∧
    (0 ≤ b.y ∧ b.y ≤ GAME_PIXELS - BALL_SIZE ∧ |b.vy| ≤ 10 →
      (0 ≤ b.y + b.vy ∧ b.y + b.vy ≤ GAME_PIXELS - BALL_SIZE →
        (draw_move b).y = b.y + b.vy ∧ (draw_move b).vy = b.vy) ∧
      (¬ (0 ≤ b.y + b.vy ∧ b.y + b.vy ≤ GAME_PIXELS - BALL_SIZE) →
        (draw_move b).y = b.y - b.vy ∧ (draw_move b).vy = -b.vy) ∧
      (0 ≤ (draw_move_unclamped b).y ∧ (draw_move_unclamped b).y ≤ GAME_PIXELS - BALL_SIZE) ∧
      (draw_move b).y = (draw_move_unclamped b).y ∧
      (draw_move b).vy = (draw_move_unclamped b).vy) := by
  have hc : GAME_PIXELS - BALL_SIZE = 190 := by decide
  rw [hc]
  exact ⟨draw_move_lookahead_x b, draw_move_lookahead_y b⟩

/-- Witness for C15: the day ball at `x = 188` moving right by 5 is reflected to
`x = 183`; the initial day ball simply advances. -/
theorem lookahead_reflection_witness :
    (draw_move ⟨188, 100, 5, 10, OWNER_DAY, DAY_BALL_COLOR⟩).x = 188 - 5 ∧
      (draw_move ⟨188, 100, 5, 10, OWNER_DAY, DAY_BALL_COLOR⟩).vx = -5 ∧
      (draw_move ⟨50, 100, 5, 10, OWNER_DAY, DAY_BALL_COLOR⟩).y = 100 + 10 ∧
      (draw_move ⟨50, 100, 5, 10, OWNER_DAY, DAY_BALL_COLOR⟩).vy = 10 := by
  obtain ⟨h1, h2⟩ :=
    ((lookahead_reflection ⟨188, 100, 5, 10, OWNER_DAY, DAY_BALL_COLOR⟩).1 (by decide)).2.1
      (by decide)
  obtain ⟨h3, h4⟩ :=
    ((lookahead_reflection ⟨50, 100, 5, 10, OWNER_DAY, DAY_BALL_COLOR⟩).2 (by decide)).1
      (by decide)
  exact ⟨h1, h2, h3, h4⟩

/-- C16 (already-owned destination is a no-op): when the ball's centre cell is
in the grid and already holds the ball's owner,
`checkSquareCollision(ball, old_gx, old_gy)` returns the state unchanged for any
`old_gx`, `old_gy`: velocity, position, grid, scores, dirty flag and framebuffer
are all as before. -/
theorem owned_destination_noop (s : State) (i : Fin 2) (old_gx old_gy : Int)
    (hg : 0 ≤ center_gx (s.balls i) ∧ center_gx (s.balls i) < GRID_SIZE ∧
      0 ≤ center_gy (s.balls i) ∧ center_gy (s.balls i) < GRID_SIZE)
    (ho : s.squares (center_gy (s.balls i)) (center_gx (s.balls i)) = (s.balls i).owner) :
    checkSquareCollision s i old_gx old_gy = s := by
  have _ := hg
  exact checkSquareCollision_skip s i old_gx old_gy (Or.inr (Or.inr (Or.inr (Or.inr ho))))

/-- Witness for C16: the day ball of `swap_state` sits in the day cell `(4, 4)`. -/
theorem owned_destination_noop_witness :
    (0 ≤ center_gx (swap_state.balls 0) ∧ center_gx (swap_state.balls 0) < GRID_SIZE ∧
        0 ≤ center_gy (swap_state.balls 0) ∧ center_gy (swap_state.balls 0) < GRID_SIZE) ∧
      swap_state.squares (center_gy (swap_state.balls 0)) (center_gx (swap_state.balls 0))
        = (swap_state.balls 0).owner ∧
      checkSquareCollision swap_state 0 3 7 = swap_state :=
  ⟨by decide, by decide, owned_destination_noop swap_state 0 3 7 (by decide) (by decide)⟩

/-! ## Decimal conversion -/

theorem digit_char_toNat (d : Nat) (hd : d < 10) : (digit_char d).toNat = 48 + d := by
  unfold digit_char
  interval_cases d <;> rfl

theorem long_to_string_loop_digits (fuel : Nat) :
    ∀ (v : Nat) (tmp : List Char), v < 10 ^ fuel →
      long_to_string_loop fuel (v : Int) tmp = tmp ++ (Nat.digits 10 v).map digit_char := by
  induction fuel with
  | zero =>
    intro v tmp hv
    have : v = 0 := by simpa using hv
    subst this
    simp [long_to_string_loop]
  | succ fuel ih =>
    intro v tmp hv
    unfold long_to_string_loop
    by_cases h0 : v = 0
    · subst h0
      simp
    · have hpos : (v : Int) > 0 := by omega
      rw [if_pos hpos]
      have hd : (Int.tmod (v : Int) 10).toNat = v % 10 := by
        rw [Int.tmod_eq_emod (by omega) (by omega)]
        omega
      have hq : Int.tdiv (v : Int) 10 = ((v / 10 : Nat) : Int) := by
        rw [Int.tdiv_eq_ediv (by omega) (by omega)]
        norm_cast
      have hv' : v / 10 < 10 ^ fuel :=
        Nat.div_lt_of_lt_mul (by rw [pow_succ] at hv; omega)
      have e : Nat.digits 10 v = v % 10 :: Nat.digits 10 (v / 10) :=
        Nat.digits_def' (by decide) (by omega)
      simp only [hd, hq]
      rw [ih (v / 10) _ hv', e]
      simp only [List.map_cons, List.append_assoc, List.singleton_append, digit_char]

/-- Closed form of `long_to_string` on the positive values below `10 ^ 15`. -/
theorem long_to_string_digits (value : Int) (hpos : 0 < value) (hlt : value < 10 ^ 15) :
    long_to_string value = (Nat.digits 10 value.toNat).reverse.map digit_char := by
  obtain ⟨n, rfl⟩ : ∃ n : Nat, value = n := ⟨value.toNat, by omega⟩
  unfold long_to_string
  rw [if_neg (by omega), long_to_string_loop_digits 15 n [] (by exact_mod_cast hlt)]
  simp

theorem decimal_value_digits (l : List Nat) (h : ∀ d ∈ l, d < 10) :
    decimal_value (l.reverse.map digit_char) = Nat.ofDigits 10 l := by
  induction l with
  | nil => rfl
  | cons d l ih =>
    have hd := h d (List.mem_cons_self d l)
    have ih' := ih (fun e he => h e (List.mem_cons_of_mem d he))
    unfold decimal_value at *
    rw [List.reverse_cons, List.map_append, List.foldl_append, ih', Nat.ofDigits_cons]
    simp only [List.map_cons, List.map_nil, List.foldl_cons, List.foldl_nil,
      digit_char_toNat d hd]
    omega

/-- Every character written by `long_to_string` is a decimal digit, for every
value. -/
theorem long_to_string_loop_isDigit (fuel : Nat) :
    ∀ (value : Int) (tmp : List Char), (∀ ch ∈ tmp, ∃ d, d < 10 ∧ ch = digit_char d) →
      ∀ ch ∈ long_to_string_loop fuel value tmp, ∃ d, d < 10 ∧ ch = digit_char d := by
  induction fuel with
  | zero =>
    intro value tmp h
    simpa [long_to_string_loop] using h
  | succ fuel ih =>
    intro value tmp h
    unfold long_to_string_loop
    by_cases hpos : value > 0
    · rw [if_pos hpos]
      apply ih
      intro ch hch
      rw [List.mem_append, List.mem_singleton] at hch
      rcases hch with hch | hch
      · exact h ch hch
      · refine ⟨(Int.tmod value 10).toNat, ?_, hch⟩
        rw [Int.tmod_eq_emod (by omega) (by omega)]
        omega
    · rw [if_neg hpos]
      exact h

theorem long_to_string_isDigit (value : Int) :
    ∀ ch ∈ long_to_string value, ∃ d, d < 10 ∧ ch = digit_char d := by
  unfold long_to_string
  split_ifs
  · intro ch hch
    rw [List.mem_singleton] at hch
    exact ⟨0, by decide, hch⟩
  · intro ch hch
    rw [List.mem_reverse] at hch
    exact long_to_string_loop_isDigit 15 value [] (fun c hc => by simp at hc) ch hch

/-- C12 (decimal conversion): `long_to_string(value)` is the string `"0"` for
every `value ≤ 0`; for `0 < value < 10 ^ 15` it is the canonical decimal
representation of `value`: the base-10 digits of `value`, most significant
first, each written as `'0' + d`; it is non-empty, has no leading zero, and the
number its digits denote is `value`. -/
theorem decimal_conversion (value : Int) :
    (value ≤ 0 → long_to_string value = [Char.ofNat 48]) ∧
    (0 < value → value < 10 ^ 15 →
      long_to_string value = (Nat.digits 10 value.toNat).reverse.map digit_char ∧
      (∀ ch ∈ long_to_string value, 48 ≤ ch.toNat ∧ ch.toNat ≤ 57) ∧
      long_to_string value ≠ [] ∧
      (long_to_string value).head? ≠ some (Char.ofNat 48) ∧
      ((decimal_value (long_to_string value) : Nat) : Int) = value) := by
  constructor
  · intro h
    unfold long_to_string
    rw [if_pos h]
  · intro hpos hlt
    have hne : value.toNat ≠ 0 := by omega
    have hdig : ∀ d ∈ Nat.digits 10 value.toNat, d < 10 :=
      fun d hd => Nat.digits_lt_base (by decide) hd
    have hnil : Nat.digits 10 value.toNat ≠ [] := Nat.digits_ne_nil_iff_ne_zero.mpr hne
    have hlast := Nat.getLast_digit_ne_zero 10 hne
    rw [long_to_string_digits value hpos hlt]
    refine ⟨rfl, ?_, ?_, ?_, ?_⟩
    · intro ch hch
      rw [List.mem_map] at hch
      obtain ⟨d, hd, rfl⟩ := hch
      rw [List.mem_reverse] at hd
      rw [digit_char_toNat d (hdig d hd)]
      have := hdig d hd
      omega
    · simp [hnil]
    · rw [List.head?_map, List.head?_reverse, List.getLast?_eq_getLast _ hnil]
      simp only [Option.map_some', ne_eq, Option.some.injEq]
      intro hc
      have h1 := congrArg Char.toNat hc
      have hlt := hdig _ (List.getLast_mem hnil)
      rw [digit_char_toNat _ hlt] at h1
      have h48 : (Char.ofNat 48).toNat = 48 := rfl
      rw [h48] at h1
      exact hlast (by omega)
    · rw [decimal_value_digits _ hdig, Nat.ofDigits_digits]
      omega

/-- Witness for C12: 0 and -5 both give `"0"`, and 1205 gives `"1205"`. -/
theorem decimal_conversion_witness :
    long_to_string 0 = [Char.ofNat 48] ∧ long_to_string (-5) = [Char.ofNat 48] ∧
      long_to_string 1205 = (Nat.digits 10 (1205 : Int).toNat).reverse.map digit_char ∧
      ((decimal_value (long_to_string 1205) : Nat) : Int) = 1205 :=
  ⟨(decimal_conversion 0).1 (by decide), (decimal_conversion (-5)).1 (by decide),
    ((decimal_conversion 1205).2 (by decide) (by decide)).1,
    ((decimal_conversion 1205).2 (by decide) (by decide)).2.2.2.2⟩

/-! ## Score text -/

theorem paints_id (v : Nat) : Paints (fun fb => fb) (fun _ _ => False) v := by
  intro fb X Y _ _
  exact ⟨fun h => absurd h id, fun _ => rfl⟩

theorem paints_draw_digit_pixel (x y color : Int) (row dy dx : Nat) (hdx : dx < 5) :
    Paints (fun fb => draw_digit_pixel x y color row dy fb dx)
      (fun X Y => row.testBit (4 - dx) = true ∧ x + (dx : Int) = X ∧ y + (dy : Int) = Y)
      (color % 16).toNat := by
  have hbit : (1 <<< (DIGIT_WIDTH.toNat - 1 - dx)) % 256 = 1 <<< (4 - dx) := by
    have h5 : DIGIT_WIDTH.toNat = 5 := by decide
    rw [h5]
    interval_cases dx <;> rfl
  unfold draw_digit_pixel
  simp only [hbit, and_shift_ne_zero]
  by_cases hb : row.testBit (4 - dx) = true
  · simp only [hb, if_true, true_and]
    exact paints_put_pixel (x + dx) (y + dy) color
  · intro fb X Y _ _
    simp only [if_neg hb]
    exact ⟨fun h => absurd h.1 hb, fun _ => trivial⟩

theorem draw_digit_eq (fb : Framebuffer) (x y color : Int) (d : Nat) (hd : d < 10) :
    draw_digit fb x y (digit_char d) color =
      (List.range 7).foldl
        (fun scr (dy : Nat) =>
          (List.range 5).foldl
            (draw_digit_pixel x y color ((digit_font.getD d []).getD dy 0) dy) scr)
        fb := by
  have hch := digit_char_toNat d hd
  have hguard : ¬ ((digit_char d).toNat < 48 ∨ (digit_char d).toNat > 57) := by omega
  have hsub : (digit_char d).toNat - 48 = d := by omega
  have h7 : DIGIT_HEIGHT.toNat = 7 := by decide
  have h5 : DIGIT_WIDTH.toNat = 5 := by decide
  unfold draw_digit
  rw [if_neg hguard]
  simp only [hsub, h7, h5]

/-- Pixel-level effect of `draw_digit` on a digit character. -/
theorem paints_draw_digit (x y color : Int) (d : Nat) (hd : d < 10) :
    Paints (fun fb => draw_digit fb x y (digit_char d) color)
      (fun X Y => ∃ dy ∈ List.range 7, ∃ dx ∈ List.range 5,
        glyph_bit d dy dx = true ∧ x + (dx : Int) = X ∧ y + (dy : Int) = Y)
      (color % 16).toNat := by
  intro fb X Y hX hY
  simp only [draw_digit_eq _ x y color d hd]
  exact paints_foldl (List.range 7)
    (fun (dy : Nat) scr =>
      (List.range 5).foldl
        (draw_digit_pixel x y color ((digit_font.getD d []).getD dy 0) dy) scr)
    (fun (dy : Nat) X Y => ∃ dx ∈ List.range 5,
      glyph_bit d dy dx = true ∧ x + (dx : Int) = X ∧ y + (dy : Int) = Y) _
    (fun dy _ =>
      paints_foldl (List.range 5)
        (fun (dx : Nat) scr =>
          draw_digit_pixel x y color ((digit_font.getD d []).getD dy 0) dy scr dx)
        (fun (dx : Nat) X Y =>
          glyph_bit d dy dx = true ∧ x + (dx : Int) = X ∧ y + (dy : Int) = Y) _
        (fun dx hdx =>
          paints_draw_digit_pixel x y color _ dy dx (List.mem_range.mp hdx)))
    fb X Y hX hY

theorem long_to_string_getD (value : Int) (i : Nat) (hi : i < (long_to_string value).length)
    (c : Char) :
    digit_at (long_to_string value) i < 10 ∧
      (long_to_string value).getD i c = digit_char (digit_at (long_to_string value) i) := by
  have hmem : (long_to_string value).getD i c ∈ long_to_string value := by
    rw [List.getD_eq_getElem _ _ hi]
    exact List.getElem_mem _
  obtain ⟨d, hd, hc⟩ := long_to_string_isDigit value _ hmem
  have hat : digit_at (long_to_string value) i = d := by
    unfold digit_at
    rw [List.getD_eq_getElem _ _ hi] at hc ⊢
    rw [hc, digit_char_toNat d hd]
    omega
  rw [hat]
  exact ⟨hd, hc⟩

/-- Pixel-level effect of the glyph loop of `draw_number`. -/
theorem paints_number_glyphs (x top value : Int) :
    Paints
      (fun fb => (List.range (long_to_string value).length).foldl
        (fun scr (i : Nat) =>
          draw_digit scr (x + (i : Int) * (DIGIT_WIDTH + 1)) top
            ((long_to_string value).getD i (Char.ofNat 0)) COLOR_TEXT) fb)
      (fun X Y => ∃ i ∈ List.range (long_to_string value).length,
        ∃ dy ∈ List.range 7, ∃ dx ∈ List.range 5,
          glyph_bit (digit_at (long_to_string value) i) dy dx = true ∧
            x + (i : Int) * 6 + (dx : Int) = X ∧ top + (dy : Int) = Y)
      15 := by
  apply paints_foldl (List.range (long_to_string value).length)
    (fun (i : Nat) fb => draw_digit fb (x + (i : Int) * (DIGIT_WIDTH + 1)) top
      ((long_to_string value).getD i (Char.ofNat 0)) COLOR_TEXT)
    (fun (i : Nat) X Y => ∃ dy ∈ List.range 7, ∃ dx ∈ List.range 5,
      glyph_bit (digit_at (long_to_string value) i) dy dx = true ∧
        x + (i : Int) * 6 + (dx : Int) = X ∧ top + (dy : Int) = Y)
  intro i hi
  obtain ⟨hd, hc⟩ := long_to_string_getD value i (List.mem_range.mp hi) (Char.ofNat 0)
  rw [hc]
  exact paints_draw_digit (x + (i : Int) * 6) top 15 _ hd

/-- Pixel-level effect of `draw_number`: inside the text box the pixel is given
by `number_pixel`, outside it is unchanged. -/
theorem read_pixel_draw_number (fb : Framebuffer) (x center_y value : Int) (X Y : Nat)
    (hX : X < 320) (hY : Y < 200) :
    read_pixel (draw_number fb x center_y value) X Y =
      if x ≤ X ∧ (X : Int) < x + (6 * ((long_to_string value).length : Int) - 1) ∧
          center_y - 3 ≤ Y ∧ (Y : Int) < center_y - 3 + 7 then
        number_pixel value (X - x).toNat (Y - (center_y - 3)).toNat
      else read_pixel fb X Y := by
  have hglyph := paints_number_glyphs x (center_y - 3) value
  have h3 : DIGIT_HEIGHT / 2 = 3 := by decide
  unfold draw_number
  simp only [h3]
  by_cases hlen : (long_to_string value).length = 0
  · rw [if_pos hlen]
    have : ¬ (x ≤ X ∧ (X : Int) < x + (6 * ((long_to_string value).length : Int) - 1) ∧
        center_y - 3 ≤ Y ∧ (Y : Int) < center_y - 3 + 7) := by
      rw [hlen]; omega
    rw [if_neg this]
  · rw [if_neg hlen]
    have hp := hglyph (fill_rect fb x (center_y - 3)
      (((long_to_string value).length : Int) * (DIGIT_WIDTH + 1) - 1) DIGIT_HEIGHT COLOR_BG)
      X Y hX hY
    have hfill := read_pixel_fill_rect fb x (center_y - 3)
      (((long_to_string value).length : Int) * (DIGIT_WIDTH + 1) - 1) DIGIT_HEIGHT COLOR_BG
      X Y hX hY
    simp only [DIGIT_WIDTH, DIGIT_HEIGHT, COLOR_BG] at hp hfill ⊢
    by_cases hP : ∃ i ∈ List.range (long_to_string value).length,
        ∃ dy ∈ List.range 7, ∃ dx ∈ List.range 5,
          glyph_bit (digit_at (long_to_string value) i) dy dx = true ∧
            x + (i : Int) * 6 + (dx : Int) = X ∧ center_y - 3 + (dy : Int) = Y
    · rw [hp.1 hP]
      obtain ⟨i, hi, dy, hdy, dx, hdx, hg, hx, hy⟩ := hP
      rw [List.mem_range] at hi hdy hdx
      have hin : x ≤ X ∧ (X : Int) < x + (6 * ((long_to_string value).length : Int) - 1) ∧
          center_y - 3 ≤ Y ∧ (Y : Int) < center_y - 3 + 7 := by omega
      rw [if_pos hin]
      have e1 : (X - x).toNat = 6 * i + dx := by omega
      have e2 : (Y - (center_y - 3)).toNat = dy := by omega
      have e3 : (6 * i + dx) % 6 = dx := by omega
      have e4 : (6 * i + dx) / 6 = i := by omega
      unfold number_pixel
      rw [e1, e2, e3, e4, if_pos ⟨hdx, hg⟩]
    · rw [hp.2 hP, hfill]
      by_cases hin : x ≤ X ∧ (X : Int) < x + (6 * ((long_to_string value).length : Int) - 1) ∧
          center_y - 3 ≤ Y ∧ (Y : Int) < center_y - 3 + 7
      · have hin' : x ≤ X ∧ (X : Int) < x + (((long_to_string value).length : Int) * (5 + 1) - 1) ∧
            center_y - 3 ≤ Y ∧ (Y : Int) < center_y - 3 + 7 := by omega
        rw [if_pos hin, if_pos hin']
        unfold number_pixel
        by_cases hn : (X - x).toNat % 6 < 5 ∧
            glyph_bit (digit_at (long_to_string value) ((X - x).toNat / 6))
              (Y - (center_y - 3)).toNat ((X - x).toNat % 6) = true
        · exfalso
          apply hP
          refine ⟨(X - x).toNat / 6, ?_, (Y - (center_y - 3)).toNat, ?_, (X - x).toNat % 6, ?_,
            hn.2, ?_, ?_⟩
          · rw [List.mem_range]; omega
          · rw [List.mem_range]; omega
          · rw [List.mem_range]; omega
          · omega
          · omega
        · rw [if_neg hn]
          rfl
      · have hin' : ¬ (x ≤ X ∧
            (X : Int) < x + (((long_to_string value).length : Int) * (5 + 1) - 1) ∧
            center_y - 3 ≤ Y ∧ (Y : Int) < center_y - 3 + 7) := by omega
        rw [if_neg hin, if_neg hin']

/-- C13 (number rendering): after `draw_number(x, center_y, value)`, with `n`
the number of characters of `long_to_string(value)` and `d_k` its digits, every
on-screen pixel `(x + i, center_y - 3 + j)` with `0 ≤ i < 6 n - 1` and
`0 ≤ j < 7` reads `COLOR_TEXT` when `i mod 6 < 5` and bit `4 - i mod 6` of
`digit_font[d_(i div 6)][j]` is set, and `COLOR_BG` otherwise; every on-screen
pixel outside that `(6 n - 1) x 7` rectangle is unchanged.  This holds for every
value, in particular for every value below `10 ^ 15`. -/
theorem number_rendering (fb : Framebuffer) (x center_y value : Int) :
    (∀ i j X Y : Nat, (i : Int) < 6 * ((long_to_string value).length : Int) - 1 → j < 7 →
      X < 320 → Y < 200 → (X : Int) = x + i → (Y : Int) = center_y - 3 + j →
      ((read_pixel (draw_number fb x center_y value) X Y : Nat) : Int) =
        if i % 6 < 5 ∧ glyph_bit (digit_at (long_to_string value) (i / 6)) j (i % 6) = true
        then COLOR_TEXT else COLOR_BG) ∧
    (∀ X Y : Nat, X < 320 → Y < 200 →
      ¬ (x ≤ X ∧ (X : Int) < x + (6 * ((long_to_string value).length : Int) - 1) ∧
        center_y - 3 ≤ Y ∧ (Y : Int) < center_y - 3 + 7) →
      read_pixel (draw_number fb x center_y value) X Y = read_pixel fb X Y) := by
  constructor
  · intro i j X Y hi hj hX hY hx hy
    have hin : x ≤ X ∧ (X : Int) < x + (6 * ((long_to_string value).length : Int) - 1) ∧
        center_y - 3 ≤ Y ∧ (Y : Int) < center_y - 3 + 7 := by omega
    have e1 : ((X : Int) - x).toNat = i := by omega
    have e2 : ((Y : Int) - (center_y - 3)).toNat = j := by omega
    rw [read_pixel_draw_number fb x center_y value X Y hX hY, if_pos hin, e1, e2]
    unfold number_pixel
    split_ifs <;> rfl
  · intro X Y hX hY hout
    rw [read_pixel_draw_number fb x center_y value X Y hX hY, if_neg hout]

/-- Witness for C13: drawing 50 at `LEFT_SCORE_X`, `SCORE_CENTER_Y` over an
all-white buffer sets pixel `(22, 97)` (top row of the glyph of 5) to
`COLOR_TEXT`, clears the gap pixel `(26, 97)`, and leaves `(60, 100)` alone. -/
theorem number_rendering_witness :
    ((read_pixel (draw_number (fun _ => 65535) LEFT_SCORE_X SCORE_CENTER_Y 50) 22 97 : Nat) : Int)
        = COLOR_TEXT ∧
      ((read_pixel (draw_number (fun _ => 65535) LEFT_SCORE_X SCORE_CENTER_Y 50) 26 97 : Nat)
        : Int) = COLOR_BG ∧
      read_pixel (draw_number (fun _ => 65535) LEFT_SCORE_X SCORE_CENTER_Y 50) 60 100
        = read_pixel (fun _ => 65535) 60 100 :=
  ⟨((number_rendering (fun _ => 65535) LEFT_SCORE_X SCORE_CENTER_Y 50).1 1 0 22 97
      (by decide) (by decide) (by decide) (by decide) (by decide) (by decide)).trans (by decide),
    ((number_rendering (fun _ => 65535) LEFT_SCORE_X SCORE_CENTER_Y 50).1 5 0 26 97
      (by decide) (by decide) (by decide) (by decide) (by decide) (by decide)).trans (by decide),
    (number_rendering (fun _ => 65535) LEFT_SCORE_X SCORE_CENTER_Y 50).2 60 100
      (by decide) (by decide) (by decide)⟩


/-! ## Checked embedding: no access is out of range -/

theorem foldlM_some {α β : Type} (f : β → α → Option β) (g : β → α → β) (l : List α)
    (h : ∀ b, ∀ a ∈ l, f b a = some (g b a)) (b : β) :
    l.foldlM f b = some (l.foldl g b) := by
  induction l generalizing b with
  | nil => rfl
  | cons a l ih =>
    rw [List.foldlM_cons, h b a (List.mem_cons_self a l)]
    exact ih (fun b' a' ha' => h b' a' (List.mem_cons_of_mem a ha')) (g b a)

theorem put_pixel_chk_eq (fb : Framebuffer) (x y color : Int) :
    put_pixel_chk fb x y color = some (put_pixel fb x y color) := by
  unfold put_pixel_chk put_pixel
  by_cases hg : x < 0 ∨ x ≥ SCREEN_WIDTH ∨ y < 0 ∨ y ≥ SCREEN_HEIGHT
  · rw [if_pos hg, if_pos hg]
  · rw [if_neg hg, if_neg hg]
    simp only [SCREEN_WIDTH, SCREEN_HEIGHT] at hg
    apply foldlM_some
    intro scr plane hp
    rw [List.mem_range] at hp
    have hx0 : x = ((x.toNat : Nat) : Int) := by omega
    have hgroup : (x >>> 4) = ((x.toNat / 16 : Nat) : Int) := by
      rw [hx0]
      show (((x.toNat >>> 4 : Nat)) : Int) = _
      rw [Nat.shiftRight_eq_div_pow]
      simp
    have hP : ((PLANES : Nat) : Int) = 4 := rfl
    have hp4 : plane < 4 := hp
    have hin : (0 : Int) ≤ y * WORDS_PER_LINE + x >>> 4 * (PLANES : Int) + (plane : Int) ∧
        y * WORDS_PER_LINE + x >>> 4 * (PLANES : Int) + (plane : Int) < SCREEN_BYTES / 2 := by
      rw [hgroup, hP]
      simp only [WORDS_PER_LINE, SCREEN_WIDTH, SCREEN_BYTES, SCREEN_HEIGHT, hP]
      omega
    unfold put_pixel_plane_chk put_pixel_plane word_read_chk word_write_chk
    simp only [if_pos hin, Option.some_bind, Option.some.injEq]

theorem fill_rect_chk_eq (fb : Framebuffer) (x y w h color : Int) :
    fill_rect_chk fb x y w h color = some (fill_rect fb x y w h color) := by
  unfold fill_rect_chk fill_rect
  apply foldlM_some
  intro scr j _
  apply foldlM_some
  intro scr' i _
  exact put_pixel_chk_eq scr' _ _ color

theorem draw_cell_chk_eq (s : State) (gx gy : Int) :
    draw_cell_chk s gx gy = some (draw_cell s gx gy) := by
  unfold draw_cell_chk draw_cell
  by_cases hg : gx < 0 ∨ gx ≥ GRID_SIZE ∨ gy < 0 ∨ gy ≥ GRID_SIZE
  · rw [if_pos hg, if_pos hg]
  · rw [if_neg hg, if_neg hg]
    have hin : 0 ≤ gy ∧ gy < GRID_SIZE ∧ 0 ≤ gx ∧ gx < GRID_SIZE := by omega
    unfold square_read_chk
    simp only [if_pos hin, Option.some_bind, fill_rect_chk_eq, Option.map_some']

theorem paint_cell_chk_eq (s : State) (gx gy owner : Int) :
    paint_cell_chk s gx gy owner = some (paint_cell s gx gy owner) := by
  unfold paint_cell_chk paint_cell
  by_cases hg : gx < 0 ∨ gx ≥ GRID_SIZE ∨ gy < 0 ∨ gy ≥ GRID_SIZE
  · rw [if_pos hg, if_pos hg]
  · rw [if_neg hg, if_neg hg]
    have hin : 0 ≤ gy ∧ gy < GRID_SIZE ∧ 0 ≤ gx ∧ gx < GRID_SIZE := by omega
    unfold square_read_chk square_write_chk
    simp only [if_pos hin, Option.some_bind]
    by_cases ho : s.squares gy gx = owner
    · rw [if_pos ho, if_pos ho]
    · rw [if_neg ho, if_neg ho]
      split_ifs <;>
        simp only [if_pos hin, Option.some_bind, draw_cell_chk_eq, Option.map_some']

theorem eraseBall_cell_chk_eq (s : State) (ball : Ball) (gx gy : Int) :
    eraseBall_cell_chk s ball gx gy = some (eraseBall_cell s ball gx gy) := by
  unfold eraseBall_cell_chk eraseBall_cell square_read_chk
  by_cases hin : gx ≥ 0 ∧ gx < GRID_SIZE ∧ gy ≥ 0 ∧ gy < GRID_SIZE
  · have hin' : 0 ≤ gy ∧ gy < GRID_SIZE ∧ 0 ≤ gx ∧ gx < GRID_SIZE := by omega
    simp only [if_pos hin, if_pos hin', Option.some_bind]
    split_ifs <;> simp only [fill_rect_chk_eq, Option.map_some']
  · simp only [if_neg hin, Option.some_bind]
    split_ifs <;> simp only [fill_rect_chk_eq, Option.map_some']

theorem eraseBall_chk_eq (s : State) (ball : Ball) :
    eraseBall_chk s ball = some (eraseBall s ball) := by
  unfold eraseBall_chk eraseBall
  apply foldlM_some
  intro s' gy _
  apply foldlM_some
  intro s'' gx _
  exact eraseBall_cell_chk_eq s'' ball gx gy

theorem checkSquareCollision_chk_eq (s : State) (i : Fin 2) (old_gx old_gy : Int) :
    checkSquareCollision_chk s i old_gx old_gy = some (checkSquareCollision s i old_gx old_gy) := by
  unfold checkSquareCollision_chk checkSquareCollision
  simp only
  generalize Int.tdiv ((s.balls i).x + BALL_SIZE / 2) SQUARE_SIZE = gx
  generalize Int.tdiv ((s.balls i).y + BALL_SIZE / 2) SQUARE_SIZE = gy
  by_cases hg : gx < 0 ∨ gx ≥ GRID_SIZE ∨ gy < 0 ∨ gy ≥ GRID_SIZE
  · rw [if_pos hg, if_pos hg]
  · rw [if_neg hg, if_neg hg]
    have hin : 0 ≤ gy ∧ gy < GRID_SIZE ∧ 0 ≤ gx ∧ gx < GRID_SIZE := by omega
    unfold square_read_chk
    simp only [if_pos hin, Option.some_bind, paint_cell_chk_eq, Option.map_some']
    by_cases ho : s.squares gy gx ≠ (s.balls i).owner
    · rw [if_pos ho, if_pos ho]
      rfl
    · rw [if_neg ho, if_neg ho]

theorem font_read_chk_eq (d dy : Nat) (hd : d < 10) (hdy : dy < 7) :
    font_read_chk d dy = some ((digit_font.getD d []).getD dy 0) := by
  unfold font_read_chk
  rw [if_pos (by omega)]
  interval_cases d <;> interval_cases dy <;> rfl

theorem draw_digit_chk_eq (fb : Framebuffer) (x y : Int) (ch : Char) (color : Int) :
    draw_digit_chk fb x y ch color = some (draw_digit fb x y ch color) := by
  unfold draw_digit_chk draw_digit
  by_cases hg : ch.toNat < 48 ∨ ch.toNat > 57
  · rw [if_pos hg, if_pos hg]
  · rw [if_neg hg, if_neg hg]
    have h7 : DIGIT_HEIGHT.toNat = 7 := by decide
    have hd : ((ch.toNat : Int) - 48) = ((ch.toNat - 48 : Nat) : Int) := by omega
    simp only [h7, hd]
    apply foldlM_some
    intro scr dy hdy
    rw [List.mem_range] at hdy
    rw [font_read_chk_eq _ dy (by omega) hdy, Option.some_bind]
    apply foldlM_some
    intro scr' dx _
    unfold draw_digit_pixel_chk draw_digit_pixel
    simp only
    split_ifs
    · exact put_pixel_chk_eq scr' _ _ color
    · rfl

theorem put_pixel_high_words (fb : Framebuffer) (x y c : Int) (i : Nat) (hi : 16000 ≤ i) :
    put_pixel fb x y c i = fb i := by
  by_cases hg : x < 0 ∨ x ≥ 320 ∨ y < 0 ∨ y ≥ 200
  · rw [put_pixel_out fb x y c hg]
  · obtain ⟨X, rfl⟩ : ∃ X : Nat, x = X := ⟨x.toNat, by omega⟩
    obtain ⟨Y, rfl⟩ : ∃ Y : Nat, y = Y := ⟨y.toNat, by omega⟩
    rw [put_pixel_apply fb X Y c (by omega) (by omega) i, if_neg (by omega)]

/-- C14 (no out-of-range index): in the embedding where every access to the
framebuffer, to `squares` and to `digit_font` is checked (an index outside
`[0, 16000)`, outside `[0, 10) x [0, 10)` or outside `[0, 10) x [0, 7)` gives
`none`), `put_pixel`, `draw_cell`, `paint_cell`, `eraseBall`,
`checkSquareCollision` and `draw_digit` never fail, for all integer arguments
and every state, and return what the unchecked functions return; `put_pixel`
leaves every word from index 16000 on as it was. -/
theorem no_out_of_range_index :
    (∀ (fb : Framebuffer) (x y c : Int), put_pixel_chk fb x y c = some (put_pixel fb x y c)) ∧
    (∀ (fb : Framebuffer) (x y c : Int) (i : Nat), 16000 ≤ i → put_pixel fb x y c i = fb i) ∧
    (∀ (s : State) (gx gy : Int), draw_cell_chk s gx gy = some (draw_cell s gx gy)) ∧
    (∀ (s : State) (gx gy owner : Int),
      paint_cell_chk s gx gy owner = some (paint_cell s gx gy owner)) ∧
    (∀ (s : State) (ball : Ball), eraseBall_chk s ball = some (eraseBall s ball)) ∧
    (∀ (s : State) (i : Fin 2) (old_gx old_gy : Int),
      checkSquareCollision_chk s i old_gx old_gy
        = some (checkSquareCollision s i old_gx old_gy)) ∧
    (∀ (fb : Framebuffer) (x y : Int) (ch : Char) (color : Int),
      draw_digit_chk fb x y ch color = some (draw_digit fb x y ch color)) :=
  ⟨put_pixel_chk_eq, put_pixel_high_words, draw_cell_chk_eq, paint_cell_chk_eq, eraseBall_chk_eq,
    checkSquareCollision_chk_eq, draw_digit_chk_eq⟩

theorem no_out_of_range_index_witness :
    put_pixel_chk (fun _ => 0) 319 199 15 = some (put_pixel (fun _ => 0) 319 199 15) ∧
    put_pixel (fun _ => 0) 319 199 15 16000 = 0 ∧
    eraseBall_chk boot_state (boot_state.balls 0)
      = some (eraseBall boot_state (boot_state.balls 0)) :=
  ⟨no_out_of_range_index.1 _ 319 199 15,
    no_out_of_range_index.2.1 (fun _ => 0) 319 199 15 16000 (by decide),
    no_out_of_range_index.2.2.2.2.1 boot_state (boot_state.balls 0)⟩

/-! ## Erasing a ball -/

theorem owner_color_toNat (o : Int) : ((owner_color o) % 16).toNat = (owner_color o).toNat := by
  unfold owner_color
  split_ifs <;> rfl

theorem owner_color_cast (o : Int) : (((owner_color o).toNat : Nat) : Int) = owner_color o := by
  unfold owner_color
  split_ifs <;> rfl

/-- Pixel-level effect of one candidate cell of `eraseBall`: the part of the
ball's box inside cell `(gx, gy)` gets the colour of that cell. -/
theorem read_pixel_eraseBall_cell (s : State) (ball : Ball) (gx gy : Int) (X Y : Nat)
    (hX : X < 320) (hY : Y < 200) :
    read_pixel (eraseBall_cell s ball gx gy).screen X Y =
      if (gx * 20 ≤ (X : Int) - 60 ∧ (X : Int) - 60 < gx * 20 + 20 ∧
          gy * 20 ≤ (Y : Int) ∧ (Y : Int) < gy * 20 + 20) ∧ in_ball_box ball X Y then
        (owner_color (if gx ≥ 0 ∧ gx < 10 ∧ gy ≥ 0 ∧ gy < 10 then s.squares gy gx else 0)).toNat
      else read_pixel s.screen X Y := by
  have eL : GAME_LEFT = 60 := by decide
  have eT : GAME_TOP = 0 := by decide
  unfold eraseBall_cell in_ball_box
  simp only [MAX, MIN, eL, eT, SQUARE_SIZE, BALL_SIZE, GRID_SIZE, COLOR_BG]
  have hcol : ∀ o : Int, (if o = OWNER_DAY then DAY_COLOR else if o = OWNER_NIGHT then NIGHT_COLOR
      else 0) = owner_color o := fun o => rfl
  rw [hcol]
  generalize (if gx ≥ 0 ∧ gx < 10 ∧ gy ≥ 0 ∧ gy < 10 then s.squares gy gx else 0) = o
  split_ifs with h1 h2 h3 h4 h5 h6 h7 h8 h9 <;>
    first
    | rfl
    | (simp only [read_pixel_fill_rect _ _ _ _ _ _ X Y hX hY, owner_color_toNat]
       split_ifs <;> first | rfl | omega)
    | omega

/-- A fold of state transformers that keep `squares` and each recolour the
pixels selected by `P a` with `col` recolours the union of the selections. -/
theorem foldl_pixels {α : Type} (l : List α) (f : State → α → State) (sq : Int → Int → Int)
    (P : α → Nat → Nat → Prop) (col : Nat → Nat → Nat)
    (hsq : ∀ s a, (f s a).squares = s.squares)
    (h : ∀ s a, a ∈ l → s.squares = sq → ∀ X Y, X < 320 → Y < 200 →
      (P a X Y → read_pixel (f s a).screen X Y = col X Y) ∧
      (¬ P a X Y → read_pixel (f s a).screen X Y = read_pixel s.screen X Y))
    (s : State) (hs : s.squares = sq) (X Y : Nat) (hX : X < 320) (hY : Y < 200) :
    ((∃ a ∈ l, P a X Y) → read_pixel (l.foldl f s).screen X Y = col X Y) ∧
    (¬ (∃ a ∈ l, P a X Y) → read_pixel (l.foldl f s).screen X Y = read_pixel s.screen X Y) := by
  induction l generalizing s with
  | nil =>
    constructor
    · rintro ⟨a, ha, _⟩
      exact absurd ha (List.not_mem_nil a)
    · intro _; rfl
  | cons a l ih =>
    rw [List.foldl_cons]
    have iha := ih (fun s b hb => h s b (List.mem_cons_of_mem a hb)) (f s a)
      ((hsq s a).trans hs)
    have ha := h s a (List.mem_cons_self a l) hs X Y hX hY
    by_cases hl : ∃ b ∈ l, P b X Y
    · refine ⟨fun _ => iha.1 hl, fun hn => ?_⟩
      obtain ⟨b, hb, hP⟩ := hl
      exact absurd ⟨b, List.mem_cons_of_mem a hb, hP⟩ hn
    · by_cases hP : P a X Y
      · refine ⟨fun _ => (iha.2 hl).trans (ha.1 hP), fun hn => ?_⟩
        exact absurd ⟨a, List.mem_cons_self a l, hP⟩ hn
      · refine ⟨fun hex => ?_, fun _ => (iha.2 hl).trans (ha.2 hP)⟩
        obtain ⟨b, hb, hPb⟩ := hex
        rcases List.mem_cons.1 hb with rfl | hb'
        · exact absurd hPb hP
        · exact absurd ⟨b, hb', hPb⟩ hl

theorem mem_loop_incl (lo hi g : Int) : g ∈ loop_incl lo hi ↔ lo ≤ g ∧ g ≤ hi := by
  unfold loop_incl
  simp only [List.mem_map, List.mem_range]
  constructor
  · rintro ⟨k, hk, rfl⟩
    omega
  · intro hg
    exact ⟨(g - lo).toNat, by omega, by omega⟩

theorem foldl_squares {α : Type} (l : List α) (f : State → α → State)
    (hsq : ∀ s a, (f s a).squares = s.squares) (s : State) :
    (l.foldl f s).squares = s.squares := by
  induction l generalizing s with
  | nil => rfl
  | cons a l ih => rw [List.foldl_cons, ih, hsq]

theorem eraseBall_cell_squares (ball : Ball) (gy : Int) (s : State) (gx : Int) :
    (eraseBall_cell s ball gx gy).squares = s.squares := by
  have h := congrArg State.squares (eraseBall_cell_only_screen ball gy s gx)
  exact h

/-- Pixel-level effect of `eraseBall` for a ball inside the play area: the
ball's box gets the territory colours, every other pixel is kept. -/
theorem read_pixel_eraseBall (s : State) (ball : Ball) (hx : 0 ≤ ball.x ∧ ball.x ≤ 190)
    (hy : 0 ≤ ball.y ∧ ball.y ≤ 190) (X Y : Nat) (hX : X < 320) (hY : Y < 200) :
    read_pixel (eraseBall s ball).screen X Y =
      if in_ball_box ball X Y then (territory_color s.squares (X - 60) Y).toNat
      else read_pixel s.screen X Y := by
  have eL : GAME_LEFT = 60 := by decide
  have eT : GAME_TOP = 0 := by decide
  have inner : ∀ (gy : Int) (t : State), t.squares = s.squares → ∀ X Y : Nat, X < 320 → Y < 200 →
      ((gy * 20 ≤ (Y : Int) ∧ (Y : Int) < gy * 20 + 20) ∧ in_ball_box ball X Y →
        read_pixel ((loop_incl (Int.tdiv ball.x SQUARE_SIZE)
          (Int.tdiv (ball.x + BALL_SIZE - 1) SQUARE_SIZE)).foldl
            (fun s gx => eraseBall_cell s ball gx gy) t).screen X Y
          = (territory_color s.squares (X - 60) Y).toNat) ∧
      (¬ ((gy * 20 ≤ (Y : Int) ∧ (Y : Int) < gy * 20 + 20) ∧ in_ball_box ball X Y) →
        read_pixel ((loop_incl (Int.tdiv ball.x SQUARE_SIZE)
          (Int.tdiv (ball.x + BALL_SIZE - 1) SQUARE_SIZE)).foldl
            (fun s gx => eraseBall_cell s ball gx gy) t).screen X Y
          = read_pixel t.screen X Y) := by
    intro gy t ht X Y hX hY
    have key := foldl_pixels (loop_incl (Int.tdiv ball.x SQUARE_SIZE)
        (Int.tdiv (ball.x + BALL_SIZE - 1) SQUARE_SIZE))
      (fun s gx => eraseBall_cell s ball gx gy) s.squares
      (fun gx X Y => (gx * 20 ≤ (X : Int) - 60 ∧ (X : Int) - 60 < gx * 20 + 20 ∧
          gy * 20 ≤ (Y : Int) ∧ (Y : Int) < gy * 20 + 20) ∧ in_ball_box ball X Y)
      (fun X Y => (territory_color s.squares (X - 60) Y).toNat)
      (eraseBall_cell_squares ball gy)
      (by
        intro u gx _ hu X Y hX hY
        rw [read_pixel_eraseBall_cell u ball gx gy X Y hX hY]
        constructor
        · intro hP
          rw [if_pos hP, hu]
          obtain ⟨⟨h1, h2, h3, h4⟩, hb⟩ := hP
          unfold in_ball_box at hb
          simp only [eL, eT, BALL_SIZE] at hb
          have hgx : gx = (((X - 60) / 20 : Nat) : Int) := by omega
          have hgy : gy = ((Y / 20 : Nat) : Int) := by omega
          have hin : gx ≥ 0 ∧ gx < 10 ∧ gy ≥ 0 ∧ gy < 10 := by omega
          rw [if_pos hin, hgx, hgy]
          rfl
        · intro hP
          rw [if_neg hP])
      t ht X Y hX hY
    constructor
    · intro hP
      apply key.1
      obtain ⟨⟨h3, h4⟩, hb⟩ := hP
      have hb' := hb
      unfold in_ball_box at hb'
      simp only [eL, eT, BALL_SIZE] at hb'
      refine ⟨(((X - 60) / 20 : Nat) : Int), ?_, ⟨by omega, by omega, h3, h4⟩, hb⟩
      rw [mem_loop_incl, Int.tdiv_eq_ediv (by omega) (by decide),
        Int.tdiv_eq_ediv (by simp only [BALL_SIZE]; omega) (by decide)]
      simp only [SQUARE_SIZE, BALL_SIZE]
      omega
    · intro hP
      apply key.2
      rintro ⟨gx, _, ⟨_, _, h3, h4⟩, hb⟩
      exact hP ⟨⟨h3, h4⟩, hb⟩
  have outer := foldl_pixels (loop_incl (Int.tdiv ball.y SQUARE_SIZE)
      (Int.tdiv (ball.y + BALL_SIZE - 1) SQUARE_SIZE))
    (fun s gy => (loop_incl (Int.tdiv ball.x SQUARE_SIZE)
      (Int.tdiv (ball.x + BALL_SIZE - 1) SQUARE_SIZE)).foldl
        (fun s gx => eraseBall_cell s ball gx gy) s) s.squares
    (fun gy X Y => (gy * 20 ≤ (Y : Int) ∧ (Y : Int) < gy * 20 + 20) ∧ in_ball_box ball X Y)
    (fun X Y => (territory_color s.squares (X - 60) Y).toNat)
    (fun t gy => foldl_squares _ _ (eraseBall_cell_squares ball gy) t)
    (fun t gy _ ht X Y hX hY => inner gy t ht X Y hX hY)
    s rfl X Y hX hY
  unfold eraseBall
  simp only
  split_ifs with hb
  · apply outer.1
    have hb' := hb
    unfold in_ball_box at hb'
    simp only [eL, eT, BALL_SIZE] at hb'
    refine ⟨((Y / 20 : Nat) : Int), ?_, ⟨by omega, by omega⟩, hb⟩
    rw [mem_loop_incl, Int.tdiv_eq_ediv (by omega) (by decide),
      Int.tdiv_eq_ediv (by simp only [BALL_SIZE]; omega) (by decide)]
    simp only [SQUARE_SIZE, BALL_SIZE]
    omega
  · apply outer.2
    rintro ⟨gy, _, _, hb'⟩
    exact hb hb'

theorem cells_owned_init : cells_owned swap_state.squares := by
  intro x y _ _ _ _
  show (if x < 5 then OWNER_DAY else OWNER_NIGHT) = OWNER_DAY ∨
    (if x < 5 then OWNER_DAY else OWNER_NIGHT) = OWNER_NIGHT
  split_ifs
  · exact Or.inl rfl
  · exact Or.inr rfl

/-- C17 (erase restores territory): when every cell holds `OWNER_DAY` or
`OWNER_NIGHT` and the ball's `x` and `y` are in `[0, 190]`, after
`eraseBall(ball)` every pixel `(60 + px, py)` of the ball's 10 x 10 box reads the
territory colour of the cell `(px div 20, py div 20)`, which is 1 for a day cell
and 2 for a night cell; every pixel outside the box, the grid, the scores, the
dirty flag and the balls are unchanged. -/
theorem erase_restores_territory (s : State) (ball : Ball) (hc : cells_owned s.squares)
    (hx : 0 ≤ ball.x ∧ ball.x ≤ 190) (hy : 0 ≤ ball.y ∧ ball.y ≤ 190) :
    (∀ px py : Nat, ball.x ≤ px → (px : Int) < ball.x + 10 → ball.y ≤ py →
      (py : Int) < ball.y + 10 →
      ((read_pixel (eraseBall s ball).screen (60 + px) py : Nat) : Int)
          = territory_color s.squares px py ∧
      ((s.squares ((py / 20 : Nat) : Int) ((px / 20 : Nat) : Int) = OWNER_DAY ∧
          read_pixel (eraseBall s ball).screen (60 + px) py = 1) ∨
        (s.squares ((py / 20 : Nat) : Int) ((px / 20 : Nat) : Int) = OWNER_NIGHT ∧
          read_pixel (eraseBall s ball).screen (60 + px) py = 2))) ∧
    (∀ X Y : Nat, X < 320 → Y < 200 → ¬ in_ball_box ball X Y →
      read_pixel (eraseBall s ball).screen X Y = read_pixel s.screen X Y) ∧
    (eraseBall s ball).squares = s.squares ∧ (eraseBall s ball).dayScore = s.dayScore ∧
    (eraseBall s ball).nightScore = s.nightScore ∧
    (eraseBall s ball).scores_changed = s.scores_changed ∧
    (eraseBall s ball).balls = s.balls := by
  obtain ⟨f1, f2, f3, f4, _, f6⟩ := eraseBall_fields s ball
  refine ⟨fun px py h1 h2 h3 h4 => ?_, fun X Y hX hY hb => ?_, f1, f2, f3, f4, f6⟩
  · have hbox : in_ball_box ball (60 + px) py := by
      unfold in_ball_box
      have eL : GAME_LEFT = 60 := by decide
      have eT : GAME_TOP = 0 := by decide
      simp only [eL, eT, BALL_SIZE]
      omega
    have hread := read_pixel_eraseBall s ball hx hy (60 + px) py (by omega) (by omega)
    rw [if_pos hbox, Nat.add_sub_cancel_left] at hread
    rw [hread]
    unfold territory_color
    refine ⟨owner_color_cast _, ?_⟩
    rcases hc ((px / 20 : Nat) : Int) ((py / 20 : Nat) : Int) (by omega)
      (by simp only [GRID_SIZE]; omega) (by omega) (by simp only [GRID_SIZE]; omega) with h | h
    · left
      rw [h]
      exact ⟨rfl, rfl⟩
    · right
      rw [h]
      exact ⟨rfl, rfl⟩
  · rw [read_pixel_eraseBall s ball hx hy X Y hX hY, if_neg hb]

theorem erase_restores_territory_witness :
    read_pixel (eraseBall swap_state ⟨95, 90, 5, 10, OWNER_DAY, DAY_BALL_COLOR⟩).screen
        (60 + 97) 92 = 1 ∧
      read_pixel (eraseBall swap_state ⟨95, 90, 5, 10, OWNER_DAY, DAY_BALL_COLOR⟩).screen
        (60 + 102) 92 = 2 ∧
      (eraseBall swap_state ⟨95, 90, 5, 10, OWNER_DAY, DAY_BALL_COLOR⟩).dayScore = 50 := by
  have h := erase_restores_territory swap_state ⟨95, 90, 5, 10, OWNER_DAY, DAY_BALL_COLOR⟩
    cells_owned_init (by decide) (by decide)
  have h97 := (h.1 97 92 (by decide) (by decide) (by decide) (by decide)).2
  have h102 := (h.1 102 92 (by decide) (by decide) (by decide) (by decide)).2
  refine ⟨?_, ?_, h.2.2.2.1⟩
  · rcases h97 with h' | h'
    · exact h'.2
    · exact absurd h'.1 (by decide)
  · rcases h102 with h' | h'
    · exact absurd h'.1 (by decide)
    · exact h'.2

/-! ## Drawing the balls and the counters -/

theorem read_pixel_drawBall (s : State) (ball : Ball) (X Y : Nat) (hX : X < 320)
    (hY : Y < 200) :
    read_pixel (drawBall s ball).screen X Y =
      if in_ball_box ball X Y then (ball.color % 16).toNat else read_pixel s.screen X Y := by
  unfold drawBall in_ball_box
  simp only
  rw [read_pixel_fill_rect _ _ _ _ _ _ X Y hX hY]

theorem drawBall_fields (s : State) (ball : Ball) :
    (drawBall s ball).squares = s.squares ∧ (drawBall s ball).dayScore = s.dayScore ∧
      (drawBall s ball).nightScore = s.nightScore ∧
      (drawBall s ball).scores_changed = s.scores_changed ∧
      (drawBall s ball).balls = s.balls :=
  ⟨rfl, rfl, rfl, rfl, rfl⟩

/-- A score below 1000 has at most three characters. -/
theorem long_to_string_length_le (v : Int) (h : v ≤ 999) : (long_to_string v).length ≤ 3 := by
  by_cases hv : v ≤ 0
  · unfold long_to_string
    rw [if_pos hv]
    decide
  · rw [long_to_string_digits v (by omega) (by omega)]
    simp only [List.length_map, List.length_reverse]
    have h999 : (Nat.digits 10 999).length = 3 := by norm_num
    rw [← h999]
    exact Nat.le_digits_len_le 10 _ _ (by omega)

/-- With a day score below 1000, `draw_counters` does not touch the game area;
it changes nothing but the framebuffer. -/
theorem read_pixel_draw_counters (s : State) (hd : s.dayScore ≤ 999) (X Y : Nat) (hX : 60 ≤ X)
    (hX' : X < 260) (hY : Y < 200) :
    read_pixel (draw_counters s).screen X Y = read_pixel s.screen X Y := by
  have hlen := long_to_string_length_le s.dayScore hd
  have eL : LEFT_SCORE_X = 21 := by decide
  have eR : RIGHT_SCORE_X = 286 := by decide
  unfold draw_counters
  simp only
  rw [read_pixel_draw_number _ _ _ _ X Y (by omega) hY, if_neg (by rw [eR]; omega),
    read_pixel_draw_number _ _ _ _ X Y (by omega) hY, if_neg (by rw [eL]; omega)]

theorem draw_update_counters_game (s : State) (hd : s.dayScore ≤ 999) (X Y : Nat)
    (hX : 60 ≤ X) (hX' : X < 260) (hY : Y < 200) :
    read_pixel (draw_update_counters s).screen X Y = read_pixel s.screen X Y := by
  unfold draw_update_counters
  split_ifs
  · exact read_pixel_draw_counters s hd X Y hX hX' hY
  · rfl

theorem draw_eq (s : State) :
    draw s = draw_count_iteration (draw_update_counters
      (draw_ball_on_top (draw_ball_on_top (draw_physics s) 0) 1)) := by
  unfold draw draw_physics draw_erased
  simp only

theorem draw_screen_eq (s : State) :
    (draw s).screen =
      (draw_update_counters (drawBall (drawBall (draw_physics s) ((draw_physics s).balls 0))
        ((draw_physics s).balls 1))).screen := by
  rw [draw_eq]
  generalize draw_physics s = p
  rfl

/-! ## The board during the per-ball loop -/

theorem same_board_refl (a : State) : same_board a a := ⟨rfl, rfl, rfl, rfl, rfl⟩

theorem same_board_trans {a b c : State} (h1 : same_board a b) (h2 : same_board b c) :
    same_board a c :=
  ⟨h1.1.trans h2.1, h1.2.1.trans h2.2.1, h1.2.2.1.trans h2.2.2.1,
    h1.2.2.2.1.trans h2.2.2.2.1, h1.2.2.2.2.trans h2.2.2.2.2⟩

theorem same_board_set_ball (s : State) (i : Fin 2) (b : Ball) :
    same_board (set_ball s i b) s := ⟨rfl, rfl, rfl, rfl, rfl⟩

theorem paint_cell_set_ball (s : State) (i : Fin 2) (b : Ball) (gx gy owner : Int) :
    paint_cell (set_ball s i b) gx gy owner = set_ball (paint_cell s gx gy owner) i b := by
  by_cases hn : gx < 0 ∨ gx ≥ 10 ∨ gy < 0 ∨ gy ≥ 10 ∨ s.squares gy gx = owner
  · rw [paint_cell_noop s gx gy owner hn, paint_cell_noop (set_ball s i b) gx gy owner hn]
  · have hg : 0 ≤ gx ∧ gx < 10 ∧ 0 ≤ gy ∧ gy < 10 := by omega
    have hne : s.squares gy gx ≠ owner := fun h => hn (by simp [h])
    rw [paint_cell_change s gx gy owner hg hne,
      paint_cell_change (set_ball s i b) gx gy owner hg hne]
    rfl

/-- The board after `checkSquareCollision` is the one `paint_cell` leaves for the
centre cell of the ball. -/
theorem checkSquareCollision_board (s : State) (i : Fin 2) (old_gx old_gy : Int) :
    same_board (checkSquareCollision s i old_gx old_gy)
      (paint_cell s (center_gx (s.balls i)) (center_gy (s.balls i)) (s.balls i).owner) := by
  by_cases hn : center_gx (s.balls i) < 0 ∨ center_gx (s.balls i) ≥ 10 ∨
      center_gy (s.balls i) < 0 ∨ center_gy (s.balls i) ≥ 10 ∨
      s.squares (center_gy (s.balls i)) (center_gx (s.balls i)) = (s.balls i).owner
  · rw [checkSquareCollision_skip s i old_gx old_gy hn, paint_cell_noop s _ _ _ hn]
    exact same_board_refl s
  · have hg : 0 ≤ center_gx (s.balls i) ∧ center_gx (s.balls i) < 10 ∧
        0 ≤ center_gy (s.balls i) ∧ center_gy (s.balls i) < 10 := by omega
    have hne : s.squares (center_gy (s.balls i)) (center_gx (s.balls i)) ≠ (s.balls i).owner :=
      fun h => hn (by simp [h])
    rw [checkSquareCollision_capture s i old_gx old_gy hg hne]
    exact same_board_set_ball _ i _

/-- The board after the loop body of ball `i` is the one `paint_cell` leaves for
the centre cell of the moved ball. -/
theorem draw_ball_step_board (s : State) (i : Fin 2) :
    same_board (draw_ball_step s i)
      (paint_cell s (center_gx (draw_move (s.balls i))) (center_gy (draw_move (s.balls i)))
        (s.balls i).owner) := by
  unfold draw_ball_step
  simp only [addRandomness]
  generalize Int.tdiv ((s.balls i).x + BALL_SIZE / 2) SQUARE_SIZE = ogx
  generalize Int.tdiv ((s.balls i).y + BALL_SIZE / 2) SQUARE_SIZE = ogy
  have hb : (set_ball s i (draw_move (s.balls i))).balls i = draw_move (s.balls i) := by
    simp only [set_ball, Function.update_same]
  have h := checkSquareCollision_board (set_ball s i (draw_move (s.balls i))) i ogx ogy
  rw [hb, (draw_move_sign (s.balls i)).1, paint_cell_set_ball] at h
  exact same_board_trans (same_board_set_ball _ i _)
    (same_board_trans h (same_board_set_ball _ i _))

theorem paint_cell_dayScore_le (s : State) (gx gy owner : Int) :
    (paint_cell s gx gy owner).dayScore ≤ s.dayScore + 1 := by
  by_cases hn : gx < 0 ∨ gx ≥ 10 ∨ gy < 0 ∨ gy ≥ 10 ∨ s.squares gy gx = owner
  · rw [paint_cell_noop s gx gy owner hn]
    omega
  · have hg : 0 ≤ gx ∧ gx < 10 ∧ 0 ≤ gy ∧ gy < 10 := by omega
    have hne : s.squares gy gx ≠ owner := fun h => hn (by simp [h])
    rw [paint_cell_change s gx gy owner hg hne]
    show s.dayScore - (if s.squares gy gx = 1 then 1 else 0) + (if owner = 1 then 1 else 0)
      ≤ s.dayScore + 1
    split_ifs <;> omega

theorem handle_ball_collision_board (s : State) : same_board (handle_ball_collision s) s := by
  rw [handle_ball_collision_eq]
  split_ifs
  · exact ⟨rfl, rfl, rfl, rfl, rfl⟩
  · exact same_board_refl s

theorem draw_erased_dayScore (s : State) : (draw_erased s).dayScore = s.dayScore :=
  (draw_erased_fields s).2.1

theorem draw_physics_dayScore_le (s : State) : (draw_physics s).dayScore ≤ s.dayScore + 2 := by
  have h3 := (handle_ball_collision_board (draw_stepped s)).2.2.1
  rw [draw_physics_def, h3, draw_stepped_eq]
  have h2 := (draw_ball_step_board (draw_ball_step (draw_erased s) 0) 1).2.2.1
  have h1 := (draw_ball_step_board (draw_erased s) 0).2.2.1
  have p2 := paint_cell_dayScore_le (draw_ball_step (draw_erased s) 0)
    (center_gx (draw_move ((draw_ball_step (draw_erased s) 0).balls 1)))
    (center_gy (draw_move ((draw_ball_step (draw_erased s) 0).balls 1)))
    ((draw_ball_step (draw_erased s) 0).balls 1).owner
  have p1 := paint_cell_dayScore_le (draw_erased s)
    (center_gx (draw_move ((draw_erased s).balls 0)))
    (center_gy (draw_move ((draw_erased s).balls 0))) ((draw_erased s).balls 0).owner
  have h0 := draw_erased_dayScore s
  omega

/-- The game-area pixels after the balls are drawn and the counters updated. -/
theorem final_pixels (p : State) (hp : p.dayScore ≤ 999) (X Y : Nat) (h1 : 60 ≤ X)
    (h2 : X < 260) (h3 : Y < 200) :
    read_pixel (draw_update_counters (drawBall (drawBall p (p.balls 0)) (p.balls 1))).screen X Y
      = if in_ball_box (p.balls 1) X Y then ((p.balls 1).color % 16).toNat
        else if in_ball_box (p.balls 0) X Y then ((p.balls 0).color % 16).toNat
        else read_pixel p.screen X Y := by
  have hp2 : (drawBall (drawBall p (p.balls 0)) (p.balls 1)).dayScore ≤ 999 := hp
  rw [draw_update_counters_game _ hp2 X Y h1 h2 h3,
    read_pixel_drawBall _ _ X Y (by omega) h3, read_pixel_drawBall _ _ X Y (by omega) h3]

/-- The pixels of the final ball boxes after a frame, for a day score that
keeps the left counter out of the game area. -/
theorem draw_ball_pixels (s : State) (hd : s.dayScore ≤ 100) (X Y : Nat) :
    (in_ball_box ((draw s).balls 1) X Y →
      read_pixel (draw s).screen X Y = ((((draw s).balls 1).color) % 16).toNat) ∧
    (in_ball_box ((draw s).balls 0) X Y → ¬ in_ball_box ((draw s).balls 1) X Y →
      read_pixel (draw s).screen X Y = ((((draw s).balls 0).color) % 16).toNat) := by
  have eL : GAME_LEFT = 60 := by decide
  have eT : GAME_TOP = 0 := by decide
  have hpos : ∀ i : Fin 2, in_ball_box ((draw s).balls i) X Y → 60 ≤ X ∧ X < 260 ∧ Y < 200 := by
    intro i hb
    obtain ⟨px, py, _, _⟩ := draw_ball_pos s i
    obtain ⟨r1, r2, r3, r4⟩ := draw_move_range (s.balls i)
    unfold in_ball_box at hb
    simp only [eL, eT, BALL_SIZE] at hb
    rw [px, py] at hb
    omega
  have hsc := draw_physics_dayScore_le s
  have key : ∀ X Y : Nat, 60 ≤ X → X < 260 → Y < 200 →
      read_pixel (draw s).screen X Y =
        if in_ball_box ((draw s).balls 1) X Y then ((((draw s).balls 1).color) % 16).toNat
        else if in_ball_box ((draw s).balls 0) X Y then
          ((((draw s).balls 0).color) % 16).toNat
        else read_pixel (draw_physics s).screen X Y := by
    intro X Y h1 h2 h3
    rw [draw_screen_eq, draw_balls, final_pixels _ (by omega) X Y h1 h2 h3]
  constructor
  · intro hb
    obtain ⟨h1, h2, h3⟩ := hpos 1 hb
    rw [key X Y h1 h2 h3, if_pos hb]
  · intro hb hnb
    obtain ⟨h1, h2, h3⟩ := hpos 0 hb
    rw [key X Y h1 h2 h3, if_neg hnb, if_pos hb]

/-! ## Erasing a ball at any position -/

/-- The two loops of `eraseBall` over the candidate cells `lx..hx`, `ly..hy`:
the pixels of the ball's box whose cell is a candidate get that cell's colour,
every other pixel is kept. -/
theorem eraseBall_loops_pixels (s : State) (ball : Ball) (lx hx ly hy : Int) (X Y : Nat)
    (hX : X < 320) (hY : Y < 200) :
    (in_ball_box ball X Y ∧ (lx ≤ ((X : Int) - 60) / 20 ∧ ((X : Int) - 60) / 20 ≤ hx) ∧
        (ly ≤ (Y : Int) / 20 ∧ (Y : Int) / 20 ≤ hy) →
      read_pixel ((loop_incl ly hy).foldl
          (fun s gy => (loop_incl lx hx).foldl (fun s gx => eraseBall_cell s ball gx gy) s)
          s).screen X Y
        = (owner_color (if ((X : Int) - 60) / 20 ≥ 0 ∧ ((X : Int) - 60) / 20 < 10 ∧
              (Y : Int) / 20 ≥ 0 ∧ (Y : Int) / 20 < 10
              then s.squares ((Y : Int) / 20) (((X : Int) - 60) / 20) else 0)).toNat) ∧
    (¬ (in_ball_box ball X Y ∧ (lx ≤ ((X : Int) - 60) / 20 ∧ ((X : Int) - 60) / 20 ≤ hx) ∧
        (ly ≤ (Y : Int) / 20 ∧ (Y : Int) / 20 ≤ hy)) →
      read_pixel ((loop_incl ly hy).foldl
          (fun s gy => (loop_incl lx hx).foldl (fun s gx => eraseBall_cell s ball gx gy) s)
          s).screen X Y
        = read_pixel s.screen X Y) := by
  have inner : ∀ (gy : Int) (t : State), t.squares = s.squares → ∀ X Y : Nat, X < 320 →
      Y < 200 →
      ((lx ≤ ((X : Int) - 60) / 20 ∧ ((X : Int) - 60) / 20 ≤ hx) ∧
          (gy * 20 ≤ (Y : Int) ∧ (Y : Int) < gy * 20 + 20) ∧ in_ball_box ball X Y →
        read_pixel ((loop_incl lx hx).foldl
            (fun s gx => eraseBall_cell s ball gx gy) t).screen X Y
          = (owner_color (if ((X : Int) - 60) / 20 ≥ 0 ∧ ((X : Int) - 60) / 20 < 10 ∧
              (Y : Int) / 20 ≥ 0 ∧ (Y : Int) / 20 < 10
              then s.squares ((Y : Int) / 20) (((X : Int) - 60) / 20) else 0)).toNat) ∧
      (¬ ((lx ≤ ((X : Int) - 60) / 20 ∧ ((X : Int) - 60) / 20 ≤ hx) ∧
          (gy * 20 ≤ (Y : Int) ∧ (Y : Int) < gy * 20 + 20) ∧ in_ball_box ball X Y) →
        read_pixel ((loop_incl lx hx).foldl
            (fun s gx => eraseBall_cell s ball gx gy) t).screen X Y
          = read_pixel t.screen X Y) := by
    intro gy t ht X Y hX hY
    have key := foldl_pixels (loop_incl lx hx)
      (fun s gx => eraseBall_cell s ball gx gy) s.squares
      (fun gx X Y => (gx * 20 ≤ (X : Int) - 60 ∧ (X : Int) - 60 < gx * 20 + 20 ∧
          gy * 20 ≤ (Y : Int) ∧ (Y : Int) < gy * 20 + 20) ∧ in_ball_box ball X Y)
      (fun X Y => (owner_color (if ((X : Int) - 60) / 20 ≥ 0 ∧ ((X : Int) - 60) / 20 < 10 ∧
              (Y : Int) / 20 ≥ 0 ∧ (Y : Int) / 20 < 10
              then s.squares ((Y : Int) / 20) (((X : Int) - 60) / 20) else 0)).toNat)
      (eraseBall_cell_squares ball gy)
      (by
        intro u gx _ hu X Y hX hY
        rw [read_pixel_eraseBall_cell u ball gx gy X Y hX hY]
        constructor
        · intro hP
          rw [if_pos hP, hu]
          obtain ⟨⟨h1, h2, h3, h4⟩, _⟩ := hP
          have hgx : gx = ((X : Int) - 60) / 20 := by omega
          have hgy : gy = (Y : Int) / 20 := by omega
          rw [hgx, hgy]
        · intro hP
          rw [if_neg hP])
      t ht X Y hX hY
    constructor
    · rintro ⟨⟨h1, h2⟩, ⟨h3, h4⟩, hb⟩
      apply key.1
      refine ⟨((X : Int) - 60) / 20, ?_, ⟨by omega, by omega, h3, h4⟩, hb⟩
      rw [mem_loop_incl]
      exact ⟨h1, h2⟩
    · intro hP
      apply key.2
      rintro ⟨gx, hmem, ⟨h1, h2, h3, h4⟩, hb⟩
      rw [mem_loop_incl] at hmem
      have hgx : gx = ((X : Int) - 60) / 20 := by omega
      rw [hgx] at hmem
      exact hP ⟨hmem, ⟨h3, h4⟩, hb⟩
  have outer := foldl_pixels (loop_incl ly hy)
    (fun s gy => (loop_incl lx hx).foldl (fun s gx => eraseBall_cell s ball gx gy) s) s.squares
    (fun gy X Y => (lx ≤ ((X : Int) - 60) / 20 ∧ ((X : Int) - 60) / 20 ≤ hx) ∧
          (gy * 20 ≤ (Y : Int) ∧ (Y : Int) < gy * 20 + 20) ∧ in_ball_box ball X Y)
    (fun X Y => (owner_color (if ((X : Int) - 60) / 20 ≥ 0 ∧ ((X : Int) - 60) / 20 < 10 ∧
              (Y : Int) / 20 ≥ 0 ∧ (Y : Int) / 20 < 10
              then s.squares ((Y : Int) / 20) (((X : Int) - 60) / 20) else 0)).toNat)
    (fun t gy => foldl_squares _ _ (eraseBall_cell_squares ball gy) t)
    (fun t gy _ ht X Y hX hY => inner gy t ht X Y hX hY)
    s rfl X Y hX hY
  constructor
  · rintro ⟨hb, hxr, hyr⟩
    apply outer.1
    refine ⟨(Y : Int) / 20, ?_, hxr, ⟨by omega, by omega⟩, hb⟩
    rw [mem_loop_incl]
    exact hyr
  · intro hb
    apply outer.2
    rintro ⟨gy, hmem, hxr, ⟨h3, h4⟩, hb'⟩
    rw [mem_loop_incl] at hmem
    have hgy : gy = (Y : Int) / 20 := by omega
    rw [hgy] at hmem
    exact hb ⟨hb', hxr, hmem⟩

/-- Pixel-level effect of `eraseBall` for any ball position: the pixels of the
ball's box whose cell is visited by the loops get that cell's colour, every
other pixel is kept. -/
theorem read_pixel_eraseBall_any (s : State) (ball : Ball) (X Y : Nat) (hX : X < 320)
    (hY : Y < 200) :
    read_pixel (eraseBall s ball).screen X Y =
      if erased_pixel ball X Y then
        (erase_color s.squares (((X : Int) - GAME_LEFT) / SQUARE_SIZE)
          (((Y : Int) - GAME_TOP) / SQUARE_SIZE)).toNat
      else read_pixel s.screen X Y := by
  have eL : GAME_LEFT = 60 := by decide
  have eT : GAME_TOP = 0 := by decide
  have h := eraseBall_loops_pixels s ball (Int.tdiv ball.x SQUARE_SIZE)
    (Int.tdiv (ball.x + BALL_SIZE - 1) SQUARE_SIZE) (Int.tdiv ball.y SQUARE_SIZE)
    (Int.tdiv (ball.y + BALL_SIZE - 1) SQUARE_SIZE) X Y hX hY
  by_cases hb : erased_pixel ball X Y
  · rw [if_pos hb]
    unfold erased_pixel at hb
    simp only [eL, eT, sub_zero] at hb
    exact h.1 hb
  · rw [if_neg hb]
    unfold erased_pixel at hb
    simp only [eL, eT, sub_zero] at hb
    exact h.2 hb

/-- The function `eraseBall` changes no pixel outside the ball's box, wherever the ball is. -/
theorem eraseBall_outside_box (s : State) (ball : Ball) (X Y : Nat) (hX : X < 320)
    (hY : Y < 200) (hb : ¬ in_ball_box ball X Y) :
    read_pixel (eraseBall s ball).screen X Y = read_pixel s.screen X Y := by
  rw [read_pixel_eraseBall_any s ball X Y hX hY, if_neg (fun h => hb h.1)]

/-! ## A frame without a capture -/

theorem paint_cell_keeps_squares (s : State) (gx gy owner : Int)
    (h : ∀ x y : Int, 0 ≤ x → x < GRID_SIZE → 0 ≤ y → y < GRID_SIZE →
      (paint_cell s gx gy owner).squares y x = s.squares y x) :
    gx < 0 ∨ gx ≥ 10 ∨ gy < 0 ∨ gy ≥ 10 ∨ s.squares gy gx = owner := by
  by_contra hn
  have hg : 0 ≤ gx ∧ gx < 10 ∧ 0 ≤ gy ∧ gy < 10 := by omega
  have hne : s.squares gy gx ≠ owner := fun h => hn (by simp [h])
  have h' := h gx gy hg.1 hg.2.1 hg.2.2.1 hg.2.2.2
  rw [paint_cell_change s gx gy owner hg hne] at h'
  exact hne ((h'.symm).trans (set_square_same s.squares gx gy owner))

/-- A loop body of `draw` that leaves the grid as it was captured nothing. -/
theorem draw_ball_step_quiet (s : State) (i : Fin 2)
    (h : ∀ x y : Int, 0 ≤ x → x < GRID_SIZE → 0 ≤ y → y < GRID_SIZE →
      (draw_ball_step s i).squares y x = s.squares y x) :
    no_capture s.squares (draw_move (s.balls i)) := by
  have hb := (draw_ball_step_board s i).2.1
  rw [hb] at h
  have := paint_cell_keeps_squares s _ _ _ h
  rw [← (draw_move_sign (s.balls i)).1] at this
  exact this

theorem draw_ball_step_skip_board (s : State) (i : Fin 2)
    (h : no_capture s.squares (draw_move (s.balls i))) : same_board (draw_ball_step s i) s := by
  rw [draw_ball_step_skip s i h]
  exact same_board_set_ball s i _

theorem no_owner_change_no_capture (s : State) (h : no_owner_change s) :
    no_capture s.squares (draw_move (s.balls 0)) ∧
      no_capture s.squares (draw_move (s.balls 1)) := by
  obtain ⟨e1, _, _, _, _, e6⟩ := draw_erased_fields s
  have h0 : no_capture s.squares (draw_move (s.balls 0)) := by
    have := draw_ball_step_quiet (draw_erased s) 0 (by rw [e1]; exact h.1)
    rw [e1, e6] at this
    exact this
  refine ⟨h0, ?_⟩
  have hsq : (draw_ball_step (draw_erased s) 0).squares = s.squares :=
    (draw_ball_step_skip_board (draw_erased s) 0 (by rw [e1, e6]; exact h0)).2.1.trans e1
  have h10 : (1 : Fin 2) ≠ 0 := by decide
  have hb1 : (draw_ball_step (draw_erased s) 0).balls 1 = s.balls 1 := by
    rw [(draw_ball_step_ball (draw_erased s) 0).1 1 h10, e6]
  have hB := h.2
  rw [draw_stepped_eq] at hB
  have := draw_ball_step_quiet (draw_ball_step (draw_erased s) 0) 1 (by
    rw [hsq]
    exact hB)
  rw [hsq, hb1] at this
  exact this

/-- Without a capture the per-ball loop and `handle_ball_collision` leave the
framebuffer, the grid, the scores and the dirty flag as the erase loop left
them. -/
theorem draw_physics_quiet (s : State) (h0 : no_capture s.squares (draw_move (s.balls 0)))
    (h1 : no_capture s.squares (draw_move (s.balls 1))) :
    same_board (draw_physics s) (draw_erased s) := by
  obtain ⟨e1, _, _, _, _, e6⟩ := draw_erased_fields s
  have b0 := draw_ball_step_skip_board (draw_erased s) 0 (by rw [e1, e6]; exact h0)
  have hsq : (draw_ball_step (draw_erased s) 0).squares = s.squares := b0.2.1.trans e1
  have h10 : (1 : Fin 2) ≠ 0 := by decide
  have hb1 : (draw_ball_step (draw_erased s) 0).balls 1 = s.balls 1 := by
    rw [(draw_ball_step_ball (draw_erased s) 0).1 1 h10, e6]
  have b1 := draw_ball_step_skip_board (draw_ball_step (draw_erased s) 0) 1
    (by rw [hsq, hb1]; exact h1)
  rw [draw_physics_def, draw_stepped_eq]
  exact same_board_trans (handle_ball_collision_board _) (same_board_trans b1 b0)

theorem draw_update_counters_clean (t : State) (h : t.scores_changed = 0) :
    draw_update_counters t = t := by
  unfold draw_update_counters
  rw [if_neg (by rw [h]; decide)]

theorem draw_scores_changed (s : State) : (draw s).scores_changed = 0 := by
  rw [draw_eq]
  generalize draw_ball_on_top (draw_ball_on_top (draw_physics s) 0) 1 = t
  show (draw_update_counters t).scores_changed = 0
  unfold draw_update_counters
  split_ifs with h
  · rfl
  · exact not_not.1 h

/-- The pixels after a frame without a capture that started with a clean dirty
flag: the two balls over the framebuffer left by the erase loop. -/
theorem draw_pixels_quiet (s : State) (hc : s.scores_changed = 0)
    (h0 : no_capture s.squares (draw_move (s.balls 0)))
    (h1 : no_capture s.squares (draw_move (s.balls 1))) (X Y : Nat) (hX : X < 320)
    (hY : Y < 200) :
    read_pixel (draw s).screen X Y =
      if in_ball_box ((draw s).balls 1) X Y then (((draw s).balls 1).color % 16).toNat
      else if in_ball_box ((draw s).balls 0) X Y then (((draw s).balls 0).color % 16).toNat
      else read_pixel (draw_erased s).screen X Y := by
  obtain ⟨q1, _, _, _, q5⟩ := draw_physics_quiet s h0 h1
  have hflag : (draw_physics s).scores_changed = 0 := by
    rw [q5, (draw_erased_fields s).2.2.2.1, hc]
  rw [draw_screen_eq, draw_balls]
  generalize draw_physics s = p at *
  rw [draw_update_counters_clean _ (by exact hflag), read_pixel_drawBall _ _ X Y hX hY,
    read_pixel_drawBall _ _ X Y hX hY, q1]

theorem final_box_in_game (s : State) (i : Fin 2) (X Y : Nat)
    (hb : in_ball_box ((draw s).balls i) X Y) : 60 ≤ X ∧ X < 260 ∧ Y < 200 := by
  have eL : GAME_LEFT = 60 := by decide
  have eT : GAME_TOP = 0 := by decide
  obtain ⟨px, py, _, _⟩ := draw_ball_pos s i
  obtain ⟨r1, r2, r3, r4⟩ := draw_move_range (s.balls i)
  unfold in_ball_box at hb
  simp only [eL, eT, BALL_SIZE] at hb
  rw [px, py] at hb
  omega

/-- The cursor-area fill and the erase loop, seen from a pixel outside the
cursor rectangle and outside both balls' boxes. -/
theorem draw_erased_outside (s : State) (X Y : Nat) (hX : X < 320) (hY : Y < 200)
    (hcur : ¬ (X < 8 ∧ Y < 16)) (hb0 : ¬ in_ball_box (s.balls 0) X Y)
    (hb1 : ¬ in_ball_box (s.balls 1) X Y) :
    read_pixel (draw_erased s).screen X Y = read_pixel s.screen X Y := by
  unfold draw_erased draw_erase
  have e0 : (draw_cursor_area s).balls = s.balls := rfl
  have e1 : (eraseBall (draw_cursor_area s) ((draw_cursor_area s).balls 0)).balls = s.balls :=
    (eraseBall_fields _ _).2.2.2.2.2
  rw [e1, e0, eraseBall_outside_box _ _ X Y hX hY hb1, eraseBall_outside_box _ _ X Y hX hY hb0]
  unfold draw_cursor_area
  simp only
  rw [read_pixel_fill_rect _ _ _ _ _ _ X Y hX hY, if_neg (by omega)]

theorem no_capture_no_owner_change (s : State)
    (h0 : no_capture s.squares (draw_move (s.balls 0)))
    (h1 : no_capture s.squares (draw_move (s.balls 1))) : no_owner_change s := by
  obtain ⟨e1, _, _, _, _, e6⟩ := draw_erased_fields s
  have b0 := draw_ball_step_skip_board (draw_erased s) 0 (by rw [e1, e6]; exact h0)
  have hsq : (draw_ball_step (draw_erased s) 0).squares = s.squares := b0.2.1.trans e1
  have h10 : (1 : Fin 2) ≠ 0 := by decide
  have hb1 : (draw_ball_step (draw_erased s) 0).balls 1 = s.balls 1 := by
    rw [(draw_ball_step_ball (draw_erased s) 0).1 1 h10, e6]
  have b1 := draw_ball_step_skip_board (draw_ball_step (draw_erased s) 0) 1
    (by rw [hsq, hb1]; exact h1)
  constructor
  · intro gx gy _ _ _ _
    rw [hsq]
  · intro gx gy _ _ _ _
    rw [draw_stepped_eq, b1.2.1, hsq]

/-! ## Drawing the territory -/

theorem draw_cell_squares (y : Int) (s : State) (x : Int) :
    (draw_cell s x y).squares = s.squares := by
  unfold draw_cell
  split_ifs <;> rfl

theorem drawSquares_only_screen (s : State) :
    drawSquares s = { s with screen := (drawSquares s).screen } := by
  unfold drawSquares
  refine foldl_only_screen _ (fun s y => foldl_only_screen _ (fun s x => ?_) _ s) _ s
  unfold draw_cell
  split_ifs <;> rfl

/-- After `drawSquares` every game-area pixel shows the territory colour of its
cell. -/
theorem territory_drawn_drawSquares (s : State) : territory_drawn (drawSquares s) := by
  intro X Y h1 h2 hY
  have hX : X < 320 := by omega
  have hsq : (drawSquares s).squares = s.squares := by
    have h := congrArg State.squares (drawSquares_only_screen s)
    exact h
  rw [hsq]
  have h10 : GRID_SIZE.toNat = 10 := by decide
  unfold drawSquares
  rw [h10]
  have inner : ∀ (y : Nat), y < 10 → ∀ (t : State), t.squares = s.squares → ∀ X Y : Nat,
      X < 320 → Y < 200 →
      ((60 ≤ X ∧ X < 260) ∧ (y * 20 ≤ Y ∧ Y < y * 20 + 20) →
        read_pixel ((List.range 10).foldl (fun s (x : Nat) => draw_cell s x y) t).screen X Y
          = (territory_color s.squares (X - 60) Y).toNat) ∧
      (¬ ((60 ≤ X ∧ X < 260) ∧ (y * 20 ≤ Y ∧ Y < y * 20 + 20)) →
        read_pixel ((List.range 10).foldl (fun s (x : Nat) => draw_cell s x y) t).screen X Y
          = read_pixel t.screen X Y) := by
    intro y hy t ht X Y hX hY
    have key := foldl_pixels (List.range 10) (fun s (x : Nat) => draw_cell s x y) s.squares
      (fun (x : Nat) X Y => (60 + x * 20 ≤ X ∧ X < 60 + x * 20 + 20) ∧
        (y * 20 ≤ Y ∧ Y < y * 20 + 20))
      (fun X Y => (territory_color s.squares (X - 60) Y).toNat)
      (fun s x => draw_cell_squares y s x)
      (by
        intro u x hx hu X Y hX hY
        rw [List.mem_range] at hx
        beta_reduce
        rw [draw_cell_in u x y (by omega)]
        simp only
        rw [read_pixel_fill_rect _ _ _ _ _ _ X Y hX hY, owner_color_toNat, hu]
        constructor
        · intro hP
          rw [if_pos (by omega)]
          have e1 : ((X - 60) / 20 : Nat) = x := by omega
          have e2 : (Y / 20 : Nat) = y := by omega
          unfold territory_color
          rw [e1, e2]
        · intro hP
          rw [if_neg (by omega)])
      t ht X Y hX hY
    constructor
    · rintro ⟨hx, hy'⟩
      apply key.1
      exact ⟨(X - 60) / 20, by rw [List.mem_range]; omega, by omega, hy'⟩
    · intro hP
      apply key.2
      rintro ⟨x, hx, hx', hy'⟩
      rw [List.mem_range] at hx
      exact hP ⟨by omega, hy'⟩
  have outer := foldl_pixels (List.range 10)
    (fun s (y : Nat) => (List.range 10).foldl (fun s (x : Nat) => draw_cell s x y) s) s.squares
    (fun (y : Nat) X Y => (60 ≤ X ∧ X < 260) ∧ (y * 20 ≤ Y ∧ Y < y * 20 + 20))
    (fun X Y => (territory_color s.squares (X - 60) Y).toNat)
    (fun t y => foldl_squares (List.range 10) (fun s (x : Nat) => draw_cell s x y)
      (fun s x => draw_cell_squares y s x) t)
    (fun t y hy ht X Y hX hY => inner y (List.mem_range.1 hy) t ht X Y hX hY)
    s rfl X Y hX hY
  apply outer.1
  exact ⟨Y / 20, by rw [List.mem_range]; omega, ⟨h1, h2⟩, by omega⟩

theorem territory_drawn_congr {a b : State} (h : same_board a b) (hb : territory_drawn b) :
    territory_drawn a := by
  intro X Y h1 h2 hY
  rw [h.1, h.2.1]
  exact hb X Y h1 h2 hY

theorem board_ok_congr {a b : State} (h : same_board a b) (hb : board_ok b) : board_ok a := by
  unfold board_ok
  rw [h.2.1, h.2.2.1, h.2.2.2.1]
  exact hb

/-- A capture keeps the framebuffer in step with the grid. -/
theorem territory_drawn_paint_cell (s : State) (gx gy owner : Int) (h : territory_drawn s) :
    territory_drawn (paint_cell s gx gy owner) := by
  by_cases hn : gx < 0 ∨ gx ≥ 10 ∨ gy < 0 ∨ gy ≥ 10 ∨ s.squares gy gx = owner
  · rw [paint_cell_noop s gx gy owner hn]
    exact h
  · have hg : 0 ≤ gx ∧ gx < 10 ∧ 0 ≤ gy ∧ gy < 10 := by omega
    have hne : s.squares gy gx ≠ owner := fun h => hn (by simp [h])
    rw [paint_cell_change s gx gy owner hg hne]
    intro X Y h1 h2 hY
    simp only
    rw [read_pixel_fill_rect _ _ _ _ _ _ X Y (by omega) hY, owner_color_toNat]
    unfold territory_color set_square
    by_cases hin : 60 + gx * 20 ≤ (X : Int) ∧ (X : Int) < 60 + gx * 20 + 20 ∧
        gy * 20 ≤ (Y : Int) ∧ (Y : Int) < gy * 20 + 20
    · rw [if_pos hin, if_pos (by omega)]
    · rw [if_neg hin, if_neg (by omega)]
      exact h X Y h1 h2 hY

theorem territory_drawn_draw_ball_step (s : State) (i : Fin 2) (h : territory_drawn s) :
    territory_drawn (draw_ball_step s i) :=
  territory_drawn_congr (draw_ball_step_board s i) (territory_drawn_paint_cell s _ _ _ h)

theorem board_ok_draw_ball_step (s : State) (i : Fin 2) (h : board_ok s)
    (ho : (s.balls i).owner = OWNER_DAY ∨ (s.balls i).owner = OWNER_NIGHT) :
    board_ok (draw_ball_step s i) :=
  board_ok_congr (draw_ball_step_board s i) (board_ok_paint_cell s _ _ _ h ho)

/-- After the cursor fill and the erase loop of a consistent state the game area
shows the territory only. -/
theorem territory_drawn_draw_erased (s : State) (h : consistent s) :
    territory_drawn (draw_erased s) := by
  obtain ⟨_, _, _, _, _, hpos, hpix⟩ := h
  intro X Y h1 h2 hY
  have hX : X < 320 := by omega
  rw [(draw_erased_fields s).1]
  unfold draw_erased draw_erase
  have e0 : (draw_cursor_area s).balls = s.balls := rfl
  have e1 : (eraseBall (draw_cursor_area s) ((draw_cursor_area s).balls 0)).balls = s.balls :=
    (eraseBall_fields _ _).2.2.2.2.2
  have q0 : (draw_cursor_area s).squares = s.squares := rfl
  have q1 : (eraseBall (draw_cursor_area s) (s.balls 0)).squares = s.squares :=
    (eraseBall_fields _ _).1
  rw [e1, e0, read_pixel_eraseBall _ _ ⟨(hpos 1).1, (hpos 1).2.1⟩
      ⟨(hpos 1).2.2.1, (hpos 1).2.2.2⟩ X Y hX hY,
    read_pixel_eraseBall _ _ ⟨(hpos 0).1, (hpos 0).2.1⟩
      ⟨(hpos 0).2.2.1, (hpos 0).2.2.2⟩ X Y hX hY, q1, q0]
  by_cases hb1 : in_ball_box (s.balls 1) X Y
  · rw [if_pos hb1]
  · rw [if_neg hb1]
    by_cases hb0 : in_ball_box (s.balls 0) X Y
    · rw [if_pos hb0]
    · rw [if_neg hb0]
      unfold draw_cursor_area
      simp only
      rw [read_pixel_fill_rect _ _ _ _ _ _ X Y hX hY, if_neg (by omega)]
      have hp := hpix (X - 60) Y (by omega) hY
      have hXe : 60 + (X - 60) = X := by omega
      unfold scene_color at hp
      rw [hXe, if_neg hb1, if_neg hb0] at hp
      omega

theorem board_ok_score_le (s : State) (h : board_ok s) : s.dayScore ≤ 100 := by
  obtain ⟨hc, hd, _⟩ := h
  have := cell_count_total s.squares hc
  simp only [OWNER_DAY] at hd
  omega

/-- The erase loop, the per-ball loop and `handle_ball_collision` turn a
consistent state into one whose game area shows the territory of its grid. -/
theorem draw_physics_invariant (s : State) (h : consistent s) :
    territory_drawn (draw_physics s) ∧ board_ok (draw_physics s) := by
  have ht := territory_drawn_draw_erased s h
  obtain ⟨hc, hd, hn, ho0, ho1, _, _⟩ := h
  obtain ⟨e1, e2, e3, _, _, e6⟩ := draw_erased_fields s
  have hb : board_ok (draw_erased s) := by
    unfold board_ok
    rw [e1, e2, e3]
    exact ⟨hc, hd, hn⟩
  have h10 : (1 : Fin 2) ≠ 0 := by decide
  have t0 := territory_drawn_draw_ball_step (draw_erased s) 0 ht
  have b0 := board_ok_draw_ball_step (draw_erased s) 0 hb (by rw [e6]; exact Or.inl ho0)
  have hb1 : (draw_ball_step (draw_erased s) 0).balls 1 = s.balls 1 := by
    rw [(draw_ball_step_ball (draw_erased s) 0).1 1 h10, e6]
  have t1 := territory_drawn_draw_ball_step (draw_ball_step (draw_erased s) 0) 1 t0
  have b1 := board_ok_draw_ball_step (draw_ball_step (draw_erased s) 0) 1 b0
    (by rw [hb1]; exact Or.inr ho1)
  rw [draw_physics_def, draw_stepped_eq]
  exact ⟨territory_drawn_congr (handle_ball_collision_board _) t1,
    board_ok_congr (handle_ball_collision_board _) b1⟩

theorem draw_update_counters_board (t : State) :
    (draw_update_counters t).squares = t.squares ∧
      (draw_update_counters t).dayScore = t.dayScore ∧
      (draw_update_counters t).nightScore = t.nightScore := by
  unfold draw_update_counters
  split_ifs
  · exact ⟨rfl, rfl, rfl⟩
  · exact ⟨rfl, rfl, rfl⟩

theorem draw_board_fields (s : State) :
    (draw s).squares = (draw_physics s).squares ∧ (draw s).dayScore = (draw_physics s).dayScore ∧
      (draw s).nightScore = (draw_physics s).nightScore := by
  rw [draw_eq]
  generalize draw_physics s = p
  exact draw_update_counters_board (draw_ball_on_top (draw_ball_on_top p 0) 1)

/-- The frame `draw()` keeps a state consistent when both ball colours are
colour indices. -/
theorem draw_consistent (s : State) (h : consistent_colours s) : consistent_colours (draw s) := by
  obtain ⟨hcons, hcol⟩ := h
  obtain ⟨ht, hc, hd, hn⟩ := draw_physics_invariant s hcons
  have hle := board_ok_score_le _ ⟨hc, hd, hn⟩
  obtain ⟨_, _, _, ho0, ho1, _, _⟩ := hcons
  obtain ⟨f1, f2, f3⟩ := draw_board_fields s
  have hcol' : ∀ i, 0 ≤ ((draw s).balls i).color ∧ ((draw s).balls i).color ≤ 15 := by
    intro i
    rw [(draw_ball_pos s i).2.2.2]
    exact hcol i
  refine ⟨⟨?_, ?_, ?_, ?_, ?_, ?_, ?_⟩, hcol'⟩
  · rw [f1]
    exact hc
  · rw [f1, f2]
    exact hd
  · rw [f1, f3]
    exact hn
  · rw [(draw_ball_pos s 0).2.2.1]
    exact ho0
  · rw [(draw_ball_pos s 1).2.2.1]
    exact ho1
  · intro i
    obtain ⟨px, py, _, _⟩ := draw_ball_pos s i
    rw [px, py]
    exact draw_move_range (s.balls i)
  · intro px py hpx hpy
    unfold scene_color
    rw [f1, draw_screen_eq, draw_balls,
      final_pixels _ (by omega) (60 + px) py (by omega) (by omega) hpy]
    rw [draw_balls] at hcol'
    have c1 := hcol' 1
    have c0 := hcol' 0
    generalize draw_physics s = p at *
    by_cases hb1 : in_ball_box (p.balls 1) (60 + px) py
    · rw [if_pos hb1, if_pos hb1]
      omega
    · rw [if_neg hb1, if_neg hb1]
      by_cases hb0 : in_ball_box (p.balls 0) (60 + px) py
      · rw [if_pos hb0, if_pos hb0]
        omega
      · rw [if_neg hb0, if_neg hb0, ht (60 + px) py (by omega) (by omega) hpy,
          Nat.add_sub_cancel_left]
        unfold territory_color
        exact owner_color_cast _

/-! ## Startup -/

theorem init_balls_fields (s : State) :
    (init_balls s).balls 0 = ⟨50, 100, 5, 10, OWNER_DAY, DAY_BALL_COLOR⟩ ∧
      (init_balls s).balls 1 = ⟨150, 100, -10, -5, OWNER_NIGHT, NIGHT_BALL_COLOR⟩ ∧
      same_board (init_balls s) s := by
  have h10 : (1 : Fin 2) ≠ 0 := by decide
  refine ⟨?_, ?_, ⟨rfl, rfl, rfl, rfl, rfl⟩⟩
  · unfold init_balls
    simp only [set_ball, Function.update_noteq h10.symm, Function.update_same]
    decide
  · unfold init_balls
    simp only [set_ball, Function.update_same]
    decide

/-- Drawing both balls and the counters over a framebuffer that shows the
territory gives a consistent state. -/
theorem consistent_of_drawn (t : State) (hb : board_ok t) (ht : territory_drawn t)
    (ho0 : (t.balls 0).owner = OWNER_DAY) (ho1 : (t.balls 1).owner = OWNER_NIGHT)
    (hpos : ∀ i, 0 ≤ (t.balls i).x ∧ (t.balls i).x ≤ 190 ∧ 0 ≤ (t.balls i).y ∧
      (t.balls i).y ≤ 190)
    (hcol : ∀ i, 0 ≤ (t.balls i).color ∧ (t.balls i).color ≤ 15) :
    consistent_colours (draw_counters (drawBall (drawBall t (t.balls 0)) (t.balls 1))) := by
  have hle := board_ok_score_le t hb
  obtain ⟨hc, hd, hn⟩ := hb
  refine ⟨⟨hc, hd, hn, ho0, ho1, hpos, ?_⟩, hcol⟩
  intro px py hpx hpy
  have hd2 : (drawBall (drawBall t (t.balls 0)) (t.balls 1)).dayScore ≤ 999 := by
    show t.dayScore ≤ 999
    omega
  rw [read_pixel_draw_counters _ hd2 (60 + px) py (by omega) (by omega) hpy,
    read_pixel_drawBall _ _ (60 + px) py (by omega) hpy,
    read_pixel_drawBall _ _ (60 + px) py (by omega) hpy]
  show _ = if in_ball_box (t.balls 1) (60 + px) py then (t.balls 1).color
    else if in_ball_box (t.balls 0) (60 + px) py then (t.balls 0).color
    else territory_color t.squares px py
  have c1 := hcol 1
  have c0 := hcol 0
  by_cases hb1 : in_ball_box (t.balls 1) (60 + px) py
  · rw [if_pos hb1, if_pos hb1]
    omega
  · rw [if_neg hb1, if_neg hb1]
    by_cases hb0 : in_ball_box (t.balls 0) (60 + px) py
    · rw [if_pos hb0, if_pos hb0]
      omega
    · rw [if_neg hb0, if_neg hb0, ht (60 + px) py (by omega) (by omega) hpy,
        Nat.add_sub_cancel_left]
      unfold territory_color
      exact owner_color_cast _

theorem startup_eq (s : State) :
    startup s =
      draw_counters (drawBall
        (drawBall (init_balls (drawSquares (init_board { s with screen := clear_screen s.screen })))
          ((init_balls (drawSquares (init_board { s with screen := clear_screen s.screen }))).balls 0))
        ((init_balls (drawSquares (init_board { s with screen := clear_screen s.screen }))).balls 1))
    := rfl

/-- The startup sequence of `main` produces a consistent state. -/
theorem startup_consistent (s : State) : consistent_colours (startup s) := by
  rw [startup_eq]
  have hb2 := board_ok_init_board { s with screen := clear_screen s.screen }
  generalize init_board { s with screen := clear_screen s.screen } = t2 at hb2 ⊢
  have hb3 : board_ok (drawSquares t2) := by
    have h := drawSquares_only_screen t2
    have q1 := congrArg State.squares h
    have q2 := congrArg State.dayScore h
    have q3 := congrArg State.nightScore h
    unfold board_ok
    rw [q1, q2, q3]
    exact hb2
  have ht3 := territory_drawn_drawSquares t2
  generalize drawSquares t2 = t3 at hb3 ht3 ⊢
  obtain ⟨i0, i1, isb⟩ := init_balls_fields t3
  have hb4 : board_ok (init_balls t3) := board_ok_congr isb hb3
  have ht4 : territory_drawn (init_balls t3) := territory_drawn_congr isb ht3
  generalize init_balls t3 = t4 at i0 i1 hb4 ht4 ⊢
  refine consistent_of_drawn t4 hb4 ht4 (by rw [i0]) (by rw [i1]) (fun i => ?_) (fun i => ?_)
  · have hi : i = 0 ∨ i = 1 := by omega
    rcases hi with rfl | rfl
    · rw [i0]
      decide
    · rw [i1]
      decide
  · have hi : i = 0 ∨ i = 1 := by omega
    rcases hi with rfl | rfl
    · rw [i0]
      decide
    · rw [i1]
      decide

/-! ## Stale trailing digits -/

theorem read_pixel_clear_screen (fb : Framebuffer) (X Y : Nat) (hX : X < 320) (hY : Y < 200) :
    read_pixel (clear_screen fb) X Y = 0 := by
  have h : ∀ p : Nat, p < 4 → plane_bit (clear_screen fb) X Y p = false := by
    intro p hp
    unfold plane_bit clear_screen
    rw [if_pos (by omega)]
    exact Nat.zero_testBit _
  unfold read_pixel
  rw [h 0 (by omega), h 1 (by omega), h 2 (by omega), h 3 (by omega)]
  rfl

/-- A second `draw_number` at the same place keeps every pixel to the right of
its own text box. -/
theorem draw_number_keeps_right (fb : Framebuffer) (x center_y b : Int) (X Y : Nat)
    (hX : X < 320) (hY : Y < 200)
    (hr : x + 6 * ((long_to_string b).length : Int) - 1 ≤ X) :
    read_pixel (draw_number fb x center_y b) X Y = read_pixel fb X Y := by
  rw [read_pixel_draw_number fb x center_y b X Y hX hY, if_neg (by omega)]

/-- C21 (stale trailing digits): `draw_number` clears only the box of the number
it draws.  For all values `a`, `b`, after `draw_number(x, center_y, a)` followed
by `draw_number(x, center_y, b)` every on-screen pixel in the columns
`x + 6 len(b) .. x + 6 len(a) - 2` is as the first call left it, and in the
seven text rows it shows the glyph pixel of `a`.  For `a = 10`, `b = 9` on a
cleared framebuffer at `x = LEFT_SCORE_X`, `center_y = 100`, `b` has one digit
and `a` two, the pixel `(27, 97)` of the trailing `0` of `a` still reads
`COLOR_TEXT`, while it reads `COLOR_BG` when only `b` is drawn, so the two
framebuffers differ. -/
theorem stale_trailing_digits :
    (∀ (fb : Framebuffer) (x center_y a b : Int) (X Y : Nat), X < 320 → Y < 200 →
      x + 6 * ((long_to_string b).length : Int) ≤ X →
      (X : Int) ≤ x + 6 * ((long_to_string a).length : Int) - 2 →
      read_pixel (draw_number (draw_number fb x center_y a) x center_y b) X Y
          = read_pixel (draw_number fb x center_y a) X Y ∧
      (center_y - 3 ≤ Y ∧ (Y : Int) < center_y - 3 + 7 →
        read_pixel (draw_number (draw_number fb x center_y a) x center_y b) X Y
          = number_pixel a (X - x).toNat (Y - (center_y - 3)).toNat)) ∧
    (∀ fb : Framebuffer,
      (long_to_string 9).length = 1 ∧ (long_to_string 10).length = 2 ∧
      ((read_pixel (draw_number (draw_number (clear_screen fb) LEFT_SCORE_X 100 10)
          LEFT_SCORE_X 100 9) 27 97 : Nat) : Int) = COLOR_TEXT ∧
      ((read_pixel (draw_number (clear_screen fb) LEFT_SCORE_X 100 9) 27 97 : Nat) : Int)
        = COLOR_BG ∧
      draw_number (draw_number (clear_screen fb) LEFT_SCORE_X 100 10) LEFT_SCORE_X 100 9
        ≠ draw_number (clear_screen fb) LEFT_SCORE_X 100 9) := by
  constructor
  · intro fb x center_y a b X Y hX hY hl hr
    have hkeep := draw_number_keeps_right (draw_number fb x center_y a) x center_y b X Y hX hY
      (by omega)
    refine ⟨hkeep, fun hrow => ?_⟩
    rw [hkeep, read_pixel_draw_number fb x center_y a X Y hX hY, if_pos (by omega)]
  · intro fb
    have l9 : (long_to_string 9).length = 1 := by decide
    have l10 : (long_to_string 10).length = 2 := by decide
    have eL : LEFT_SCORE_X = 21 := by decide
    have hB : read_pixel (draw_number (draw_number (clear_screen fb) LEFT_SCORE_X 100 10)
        LEFT_SCORE_X 100 9) 27 97 = 15 := by
      rw [draw_number_keeps_right _ _ _ _ 27 97 (by decide) (by decide) (by rw [l9, eL]; decide),
        read_pixel_draw_number _ _ _ _ 27 97 (by decide) (by decide),
        if_pos (by rw [l10, eL]; decide)]
      decide
    have hC : read_pixel (draw_number (clear_screen fb) LEFT_SCORE_X 100 9) 27 97 = 0 := by
      rw [draw_number_keeps_right _ _ _ _ 27 97 (by decide) (by decide) (by rw [l9, eL]; decide),
        read_pixel_clear_screen fb 27 97 (by decide) (by decide)]
    refine ⟨l9, l10, ?_, ?_, fun heq => ?_⟩
    · rw [hB]
      rfl
    · rw [hC]
      rfl
    · rw [heq, hC] at hB
      exact absurd hB (by decide)

theorem stale_trailing_digits_witness :
    read_pixel (draw_number (draw_number (fun _ => 0) 21 100 10) 21 100 9) 27 97
        = read_pixel (draw_number (fun _ => 0) 21 100 10) 27 97 ∧
      read_pixel (draw_number (draw_number (fun _ => 0) 21 100 10) 21 100 9) 27 97 = 15 := by
  have h := stale_trailing_digits.1 (fun _ => 0) 21 100 10 9 27 97 (by decide) (by decide)
    (by decide) (by decide)
  refine ⟨h.1, ?_⟩
  rw [h.2 (by decide)]
  decide

/-! ## The states of the frame loop -/

theorem program_state_startup (s0 : State) : program_state (startup s0) := ⟨s0, 0, rfl⟩

theorem program_state_draw (s : State) (h : program_state s) : program_state (draw s) := by
  obtain ⟨s0, n, rfl⟩ := h
  exact ⟨s0, n + 1, rfl⟩

/-- Every state of the frame loop is consistent and its ball colours are colour
indices. -/
theorem program_state_consistent (s : State) (h : program_state s) : consistent_colours s := by
  obtain ⟨s0, n, rfl⟩ := h
  induction n with
  | zero => exact startup_consistent s0
  | succ n ih => exact draw_consistent _ ih

theorem board_ok_night_le (s : State) (h : board_ok s) : s.nightScore ≤ 100 := by
  obtain ⟨hc, _, hn⟩ := h
  have := cell_count_total s.squares hc
  simp only [OWNER_NIGHT] at hn
  omega

theorem consistent_scores_le (s : State) (h : consistent s) :
    s.dayScore ≤ 100 ∧ s.nightScore ≤ 100 :=
  ⟨board_ok_score_le s ⟨h.1, h.2.1, h.2.2.1⟩, board_ok_night_le s ⟨h.1, h.2.1, h.2.2.1⟩⟩

/-- The balls and the grid after the startup sequence. -/
theorem startup_fields (s0 : State) :
    (startup s0).balls 0 = ⟨50, 100, 5, 10, OWNER_DAY, DAY_BALL_COLOR⟩ ∧
      (startup s0).balls 1 = ⟨150, 100, -10, -5, OWNER_NIGHT, NIGHT_BALL_COLOR⟩ ∧
      ∀ x y : Int, 0 ≤ x → x < 10 → 0 ≤ y → y < 10 →
        (startup s0).squares y x = if x < 5 then 1 else 2 := by
  rw [startup_eq]
  have hsq : ∀ x y : Int, 0 ≤ x → x < 10 → 0 ≤ y → y < 10 →
      (init_board { s0 with screen := clear_screen s0.screen }).squares y x
        = if x < 5 then 1 else 2 := by
    intro x y h1 h2 h3 h4
    rw [init_board_eq]
    simp only [if_pos (show 0 ≤ y ∧ y < 10 ∧ 0 ≤ x ∧ x < 10 from ⟨h3, h4, h1, h2⟩)]
  generalize init_board { s0 with screen := clear_screen s0.screen } = t2 at hsq ⊢
  have q : (drawSquares t2).squares = t2.squares := by
    have h := congrArg State.squares (drawSquares_only_screen t2)
    exact h
  rw [← q] at hsq
  generalize drawSquares t2 = t3 at hsq ⊢
  obtain ⟨i0, i1, isb⟩ := init_balls_fields t3
  rw [← isb.2.1] at hsq
  generalize init_balls t3 = t4 at i0 i1 hsq ⊢
  exact ⟨i0, i1, hsq⟩

/-- The colours of the balls in every state of the frame loop are the two set
by `init_balls`. -/
theorem program_state_colours (s : State) (h : program_state s) :
    (s.balls 0).color = DAY_BALL_COLOR ∧ (s.balls 1).color = NIGHT_BALL_COLOR := by
  obtain ⟨s0, n, rfl⟩ := h
  induction n with
  | zero =>
    obtain ⟨b0, b1, _⟩ := startup_fields s0
    show ((startup s0).balls 0).color = _ ∧ ((startup s0).balls 1).color = _
    rw [b0, b1]
    exact ⟨rfl, rfl⟩
  | succ n ih =>
    show ((draw (main_frames n s0)).balls 0).color = _ ∧
      ((draw (main_frames n s0)).balls 1).color = _
    rw [(draw_ball_pos _ 0).2.2.2, (draw_ball_pos _ 1).2.2.2]
    exact ih

/-- A frame without a capture and without a ball collision: the grid is kept
and each ball is moved by `draw_move`. -/
theorem draw_plain_frame (s : State) (h0 : no_capture s.squares (draw_move (s.balls 0)))
    (h1 : no_capture s.squares (draw_move (s.balls 1)))
    (hno : ¬ boxes_overlap (draw_move (s.balls 0)) (draw_move (s.balls 1))) :
    (draw s).squares = s.squares ∧ (draw s).balls 0 = draw_move (s.balls 0) ∧
      (draw s).balls 1 = draw_move (s.balls 1) := by
  obtain ⟨e0, e1⟩ := draw_stepped_skip s h0 h1
  have hb : (draw s).balls = (draw_stepped s).balls := by
    rw [draw_balls, draw_physics_eq, e0, e1, if_neg hno]
  refine ⟨?_, ?_, ?_⟩
  · rw [(draw_board_fields s).1, (draw_physics_quiet s h0 h1).2.1, (draw_erased_fields s).1]
  · rw [hb, e0]
  · rw [hb, e1]

theorem no_capture_of_cell (sq : Int → Int → Int) (b : Ball) (gx gy : Int)
    (hx : center_gx b = gx) (hy : center_gy b = gy) (h : sq gy gx = b.owner) :
    no_capture sq b := by
  unfold no_capture
  rw [hx, hy]
  exact Or.inr (Or.inr (Or.inr (Or.inr h)))

/-- The first frame after startup: no cell is captured, the day ball moves to
`(55, 110)` and the night ball to `(140, 95)`. -/
theorem first_frame (s0 : State) :
    (∀ x y : Int, 0 ≤ x → x < 10 → 0 ≤ y → y < 10 →
      (draw (startup s0)).squares y x = if x < 5 then 1 else 2) ∧
    (draw (startup s0)).balls 0 = ⟨55, 110, 5, 10, OWNER_DAY, DAY_BALL_COLOR⟩ ∧
    (draw (startup s0)).balls 1 = ⟨140, 95, -10, -5, OWNER_NIGHT, NIGHT_BALL_COLOR⟩ := by
  obtain ⟨b0, b1, hsq⟩ := startup_fields s0
  have h0 : no_capture (startup s0).squares (draw_move ((startup s0).balls 0)) := by
    rw [b0]
    exact no_capture_of_cell _ _ 3 5 (by decide) (by decide)
      ((hsq 3 5 (by decide) (by decide) (by decide) (by decide)).trans (by decide))
  have h1 : no_capture (startup s0).squares (draw_move ((startup s0).balls 1)) := by
    rw [b1]
    exact no_capture_of_cell _ _ 7 5 (by decide) (by decide)
      ((hsq 7 5 (by decide) (by decide) (by decide) (by decide)).trans (by decide))
  obtain ⟨q, d0, d1⟩ := draw_plain_frame (startup s0) h0 h1 (by rw [b0, b1]; decide)
  refine ⟨fun x y hx hx' hy hy' => ?_, ?_, ?_⟩
  · rw [q]
    exact hsq x y hx hx' hy hy'
  · rw [d0, b0]
    decide
  · rw [d1, b1]
    decide

/-- In the second frame after startup no cell changes owner. -/
theorem second_frame_quiet (s0 : State) : no_owner_change (draw (startup s0)) := by
  obtain ⟨hsq, b0, b1⟩ := first_frame s0
  apply no_capture_no_owner_change
  · rw [b0]
    exact no_capture_of_cell _ _ 3 6 (by decide) (by decide)
      ((hsq 3 6 (by decide) (by decide) (by decide) (by decide)).trans (by decide))
  · rw [b1]
    exact no_capture_of_cell _ _ 6 4 (by decide) (by decide)
      ((hsq 6 4 (by decide) (by decide) (by decide) (by decide)).trans (by decide))

/-! ## Balls on top, dirty-flag gating, consistency: claims -/

/-- C18 (balls are drawn on top): for every state in which both scores are at
most 100, after `draw()` every pixel inside ball 1's final 10 x 10 box reads
ball 1's colour, and every pixel inside ball 0's final box that is not inside
ball 1's box reads ball 0's colour, so no territory repaint, cursor-area fill or
score redraw of the frame overwrites a ball pixel.  The colour read back is the
four-bit colour index that `put_pixel` stores, the ball's colour modulo 16: it
is the ball's colour whenever that is one of the indices `0..15`, and so in
every state the program can be in, where the colours are those of
`init_balls`. -/
theorem balls_drawn_on_top (s : State) (hd : s.dayScore ≤ 100) (hn : s.nightScore ≤ 100)
    (X Y : Nat) :
    (in_ball_box ((draw s).balls 1) X Y →
      ((read_pixel (draw s).screen X Y : Nat) : Int) = ((draw s).balls 1).color % 16 ∧
      (0 ≤ ((draw s).balls 1).color ∧ ((draw s).balls 1).color ≤ 15 →
        ((read_pixel (draw s).screen X Y : Nat) : Int) = ((draw s).balls 1).color)) ∧
    (in_ball_box ((draw s).balls 0) X Y → ¬ in_ball_box ((draw s).balls 1) X Y →
      ((read_pixel (draw s).screen X Y : Nat) : Int) = ((draw s).balls 0).color % 16 ∧
      (0 ≤ ((draw s).balls 0).color ∧ ((draw s).balls 0).color ≤ 15 →
        ((read_pixel (draw s).screen X Y : Nat) : Int) = ((draw s).balls 0).color)) ∧
    (program_state s →
      (in_ball_box ((draw s).balls 1) X Y →
        ((read_pixel (draw s).screen X Y : Nat) : Int) = ((draw s).balls 1).color) ∧
      (in_ball_box ((draw s).balls 0) X Y → ¬ in_ball_box ((draw s).balls 1) X Y →
        ((read_pixel (draw s).screen X Y : Nat) : Int) = ((draw s).balls 0).color)) := by
  have _ := hn
  obtain ⟨h1, h0⟩ := draw_ball_pixels s hd X Y
  refine ⟨fun hb => ?_, fun hb hnb => ?_, fun hp => ⟨fun hb => ?_, fun hb hnb => ?_⟩⟩
  · rw [h1 hb]
    constructor
    · omega
    · intro hc
      omega
  · rw [h0 hb hnb]
    constructor
    · omega
    · intro hc
      omega
  · have hc := (program_state_consistent _ (program_state_draw s hp)).2 1
    rw [h1 hb]
    omega
  · have hc := (program_state_consistent _ (program_state_draw s hp)).2 0
    rw [h0 hb hnb]
    omega

theorem balls_drawn_on_top_witness :
    program_state (startup boot_state) ∧
      in_ball_box ((draw (startup boot_state)).balls 1) 200 95 ∧
      ((read_pixel (draw (startup boot_state)).screen 200 95 : Nat) : Int)
        = NIGHT_BALL_COLOR := by
  obtain ⟨_, _, b1⟩ := first_frame boot_state
  obtain ⟨sd, sn⟩ := consistent_scores_le _ (startup_consistent boot_state).1
  have hb : in_ball_box ((draw (startup boot_state)).balls 1) 200 95 := by
    rw [b1]
    decide
  have h := ((balls_drawn_on_top (startup boot_state) sd sn 200 95).2.2
    (program_state_startup boot_state)).1 hb
  rw [b1] at h
  exact ⟨program_state_startup boot_state, hb, h⟩

/-- C19 (dirty-flag gating of the score redraw): for every state, `draw()` ends
with `scores_changed = 0`; and if `scores_changed` is 0 on entry and no cell
changes owner during the frame, the counters are not redrawn: no pixel outside
the game area (screen `x` in `[60, 260)`) and outside the 8 x 16 cursor
rectangle at the origin is changed by `draw()`.  The pixel part holds for every
state whose balls have `x` in `[0, 190]` on entry, which `draw()` itself
establishes, and so for every state the program can be in. -/
theorem dirty_flag_gating (s : State) :
    (draw s).scores_changed = 0 ∧
    (s.scores_changed = 0 → (∀ i, 0 ≤ (s.balls i).x ∧ (s.balls i).x ≤ 190) →
      no_owner_change s →
      ∀ X Y : Nat, X < 320 → Y < 200 → ¬ (60 ≤ X ∧ X < 260) → ¬ (X < 8 ∧ Y < 16) →
        read_pixel (draw s).screen X Y = read_pixel s.screen X Y) ∧
    (program_state s → s.scores_changed = 0 → no_owner_change s →
      ∀ X Y : Nat, X < 320 → Y < 200 → ¬ (60 ≤ X ∧ X < 260) → ¬ (X < 8 ∧ Y < 16) →
        read_pixel (draw s).screen X Y = read_pixel s.screen X Y) := by
  have key : s.scores_changed = 0 → (∀ i, 0 ≤ (s.balls i).x ∧ (s.balls i).x ≤ 190) →
      no_owner_change s →
      ∀ X Y : Nat, X < 320 → Y < 200 → ¬ (60 ≤ X ∧ X < 260) → ¬ (X < 8 ∧ Y < 16) →
        read_pixel (draw s).screen X Y = read_pixel s.screen X Y := by
    intro hc hx hno X Y hX hY hgame hcur
    obtain ⟨h0, h1⟩ := no_owner_change_no_capture s hno
    have eL : GAME_LEFT = 60 := by decide
    have n1 : ¬ in_ball_box ((draw s).balls 1) X Y := fun hb => by
      have := final_box_in_game s 1 X Y hb
      omega
    have n0 : ¬ in_ball_box ((draw s).balls 0) X Y := fun hb => by
      have := final_box_in_game s 0 X Y hb
      omega
    have m : ∀ i, ¬ in_ball_box (s.balls i) X Y := fun i hb => by
      unfold in_ball_box at hb
      simp only [eL, BALL_SIZE] at hb
      have := hx i
      omega
    rw [draw_pixels_quiet s hc h0 h1 X Y hX hY, if_neg n1, if_neg n0,
      draw_erased_outside s X Y hX hY hcur (m 0) (m 1)]
  refine ⟨draw_scores_changed s, key, fun hp hc hno => key hc (fun i => ?_) hno⟩
  have hpos := (program_state_consistent s hp).1.2.2.2.2.2.1 i
  exact ⟨hpos.1, hpos.2.1⟩

theorem dirty_flag_gating_witness :
    program_state (draw (startup boot_state)) ∧
      (draw (draw (startup boot_state))).scores_changed = 0 ∧
      read_pixel (draw (draw (startup boot_state))).screen 40 50
        = read_pixel (draw (startup boot_state)).screen 40 50 :=
  ⟨program_state_draw _ (program_state_startup boot_state),
    (dirty_flag_gating (draw (startup boot_state))).1,
    (dirty_flag_gating (draw (startup boot_state))).2.2
      (program_state_draw _ (program_state_startup boot_state))
      (draw_scores_changed (startup boot_state)) (second_frame_quiet boot_state)
      40 50 (by decide) (by decide) (by decide) (by decide)⟩

/-- C20 (framebuffer/state consistency is a loop invariant): with `consistent`
as the claim defines it, the startup sequence of `main` produces a consistent
state, from any initial globals, and `draw()` maps every consistent state to a
consistent state.  The ball colours of the states in question are colour
indices `0..15`: they are after startup, `draw()` keeps them, so every state the
program can be in is consistent and is mapped by `draw()` to a consistent
state. -/
theorem consistency_invariant (s : State) :
    consistent_colours (startup s) ∧ (consistent_colours s → consistent_colours (draw s)) ∧
      (program_state s → consistent s ∧ consistent (draw s)) :=
  ⟨startup_consistent s, draw_consistent s,
    fun hp => ⟨(program_state_consistent s hp).1,
      (draw_consistent s (program_state_consistent s hp)).1⟩⟩

theorem consistency_invariant_witness :
    consistent_colours (startup boot_state) ∧ consistent_colours (draw (startup boot_state)) ∧
      consistent (draw (draw (startup boot_state))) :=
  ⟨(consistency_invariant boot_state).1,
    (consistency_invariant (startup boot_state)).2.1 (consistency_invariant boot_state).1,
    ((consistency_invariant (draw (startup boot_state))).2.2
      (program_state_draw _ (program_state_startup boot_state))).2⟩

end PongWars
